import Mathlib

/-!
# Stack component instances: planning, applying and result values

A shallow embedding of
`internal/stacks/stackruntime/internal/stackeval/component_instance.go`.

Go maps are association lists (the list order is the order in which a `range`
loop happens to visit the entries), Go pointers that may be nil are `Option`s,
and calls into code outside the file are fields of the records that stand for
the objects the methods are called on.  Every function of the file that calls
a side-effecting collaborator also returns the list of those calls, so that
"is called with" and "is never called" are statements about that list.
-/

set_option autoImplicit false

namespace Stackeval

/-! ## Go maps -/

/-- A Go `map[κ]ν`: the entries, in the order a `range` loop visits them. -/
abbrev GoMap (κ ν : Type) := List (κ × ν)

namespace GoMap

variable {κ ν : Type} [DecidableEq κ]

/-- The Go expression `v, ok := m[k]`. -/
def lookup : GoMap κ ν → κ → Option ν
  | [], _ => none
  | (k', v) :: rest, k => if k' = k then some v else lookup rest k

/-- The Go statement `m[k] = v`. -/
def store : GoMap κ ν → κ → ν → GoMap κ ν
  | [], k, v => [(k, v)]
  | (k', v') :: rest, k, v =>
    if k' = k then (k, v) :: rest else (k', v') :: store rest k v

/-- The keys of the map. -/
def keys (m : GoMap κ ν) : List κ := m.map Prod.fst

end GoMap

/-! ## The fragment of `cty` the file uses

The value library `github.com/zclconf/go-cty` is not part of the repository.
The types and the methods that `component_instance.go` calls are given here
after the documented behaviour of the library: primitive and object types,
unknown and null values, object values and marks. -/

/-- The `cty.Type`s: `NilType` is the invalid zero type. -/
inductive CtyType where
  | NilType
  | DynamicPseudoType
  | PrimString
  | PrimNumber
  | PrimBool
  | Object (attrs : List (String × CtyType))

/-- The value marks; `marks.Sensitive` is the one the file applies. -/
inductive Mark where
  | Sensitive
  | Other (name : String)
  deriving DecidableEq, Repr

/-- The `cty.Value`s: `NilVal` is the invalid zero value, `Unknown ty` is
`cty.UnknownVal(ty)`, and `Marked v m` is `v.Mark(m)`. -/
inductive CtyValue where
  | NilVal
  | Unknown (ty : CtyType)
  | Null (ty : CtyType)
  | StringVal (s : String)
  | NumberVal (n : Int)
  | BoolVal (b : Bool)
  | ObjectVal (attrs : List (String × CtyValue))
  | Marked (v : CtyValue) (m : Mark)

namespace CtyType

/-- The Go comparison `ty == cty.NilType`. -/
def isNilType : CtyType → Bool
  | NilType => true
  | _ => false

/-- The method `Type.AttributeTypes`: the attribute map of an object type; it panics on
any other type. -/
def AttributeTypes : CtyType → Option (GoMap String CtyType)
  | Object attrs => some attrs
  | _ => none

end CtyType

namespace CtyValue

/-- The value `cty.DynamicVal`, the unknown value of unknown type. -/
def DynamicVal : CtyValue := Unknown CtyType.DynamicPseudoType

/-- The Go comparison `v == cty.NilVal`. -/
def isNilVal : CtyValue → Bool
  | NilVal => true
  | _ => false

/-- The method `Value.IsKnown`: marks are looked through, nested values are not. -/
def IsKnown : CtyValue → Bool
  | Unknown _ => false
  | Marked v _ => IsKnown v
  | _ => true

mutual
/-- The method `Value.IsWhollyKnown`: known, and so is every nested attribute. -/
def IsWhollyKnown : CtyValue → Bool
  | Unknown _ => false
  | Marked v _ => IsWhollyKnown v
  | ObjectVal attrs => attrsWhollyKnown attrs
  | _ => true
/-- The loop of `IsWhollyKnown` over the attributes of an object. -/
def attrsWhollyKnown : List (String × CtyValue) → Bool
  | [] => true
  | (_, v) :: rest => IsWhollyKnown v && attrsWhollyKnown rest
end

/-- The method `Value.GetAttr`: the named attribute of an object value.  A marked value
hands its marks to the attribute, a value of dynamic type gives `DynamicVal`,
an unknown object gives an unknown of the attribute's type, and anything that
is not an object with that attribute panics. -/
def GetAttr : CtyValue → String → Except String CtyValue
  | Marked v m, name =>
    match GetAttr v name with
    | .ok a => .ok (Marked a m)
    | .error e => .error e
  | Unknown CtyType.DynamicPseudoType, _ => .ok DynamicVal
  | Null CtyType.DynamicPseudoType, _ => .ok DynamicVal
  | Unknown (CtyType.Object tys), name =>
    match GoMap.lookup tys name with
    | some ty => .ok (Unknown ty)
    | none => .error "value has no attribute of that name"
  | ObjectVal attrs, name =>
    match GoMap.lookup attrs name with
    | some v => .ok v
    | none => .error "value has no attribute of that name"
  | Null (CtyType.Object _), _ => .error "interface conversion: interface is nil"
  | _, _ => .error "value is not an object"

/-- The method `Value.HasMark`: whether the value itself carries the mark. -/
def HasMark : CtyValue → Mark → Bool
  | Marked v m', m => decide (m' = m) || HasMark v m
  | _, _ => false

/-- The method `Value.Mark`: the value with the mark added to its set of marks. -/
def Mark (v : CtyValue) (m : Stackeval.Mark) : CtyValue :=
  if v.HasMark m then v else Marked v m

/-- The constructor `cty.ObjectVal(attrs)`. -/
def ofAttrs (attrs : GoMap String CtyValue) : CtyValue := ObjectVal attrs

end CtyValue

/-! ## Diagnostics

The package `tfdiags` is outside the sources at hand; a diagnostic is given
with its severity and its two texts. -/

/-- The severities of `tfdiags`. -/
inductive Severity where
  | Error
  | Warning
  deriving DecidableEq, Repr

/-- One diagnostic. -/
structure Diagnostic where
  Severity : Severity
  Summary : String
  Detail : String
  deriving DecidableEq, Repr

/-- A `tfdiags.Diagnostics` value; `Append` is list append. -/
abbrev Diagnostics := List Diagnostic

/-- The method `Diagnostics.HasErrors`. -/
def Diagnostics.HasErrors (diags : Diagnostics) : Bool :=
  diags.any (fun d => decide (d.Severity = Severity.Error))

/-! ## Addresses, modes and actions

The address types (`addrs`, `stackaddrs`), the evaluation phases and the
planning modes and actions (`plans`) are declared outside the sources at hand.
Each is given with the fields and constants that `component_instance.go`
names; an enumeration also has the other constants of its type, which the
file reaches only through a default branch. -/

/-- The `addrs.InstanceKey`s; `WildcardKey` stands for an unknown `for_each`. -/
inductive InstanceKey where
  | NoKey
  | IntKey (i : Int)
  | StringKey (s : String)
  | WildcardKey
  deriving DecidableEq, Repr

/-- One step of a stack instance path. -/
structure StackInstanceStep where
  Name : String
  Key : InstanceKey
  deriving DecidableEq, Repr

/-- A `stackaddrs.StackInstance`: the path from the root stack. -/
abbrev StackInstance := List StackInstanceStep

/-- A `stackaddrs.Component`. -/
structure ComponentAddr where
  Name : String
  deriving DecidableEq, Repr

/-- A `stackaddrs.AbsComponent`. -/
structure AbsComponent where
  Stack : StackInstance
  Item : ComponentAddr
  deriving DecidableEq, Repr

/-- A `stackaddrs.ComponentInstance`. -/
structure ComponentInstanceAddr where
  Component : ComponentAddr
  Key : InstanceKey
  deriving DecidableEq, Repr

/-- A `stackaddrs.AbsComponentInstance`. -/
structure AbsComponentInstance where
  Stack : StackInstance
  Item : ComponentInstanceAddr
  deriving DecidableEq, Repr

/-- An `addrs.OutputValue`. -/
structure OutputValue where
  Name : String
  deriving DecidableEq, Repr

/-- The evaluation phases. -/
inductive EvalPhase where
  | NoPhase
  | ValidatePhase
  | PlanPhase
  | ApplyPhase
  | InspectPhase
  deriving DecidableEq, Repr

/-- The `plans.Mode`s. -/
inductive Mode where
  | NormalMode
  | DestroyMode
  | RefreshOnlyMode
  deriving DecidableEq, Repr

/-- The `plans.Action`s. -/
inductive Action where
  | NoOp
  | Create
  | Read
  | Update
  | DeleteThenCreate
  | CreateThenDelete
  | Delete
  deriving DecidableEq, Repr

/-! ## States, plans and results

The structs of `states`, `plans`, `terraform` and `stackplan` are declared
outside the sources at hand; each is given with the fields that
`component_instance.go` reads or writes. -/

/-- A `states.OutputValue`: a root output value held in a state. -/
structure StateOutputValue where
  Addr : OutputValue
  Value : CtyValue
  Sensitive : Bool

/-- A `states.State`, as far as this file looks into it: the root output
values, and a tag for everything else. -/
structure State where
  RootOutputValues : GoMap String StateOutputValue
  Rest : List String

/-- The constructor `states.NewState()`. -/
def State.NewState : State := { RootOutputValues := [], Rest := [] }

/-- An encoded value, `plans.DynamicValue`. -/
abbrev DynamicValue := List Nat

/-- A `cty.PathValueMarks`. -/
structure PathValueMarks where
  Path : List String
  Marks : List Mark
  deriving DecidableEq, Repr

/-- A Go map variable: nil, or the address of a map in the heap.  Go maps are
references, so copying a plan copies the two addresses and not the entries. -/
abbrev MapRef := Option Nat

/-- A `plans.Plan`, as far as this file looks into it. -/
structure Plan where
  UIMode : Mode
  PrevRunState : Option State
  VariableValues : MapRef
  VariableMarks : MapRef
  Rest : List String

/-- The memory that plans live in: the plan structs that pointers point to,
and the maps of the two kinds.  An address is an index. -/
structure Heap where
  Plans : List Plan
  Values : List (GoMap String DynamicValue)
  Marks : List (GoMap String (List PathValueMarks))

namespace Heap

/-- The Go expression `make(map[string]plans.DynamicValue, n)`. -/
def makeValues (h : Heap) : Nat × Heap :=
  (h.Values.length, { h with Values := h.Values ++ [[]] })

/-- The Go expression `make(map[string][]cty.PathValueMarks, n)`. -/
def makeMarks (h : Heap) : Nat × Heap :=
  (h.Marks.length, { h with Marks := h.Marks ++ [[]] })

/-- Taking the address of a local plan struct. -/
def allocPlan (h : Heap) (p : Plan) : Nat × Heap :=
  (h.Plans.length, { h with Plans := h.Plans ++ [p] })

/-- The Go statement `m[k] = v` on the map of encoded values at `r`. -/
def storeValue (h : Heap) (r : Nat) (k : String) (v : DynamicValue) : Heap :=
  { h with Values := h.Values.set r (GoMap.store (h.Values.getD r []) k v) }

/-- The Go statement `m[k] = v` on the map of marks at `r`. -/
def storeMarks (h : Heap) (r : Nat) (k : String) (v : List PathValueMarks) : Heap :=
  { h with Marks := h.Marks.set r (GoMap.store (h.Marks.getD r []) k v) }

end Heap

/-- A `ComponentInstanceApplyResult`. -/
structure ComponentInstanceApplyResult where
  FinalState : Option State
  AffectedResourceInstanceObjects : List String
  Complete : Bool

/-- The `terraform.ValueSourceType`s. -/
inductive ValueSourceType where
  | ValueFromUnknown
  | ValueFromConfig
  | ValueFromAutoFile
  | ValueFromNamedFile
  | ValueFromCLIArg
  | ValueFromEnvVar
  | ValueFromInput
  | ValueFromPlan
  | ValueFromCaller
  deriving DecidableEq, Repr

/-- A `terraform.InputValue`. -/
structure InputValue where
  Value : CtyValue
  SourceType : ValueSourceType

/-- A `terraform.InputValues`; a nil map is `none` where the difference
matters. -/
abbrev InputValues := GoMap String InputValue

/-- A `terraform.PlanOpts`, with the fields the file sets. -/
structure PlanOpts where
  Mode : Mode
  SetVariables : InputValues
  ExternalProviders : List String
  DeferralAllowed : Bool
  ExternalDependencyDeferred : Bool
  ForcePlanTimestamp : Nat

/-- A `stackplan.Component`: the entry of a component instance in a stack
plan. -/
structure StackPlanComponent where
  PlannedAction : Action
  PlannedOutputValues : GoMap OutputValue CtyValue

/-! ## The objects a component instance talks to -/

/-- A `configs.Output`: an output value declared in a module. -/
structure ConfigOutput where
  Name : String
  deriving DecidableEq, Repr

/-- A `configs.Config`, as far as this file looks into it: `Module.Outputs`. -/
structure ModuleConfig where
  Outputs : GoMap String ConfigOutput

/-- A `ComponentConfig`: what `Config(ctx)` of a component returns.
`InputsType` is the first result of the method of that name and `ModuleTree`
the result of `ModuleTree(ctx)`, nil when the module tree is unavailable. -/
structure ComponentConfig where
  InputsType : CtyType
  ModuleTree : Option ModuleConfig

/-- A `Component`: the component block an instance belongs to, and also what a
stack returns for the address of another component. -/
structure Component where
  addr : AbsComponent
  Config : ComponentConfig
  RequiredComponents : List AbsComponent
  PlanIsComplete : Bool

/-- A `Removed` block as a stack returns it. -/
structure Removed where
  PlanIsComplete : Bool

/-- A `Stack` as `Main.Stack` returns it: its two lookups. -/
structure Stack where
  Component : ComponentAddr → Option Component
  Removed : ComponentAddr → Option Removed

/-- A `*stackstate.State`.  The pointer may be nil (`isNil`); the four methods
belong to another package and are taken as they are. -/
structure StackState where
  isNil : Bool
  HasComponentInstance : AbsComponentInstance → Bool
  DependentsForComponent : AbsComponentInstance → List AbsComponent
  ResultsForComponent : AbsComponentInstance → GoMap OutputValue CtyValue
  ComponentInstanceStateForModulesRuntime : AbsComponentInstance → Option State

/-- A `*stackplan.Plan`: `Components.Get`. -/
structure StackPlan where
  Components : AbsComponentInstance → Option StackPlanComponent

/-- The `Main` evaluator an instance belongs to.  `PlanningMode` is
`PlanningOpts().PlanningMode`; `ComponentInstanceResult` is the method of that
name of `ApplyChangeResults()`, with its three results. -/
structure Main where
  Planning : Bool
  Applying : Bool
  PlanningMode : Mode
  PlanTimestamp : Nat
  Stack : StackInstance → EvalPhase → Option Stack
  PlanPrevState : StackState
  PlanBeingApplied : StackPlan
  ComponentInstanceResult :
    AbsComponentInstance → Option ComponentInstanceApplyResult × Diagnostics × Option String
  InspectingState : StackState

/-- A planned change of a stack plan, opaque here. -/
abbrev PlannedChange := String

/-- The package-level functions of other files that the methods call, for one
component instance.  Arguments that the instance determines are left out. -/
structure Externals where
  EvalComponentInputVariables : CtyType → EvalPhase → CtyValue × Diagnostics
  EvalProviderValues : EvalPhase → List String × List String × Diagnostics
  configuredProviderClients : List String → List String → EvalPhase → List String
  PlanComponentInstance : State → PlanOpts → Option Plan × Diagnostics
  ApplyComponentPlan : Heap → Nat → Option ComponentInstanceApplyResult × Diagnostics × Heap
  OutputsFromPlan : Option ModuleConfig → Plan → GoMap String CtyValue
  FromPlan : Option ModuleConfig → Plan → Action → List PlannedChange × Diagnostics
  UnmarkDeepWithPaths : CtyValue → CtyValue × List PathValueMarks
  NewDynamicValue : CtyValue → Except String DynamicValue
  fmtAddr : AbsComponentInstance → String

/-- A `ComponentInstance`. -/
structure ComponentInstance where
  call : Component
  key : InstanceKey
  deferred : Bool
  main : Main
  ext : Externals

/-- The calls a method makes that start work elsewhere or wait for it. -/
inductive Call where
  | CheckModuleTreePlan
  | PlanComponentInstance (prevState : State) (opts : PlanOpts)
  | ApplyComponentPlan (plan : Nat)
  | ComponentInstanceResult (addr : AbsComponentInstance)
  | FromPlan (plan : Plan) (action : Action)

namespace ComponentInstance

open EvalPhase

/-- The method `Addr`. -/
def Addr (c : ComponentInstance) : AbsComponentInstance :=
  let callAddr := c.call.addr
  let stackAddr := callAddr.Stack
  { Stack := stackAddr, Item := { Component := callAddr.Item, Key := c.key } }

/-- The method `CheckInputVariableValues`. -/
def CheckInputVariableValues (c : ComponentInstance) (phase : EvalPhase) :
    CtyValue × Diagnostics :=
  let wantTy := c.call.Config.InputsType
  if wantTy.isNilType then
    (CtyValue.DynamicVal, [])
  else
    let (val, diags) := c.ext.EvalComponentInputVariables wantTy phase
    if phase = ApplyPhase then
      if !val.IsWhollyKnown then
        (CtyValue.NilVal, diags)
      else
        (val, diags)
    else
      (val, diags)

/-- The method `InputVariableValues`. -/
def InputVariableValues (c : ComponentInstance) (phase : EvalPhase) : CtyValue :=
  (c.CheckInputVariableValues phase).1

/-- The loop of `inputValuesForModulesRuntime` over the wanted attributes. -/
def inputValuesLoop (valsObj : CtyValue) :
    List (String × CtyType) → InputValues → Except String InputValues
  | [], ret => .ok ret
  | (name, aty) :: rest, ret =>
    match valsObj.GetAttr name with
    | .error e => .error e
    | .ok v =>
      let v := if !v.IsKnown then CtyValue.Unknown aty else v
      inputValuesLoop valsObj rest
        (GoMap.store ret name { Value := v, SourceType := ValueSourceType.ValueFromCaller })

/-- The method `inputValuesForModulesRuntime`; `none` is the nil map. -/
def inputValuesForModulesRuntime (c : ComponentInstance) (phase : EvalPhase) :
    Except String (Option InputValues) :=
  let valsObj := c.InputVariableValues phase
  if valsObj.isNilVal then
    .ok none
  else
    let wantTy := c.call.Config.InputsType
    if wantTy.isNilType then
      .ok none
    else
      match wantTy.AttributeTypes with
      | none => .error "AttributeTypes on non-object Type"
      | some wantAttrs =>
        match inputValuesLoop valsObj wantAttrs [] with
        | .error e => .error e
        | .ok ret => .ok (some ret)

/-- The method `PlanPrevState`. -/
def PlanPrevState (c : ComponentInstance) : State :=
  let stackState := c.main.PlanPrevState
  match stackState.ComponentInstanceStateForModulesRuntime c.Addr with
  | none => State.NewState
  | some ret => ret

/-- The method `PlanPrevDependents`. -/
def PlanPrevDependents (c : ComponentInstance) : List AbsComponent :=
  c.main.PlanPrevState.DependentsForComponent c.Addr

/-- The method `PlanPrevResult`. -/
def PlanPrevResult (c : ComponentInstance) : GoMap OutputValue CtyValue :=
  c.main.PlanPrevState.ResultsForComponent c.Addr

/-- The loop of `CheckModuleTreePlan` over the previous dependents in destroy
mode: it stops at the first dependent without a stack or a component, and at
the first one whose plan is incomplete, which it answers with `true`. -/
def destroyDependentsLoop (c : ComponentInstance) : List AbsComponent → Bool → Bool
  | [], deferred => deferred
  | depAddr :: rest, deferred =>
    match c.main.Stack depAddr.Stack PlanPhase with
    | none => deferred
    | some depStack =>
      match depStack.Component depAddr.Item with
      | none => deferred
      | some depComponent =>
        if !depComponent.PlanIsComplete then true
        else destroyDependentsLoop c rest deferred

/-- The loop of `CheckModuleTreePlan` over the required components. -/
def requiredComponentsLoop (c : ComponentInstance) : List AbsComponent → Bool → Bool
  | [], deferred => deferred
  | depAddr :: rest, deferred =>
    match c.main.Stack depAddr.Stack PlanPhase with
    | none => true
    | some depStack =>
      match depStack.Component depAddr.Item with
      | none => true
      | some depComponent =>
        if !depComponent.PlanIsComplete then true
        else requiredComponentsLoop c rest deferred

/-- The loop of `CheckModuleTreePlan` over the previous dependents outside
destroy mode, which looks at their removed blocks. -/
def removedDependentsLoop (c : ComponentInstance) : List AbsComponent → Bool → Bool
  | [], deferred => deferred
  | depAddr :: rest, deferred =>
    match c.main.Stack depAddr.Stack PlanPhase with
    | none => deferred
    | some depStack =>
      match depStack.Removed depAddr.Item with
      | none => deferred
      | some depRemoved =>
        if !depRemoved.PlanIsComplete then true
        else removedDependentsLoop c rest deferred

/-- The loop of `CheckModuleTreePlan` over the steps of the stack path. -/
def stackStepsLoop : List StackInstanceStep → Bool → Bool
  | [], deferred => deferred
  | step :: rest, deferred =>
    if step.Key = InstanceKey.WildcardKey then true
    else stackStepsLoop rest deferred

/-- The value of the local `deferred` of `CheckModuleTreePlan` when the plan
options are built. -/
def externalDependencyDeferred (c : ComponentInstance) : Bool :=
  let deferred := c.deferred
  let deferred :=
    if c.main.PlanningMode = Mode.DestroyMode then
      destroyDependentsLoop c c.PlanPrevDependents deferred
    else
      let deferred := requiredComponentsLoop c c.call.RequiredComponents deferred
      removedDependentsLoop c c.PlanPrevDependents deferred
  if c.key = InstanceKey.WildcardKey then
    true
  else
    stackStepsLoop c.call.addr.Stack deferred

/-- The function that `CheckModuleTreePlan` hands to `doOnceWithDiags`: what
the first call computes. -/
def checkModuleTreePlanOnce (c : ComponentInstance) :
    Except String ((Option Plan × Diagnostics) × List Call) :=
  let diags : Diagnostics := []
  let stackPlanOptsMode := c.main.PlanningMode
  match c.inputValuesForModulesRuntime PlanPhase with
  | .error e => .error e
  | .ok none => .ok ((none, diags), [])
  | .ok (some inputValues) =>
    if Diagnostics.HasErrors diags then
      .ok ((none, diags), [])
    else
      let (known, unknown, moreDiags) := c.ext.EvalProviderValues PlanPhase
      if Diagnostics.HasErrors moreDiags then
        let diags := diags ++ [{
          Severity := Severity.Error
          Summary := "Cannot plan component"
          Detail := "Cannot generate a plan for " ++ c.ext.fmtAddr c.Addr ++
            " because its provider configuration assignments are invalid." }]
        .ok ((none, diags), [])
      else
        let providerClients := c.ext.configuredProviderClients known unknown PlanPhase
        let deferred := c.externalDependencyDeferred
        let plantimestamp := c.main.PlanTimestamp
        let opts : PlanOpts := {
          Mode := stackPlanOptsMode
          SetVariables := inputValues
          ExternalProviders := providerClients
          DeferralAllowed := true
          ExternalDependencyDeferred := deferred
          ForcePlanTimestamp := plantimestamp }
        let (plan, moreDiags) := c.ext.PlanComponentInstance c.PlanPrevState opts
        .ok ((plan, diags ++ moreDiags), [Call.PlanComponentInstance c.PlanPrevState opts])

/-- The method `CheckModuleTreePlan`. -/
def CheckModuleTreePlan (c : ComponentInstance) :
    Except String ((Option Plan × Diagnostics) × List Call) :=
  if !c.main.Planning then
    .error "called CheckModuleTreePlan with an evaluator not instantiated for planning"
  else
    match c.checkModuleTreePlanOnce with
    | .error e => .error e
    | .ok (ret, calls) => .ok (ret, Call.CheckModuleTreePlan :: calls)

/-- The method `ModuleTreePlan`. -/
def ModuleTreePlan (c : ComponentInstance) : Except String (Option Plan × List Call) :=
  match c.CheckModuleTreePlan with
  | .error e => .error e
  | .ok ((ret, _), calls) => .ok (ret, calls)

/-- The method `PlaceholderApplyResultForSkippedApply`. -/
def PlaceholderApplyResultForSkippedApply (_c : ComponentInstance) (plan : Plan) :
    ComponentInstanceApplyResult :=
  { FinalState := plan.PrevRunState
    AffectedResourceInstanceObjects := []
    Complete := false }

/-- The diagnostic of `ApplyModuleTreePlan` for a value that cannot be
encoded. -/
def encodeErrorDiag (c : ComponentInstance) (name err : String) : Diagnostic :=
  { Severity := Severity.Error
    Summary := "Failed to encode input variable value"
    Detail := "Could not encode the value of input variable " ++ name.quote ++ " of " ++
      c.ext.fmtAddr c.Addr ++ ": " ++ err ++
      ".\n\nThis is a bug in Terraform; please report it!" }

/-- The loop of `ApplyModuleTreePlan` over the input values, writing to the
maps at `vref` and `mref`. -/
def encodeLoop (c : ComponentInstance) (vref mref : Nat) :
    List (String × InputValue) → Heap → Diagnostics → Heap × Diagnostics
  | [], heap, diags => (heap, diags)
  | (name, iv) :: rest, heap, diags =>
    let (val, pvm) := c.ext.UnmarkDeepWithPaths iv.Value
    match c.ext.NewDynamicValue val with
    | .error err => encodeLoop c vref mref rest heap (diags ++ [c.encodeErrorDiag name err])
    | .ok dv =>
      encodeLoop c vref mref rest ((heap.storeValue vref name dv).storeMarks mref name pvm) diags

/-- The input values that cannot be encoded, each with the error of
`plans.NewDynamicValue`, in the order the loop visits them. -/
def encodeFailures (c : ComponentInstance) : List (String × InputValue) → List (String × String)
  | [] => []
  | (name, iv) :: rest =>
    match c.ext.NewDynamicValue (c.ext.UnmarkDeepWithPaths iv.Value).1 with
    | .error err => (name, err) :: encodeFailures c rest
    | .ok _ => encodeFailures c rest

/-- The method `ApplyModuleTreePlan`, on the plan at address `plan`.  The
results are the returned pair, the calls made and the memory afterwards. -/
def ApplyModuleTreePlan (c : ComponentInstance) (heap : Heap) (plan : Nat) :
    Except String
      ((Option ComponentInstanceApplyResult × Diagnostics) × List Call × Heap) :=
  let diags : Diagnostics := []
  if !c.main.Applying then
    .error "called ApplyModuleTreePlan with an evaluator not instantiated for applying"
  else
    match heap.Plans[plan]? with
    | none => .error "invalid memory address or nil pointer dereference"
    | some planVal =>
      let noOpResult := c.PlaceholderApplyResultForSkippedApply planVal
      let modifiedPlan := planVal
      match c.inputValuesForModulesRuntime ApplyPhase with
      | .error e => .error e
      | .ok none => .ok ((some noOpResult, diags), [], heap)
      | .ok (some inputValues) =>
        let (vref, heap) := heap.makeValues
        let (mref, heap) := heap.makeMarks
        let modifiedPlan :=
          { modifiedPlan with VariableValues := some vref, VariableMarks := some mref }
        let (heap, diags) := encodeLoop c vref mref inputValues heap diags
        if Diagnostics.HasErrors diags then
          .ok ((some noOpResult, diags), [], heap)
        else
          let (ptr, heap) := heap.allocPlan modifiedPlan
          let (result, moreDiags, heap) := c.ext.ApplyComponentPlan heap ptr
          .ok ((result, diags ++ moreDiags), [Call.ApplyComponentPlan ptr], heap)

/-- The method `CheckApplyResult`. -/
def CheckApplyResult (c : ComponentInstance) :
    (Option ComponentInstanceApplyResult × Diagnostics) × List Call :=
  let diags : Diagnostics := []
  let (applyResult, moreDiags, err) := c.main.ComponentInstanceResult c.Addr
  let diags := diags ++ moreDiags
  let diags :=
    match err with
    | some e =>
      diags ++ [{
        Severity := Severity.Error
        Summary := "Component instance apply not scheduled"
        Detail := "Terraform needs the result from applying changes to " ++
          c.ext.fmtAddr c.Addr ++ ", but that apply was apparently not scheduled to run: " ++
          e ++ ". This is a bug in Terraform." }]
    | none => diags
  ((applyResult, diags), [Call.ComponentInstanceResult c.Addr])

/-- The method `ApplyResult`. -/
def ApplyResult (c : ComponentInstance) :
    Option ComponentInstanceApplyResult × List Call :=
  (c.CheckApplyResult.1.1, c.CheckApplyResult.2)

/-- The method `CheckApplyResultState`. -/
def CheckApplyResultState (c : ComponentInstance) :
    (Option State × Diagnostics) × List Call :=
  let ((result, diags), calls) := c.CheckApplyResult
  let newState : Option State :=
    match result with
    | some result => result.FinalState
    | none => none
  ((newState, diags), calls)

/-- The method `ApplyResultState`. -/
def ApplyResultState (c : ComponentInstance) : Option State × List Call :=
  (c.CheckApplyResultState.1.1, c.CheckApplyResultState.2)

/-- The method `InspectingState`. -/
def InspectingState (c : ComponentInstance) : Option State :=
  let wholeState := c.main.InspectingState
  wholeState.ComponentInstanceStateForModulesRuntime c.Addr

/-- The method `ModuleTree`. -/
def ModuleTree (c : ComponentInstance) : Option ModuleConfig :=
  c.call.Config.ModuleTree

/-- The two loops of `ResultValue` that copy a map of output values, keyed by
address, into a map keyed by name. -/
def outputValuesLoop :
    List (OutputValue × CtyValue) → GoMap String CtyValue → GoMap String CtyValue
  | [], obj => obj
  | (k, v) :: rest, obj => outputValuesLoop rest (GoMap.store obj k.Name v)

/-- The loop of `ResultValue`, in a destroy plan, over the declared outputs. -/
def declaredOutputsLoop :
    List (String × ConfigOutput) → GoMap String CtyValue → GoMap String CtyValue
  | [], obj => obj
  | (name, _) :: rest, obj =>
    match GoMap.lookup obj name with
    | some _ => declaredOutputsLoop rest obj
    | none => declaredOutputsLoop rest (GoMap.store obj name CtyValue.DynamicVal)

/-- The loop of `ResultValue` over the root output values of a state. -/
def stateOutputsLoop :
    List (String × StateOutputValue) → GoMap String CtyValue → GoMap String CtyValue
  | [], attrs => attrs
  | (_, ov) :: rest, attrs =>
    let name := ov.Addr.Name
    if ov.Sensitive then
      stateOutputsLoop rest (GoMap.store attrs name (ov.Value.Mark Mark.Sensitive))
    else
      stateOutputsLoop rest (GoMap.store attrs name ov.Value)

/-- The loop of `ResultValue`, after an apply, over the declared outputs. -/
def missingOutputsLoop :
    List (String × ConfigOutput) → GoMap String CtyValue → GoMap String CtyValue
  | [], attrs => attrs
  | (_, output) :: rest, attrs =>
    match GoMap.lookup attrs output.Name with
    | some _ => missingOutputsLoop rest attrs
    | none => missingOutputsLoop rest (GoMap.store attrs output.Name CtyValue.DynamicVal)

/-- The part of `ResultValue` that the apply and inspect phases share, from
the nil check of the state on. -/
def resultValueFromState (c : ComponentInstance) (state : Option State) (calls : List Call) :
    Except String (CtyValue × List Call) :=
  match state with
  | none => .ok (CtyValue.DynamicVal, calls)
  | some state =>
    let outputVals := state.RootOutputValues
    let attrs := stateOutputsLoop outputVals []
    match c.call.Config.ModuleTree with
    | none => .error "invalid memory address or nil pointer dereference"
    | some config => .ok (CtyValue.ofAttrs (missingOutputsLoop config.Outputs attrs), calls)

/-- The method `ResultValue`. -/
def ResultValue (c : ComponentInstance) (phase : EvalPhase) :
    Except String (CtyValue × List Call) :=
  match phase with
  | PlanPhase =>
    if c.main.PlanningMode = Mode.DestroyMode then
      let prevResult := c.PlanPrevResult
      let obj := outputValuesLoop prevResult []
      match c.call.Config.ModuleTree with
      | none => .ok (CtyValue.DynamicVal, [])
      | some moduleTree =>
        .ok (CtyValue.ofAttrs (declaredOutputsLoop moduleTree.Outputs obj), [])
    else
      match c.ModuleTreePlan with
      | .error e => .error e
      | .ok (none, calls) => .ok (CtyValue.DynamicVal, calls)
      | .ok (some plan, calls) =>
        .ok (CtyValue.ofAttrs (c.ext.OutputsFromPlan c.ModuleTree plan), calls)
  | ApplyPhase =>
    let fullPlan := c.main.PlanBeingApplied
    match fullPlan.Components c.Addr with
    | none => .ok (CtyValue.DynamicVal, [])
    | some ourPlan =>
      if ourPlan.PlannedAction = Action.Delete then
        let attrs := outputValuesLoop ourPlan.PlannedOutputValues []
        .ok (CtyValue.ofAttrs attrs, [])
      else
        let (state, calls) := c.ApplyResultState
        resultValueFromState c state calls
  | InspectPhase =>
    resultValueFromState c c.InspectingState []
  | _ => .ok (CtyValue.DynamicVal, [])

/-- The method `PlanChanges`. -/
def PlanChanges (c : ComponentInstance) :
    Except String ((List PlannedChange × Diagnostics) × List Call) :=
  let changes : List PlannedChange := []
  let diags : Diagnostics := []
  let moreDiags := (c.CheckInputVariableValues PlanPhase).2
  let diags := diags ++ moreDiags
  let moreDiags := (c.ext.EvalProviderValues PlanPhase).2.2
  let diags := diags ++ moreDiags
  match c.CheckModuleTreePlan with
  | .error e => .error e
  | .ok ((corePlan, moreDiags), calls) =>
    let diags := diags ++ moreDiags
    match corePlan with
    | none => .ok ((changes, diags), calls)
    | some corePlan =>
      let existedBefore :=
        if !c.main.PlanPrevState.isNil then
          c.main.PlanPrevState.HasComponentInstance c.Addr
        else
          false
      let destroying := decide (corePlan.UIMode = Mode.DestroyMode)
      let refreshOnly := decide (corePlan.UIMode = Mode.RefreshOnlyMode)
      let action :=
        if destroying then Action.Delete
        else if refreshOnly then Action.Read
        else if existedBefore then Action.Update
        else Action.Create
      let (changes, moreDiags) := c.ext.FromPlan c.ModuleTree corePlan action
      .ok ((changes, diags ++ moreDiags), calls ++ [Call.FromPlan corePlan action])

/-- Whether a required component is not ready: its stack or the component
itself cannot be found, or its plan is incomplete. -/
def requiredNotReady (c : ComponentInstance) (depAddr : AbsComponent) : Bool :=
  match c.main.Stack depAddr.Stack PlanPhase with
  | none => true
  | some depStack =>
    match depStack.Component depAddr.Item with
    | none => true
    | some depComponent => !depComponent.PlanIsComplete

/-- Whether a dependent recorded in the previous state still resolves to a
component and that component's plan is incomplete. -/
def dependentIncomplete (c : ComponentInstance) (depAddr : AbsComponent) : Bool :=
  match c.main.Stack depAddr.Stack PlanPhase with
  | none => false
  | some depStack =>
    match depStack.Component depAddr.Item with
    | none => false
    | some depComponent => !depComponent.PlanIsComplete

/-- Whether the stack of a dependent recorded in the previous state has a
removed block for it and the plan of that block is incomplete. -/
def removedIncomplete (c : ComponentInstance) (depAddr : AbsComponent) : Bool :=
  match c.main.Stack depAddr.Stack PlanPhase with
  | none => false
  | some depStack =>
    match depStack.Removed depAddr.Item with
    | none => false
    | some depRemoved => !depRemoved.PlanIsComplete

end ComponentInstance

/-! ## Sample instances -/

namespace Sample

/-- Collaborators that answer with fixed values: a string encodes to its
length and nothing else can be encoded. -/
def externals : Externals where
  EvalComponentInputVariables := fun _ _ =>
    (CtyValue.ObjectVal [("region", CtyValue.StringVal "eu")], [])
  EvalProviderValues := fun _ => ([], [], [])
  configuredProviderClients := fun _ _ _ => []
  PlanComponentInstance := fun prev opts =>
    (some { UIMode := opts.Mode, PrevRunState := some prev, VariableValues := none,
            VariableMarks := none, Rest := [] }, [])
  ApplyComponentPlan := fun heap _ =>
    (some { FinalState := none, AffectedResourceInstanceObjects := [], Complete := true },
      [], heap)
  OutputsFromPlan := fun _ _ => []
  FromPlan := fun _ _ _ => ([], [])
  UnmarkDeepWithPaths := fun v => (v, [])
  NewDynamicValue := fun v =>
    match v with
    | CtyValue.StringVal s => .ok [s.length]
    | _ => .error "unsupported"
  fmtAddr := fun a => a.Item.Component.Name

/-- A stack state that tracks nothing. -/
def emptyStackState : StackState where
  isNil := false
  HasComponentInstance := fun _ => false
  DependentsForComponent := fun _ => []
  ResultsForComponent := fun _ => []
  ComponentInstanceStateForModulesRuntime := fun _ => none

/-- An evaluator in normal planning mode with no other stacks. -/
def evaluator : Main where
  Planning := true
  Applying := true
  PlanningMode := Mode.NormalMode
  PlanTimestamp := 0
  Stack := fun _ _ => none
  PlanPrevState := emptyStackState
  PlanBeingApplied := { Components := fun _ => none }
  ComponentInstanceResult := fun _ => (none, [], none)
  InspectingState := emptyStackState

/-- A component `web` in the root stack with one input and one output. -/
def component : Component where
  addr := { Stack := [], Item := { Name := "web" } }
  Config :=
    { InputsType := CtyType.Object [("region", CtyType.PrimString)]
      ModuleTree := some { Outputs := [("url", { Name := "url" })] } }
  RequiredComponents := []
  PlanIsComplete := true

/-- The single instance of `web`. -/
def instance0 : ComponentInstance where
  call := component
  key := InstanceKey.NoKey
  deferred := false
  main := evaluator
  ext := externals

/-- The plan entry of an instance that is to be deleted. -/
def deletedEntry : StackPlanComponent where
  PlannedAction := Action.Delete
  PlannedOutputValues :=
    [({ Name := "url" }, CtyValue.StringVal "u"), ({ Name := "id" }, CtyValue.NumberVal 7)]

/-- The instance `web` while a plan that deletes it is applied. -/
def deleting : ComponentInstance :=
  { instance0 with
    main := { evaluator with PlanBeingApplied := { Components := fun _ => some deletedEntry } } }

/-- A plan computed against a state with one leftover resource. -/
def plan0 : Plan where
  UIMode := Mode.NormalMode
  PrevRunState := some { RootOutputValues := [], Rest := ["aws_instance.a"] }
  VariableValues := none
  VariableMarks := none
  Rest := []

/-- The address of a component `db` in the root stack. -/
def dbAddr : AbsComponent := { Stack := [], Item := { Name := "db" } }

/-- The address of a component `cache` in the root stack. -/
def cacheAddr : AbsComponent := { Stack := [], Item := { Name := "cache" } }

/-- The instance `web` when it requires `db`, which no stack knows. -/
def waiting : ComponentInstance :=
  { instance0 with call := { component with RequiredComponents := [dbAddr] } }

/-- The plan options that `waiting` hands to `PlanComponentInstance`. -/
def waitingOpts : PlanOpts where
  Mode := Mode.NormalMode
  SetVariables :=
    [("region", { Value := CtyValue.StringVal "eu", SourceType := ValueSourceType.ValueFromCaller })]
  ExternalProviders := []
  DeferralAllowed := true
  ExternalDependencyDeferred := true
  ForcePlanTimestamp := 0

/-- The plan the sample collaborators return in normal mode. -/
def normalPlan : Plan where
  UIMode := Mode.NormalMode
  PrevRunState := some State.NewState
  VariableValues := none
  VariableMarks := none
  Rest := []

/-- An instance of `web` for an unknown `for_each`. -/
def wildcard : ComponentInstance :=
  { instance0 with key := InstanceKey.WildcardKey }

/-- A root stack in which `cache` exists with an incomplete plan and `db` does
not exist. -/
def rootStack : Stack where
  Component := fun addr =>
    if addr.Name = "cache" then
      some { addr := cacheAddr, Config := component.Config, RequiredComponents := [],
             PlanIsComplete := false }
    else none
  Removed := fun _ => none

/-- A destroy-mode evaluator whose previous state lists the given dependents
for every instance. -/
def destroyMain (dependents : List AbsComponent) : Main :=
  { evaluator with
    PlanningMode := Mode.DestroyMode
    Stack := fun _ _ => some rootStack
    PlanPrevState := { emptyStackState with DependentsForComponent := fun _ => dependents } }

/-- The instance `web` in a destroy plan, when the dependents are visited in
the order `db`, `cache`. -/
def unwinding : ComponentInstance :=
  { instance0 with main := destroyMain [dbAddr, cacheAddr] }

/-- The same instance when the dependents are visited in the order `cache`,
`db`. -/
def unwindingReversed : ComponentInstance :=
  { instance0 with main := destroyMain [cacheAddr, dbAddr] }

/-- The plan options that `unwinding` hands to `PlanComponentInstance`. -/
def unwindingOpts : PlanOpts :=
  { waitingOpts with Mode := Mode.DestroyMode, ExternalDependencyDeferred := false }

/-- The plan the sample collaborators return in destroy mode. -/
def destroyPlan : Plan :=
  { normalPlan with UIMode := Mode.DestroyMode }

/-- The instance `web` when its module is too invalid to have an input type,
although the evaluation of its inputs would give a known string. -/
def invalidModule : ComponentInstance :=
  { instance0 with
    call := { component with
      Config := { component.Config with InputsType := CtyType.NilType } }
    ext := { externals with
      EvalComponentInputVariables := fun _ _ => (CtyValue.StringVal "x", []) } }

/-- The input values of `instance0` in the representation of the modules
runtime. -/
def inputValues0 : InputValues :=
  [("region", { Value := CtyValue.StringVal "eu", SourceType := ValueSourceType.ValueFromCaller })]

/-- The plan options that `instance0` hands to `PlanComponentInstance`. -/
def opts0 : PlanOpts :=
  { waitingOpts with ExternalDependencyDeferred := false }

/-- The instance `web` when the evaluation of its inputs gives an unknown
value. -/
def unknownInputs : ComponentInstance :=
  { instance0 with
    ext := { externals with
      EvalComponentInputVariables := fun ty _ => (CtyValue.Unknown ty, []) } }

/-- The instance `web` with a second input, a number, which the sample
encoder rejects. -/
def unencodable : ComponentInstance :=
  { instance0 with
    call := { component with
      Config := { component.Config with
        InputsType :=
          CtyType.Object [("region", CtyType.PrimString), ("count", CtyType.PrimNumber)] } }
    ext := { externals with
      EvalComponentInputVariables := fun _ _ =>
        (CtyValue.ObjectVal
          [("region", CtyValue.StringVal "eu"), ("count", CtyValue.NumberVal 3)], []) } }

/-- The input values of `unencodable`. -/
def unencodableValues : InputValues :=
  [("region", { Value := CtyValue.StringVal "eu", SourceType := ValueSourceType.ValueFromCaller }),
   ("count", { Value := CtyValue.NumberVal 3, SourceType := ValueSourceType.ValueFromCaller })]

/-- A memory that holds `plan0` at address 0 and no map. -/
def heap0 : Heap where
  Plans := [plan0]
  Values := []
  Marks := []

/-- A plan whose two maps are at address 0. -/
def plan1 : Plan :=
  { plan0 with VariableValues := some 0, VariableMarks := some 0 }

/-- A memory that holds `plan1` at address 0, with one entry in each of its
maps. -/
def heap1 : Heap where
  Plans := [plan1]
  Values := [[("region", [1])]]
  Marks := [[("region", [])]]

/-- The instance `web` with an `ApplyComponentPlan` that records an entry
`applied` in the map of encoded values of the plan it is handed. -/
def writer : ComponentInstance :=
  { instance0 with
    ext := { externals with
      ApplyComponentPlan := fun heap q =>
        (some { FinalState := none, AffectedResourceInstanceObjects := [], Complete := true },
          [],
          match heap.Plans[q]? with
          | some mp =>
            match mp.VariableValues with
            | some r => heap.storeValue r "applied" []
            | none => heap
          | none => heap) } }

/-- The memory after `writer` has applied the plan at address 0 of `heap1`:
the copy of the plan and its two new maps have been added. -/
def heap1After : Heap where
  Plans := [plan1, { plan1 with VariableValues := some 1, VariableMarks := some 1 }]
  Values := [[("region", [1])], [("region", [2]), ("applied", [])]]
  Marks := [[("region", [])], [("region", [])]]

/-- The instance `web` under an evaluator in refresh-only planning mode. -/
def refreshing : ComponentInstance :=
  { instance0 with main := { evaluator with PlanningMode := Mode.RefreshOnlyMode } }

/-- The plan options that `refreshing` hands to `PlanComponentInstance`. -/
def refreshOpts : PlanOpts :=
  { opts0 with Mode := Mode.RefreshOnlyMode }

/-- The plan the sample collaborators return in refresh-only mode. -/
def refreshPlan : Plan :=
  { normalPlan with UIMode := Mode.RefreshOnlyMode }

/-- A state with a plain output `url` and a sensitive output `token`. -/
def appliedState : State where
  RootOutputValues :=
    [("url", { Addr := { Name := "url" }, Value := CtyValue.StringVal "u", Sensitive := false }),
     ("token", { Addr := { Name := "token" }, Value := CtyValue.StringVal "t",
                 Sensitive := true })]
  Rest := []

/-- A module that declares the outputs `url` and `id`. -/
def moduleWithId : ModuleConfig where
  Outputs := [("url", { Name := "url" }), ("id", { Name := "id" })]

/-- The instance `web`, with the module that also declares `id`, while the
state under inspection is `appliedState`. -/
def inspected : ComponentInstance :=
  { instance0 with
    call := { component with
      Config := { component.Config with ModuleTree := some moduleWithId } }
    main := { evaluator with
      InspectingState :=
        { emptyStackState with
          ComponentInstanceStateForModulesRuntime := fun _ => some appliedState } } }

/-- The instance `web` in a destroy plan whose previous result has the output
`url`, with the module that also declares `id`. -/
def destroying : ComponentInstance :=
  { instance0 with
    call := { component with
      Config := { component.Config with ModuleTree := some moduleWithId } }
    main := { evaluator with
      PlanningMode := Mode.DestroyMode
      PlanPrevState :=
        { emptyStackState with
          ResultsForComponent := fun _ => [({ Name := "url" }, CtyValue.StringVal "old")] } } }

/-- The instance `web` when its provider configuration is invalid, so that
planning fails. -/
def unplannable : ComponentInstance :=
  { instance0 with
    ext := { externals with
      EvalProviderValues := fun _ =>
        ([], [], [{ Severity := Severity.Error, Summary := "bad provider", Detail := "" }]) } }

/-- The instance `web` while a plan that updates it is applied and no apply
result has been recorded. -/
def updating : ComponentInstance :=
  { instance0 with
    main := { evaluator with
      PlanBeingApplied :=
        { Components := fun _ =>
            some { PlannedAction := Action.Update, PlannedOutputValues := [] } } } }

/-- A root stack in which `cache` has a removed block with an incomplete plan
and `db` has none, and which has no component. -/
def removingStack : Stack where
  Component := fun _ => none
  Removed := fun addr =>
    if addr.Name = "cache" then some { PlanIsComplete := false } else none

/-- A normal-mode evaluator whose previous state lists the given dependents
for every instance. -/
def removingMain (dependents : List AbsComponent) : Main :=
  { evaluator with
    Stack := fun _ _ => some removingStack
    PlanPrevState := { emptyStackState with DependentsForComponent := fun _ => dependents } }

/-- The instance `web` in a normal plan, when the previous dependents are
visited in the order `db`, `cache`. -/
def afterRemoval : ComponentInstance :=
  { instance0 with main := removingMain [dbAddr, cacheAddr] }

/-- The same instance when the dependents are visited in the order `cache`,
`db`. -/
def afterRemovalReversed : ComponentInstance :=
  { instance0 with main := removingMain [cacheAddr, dbAddr] }

end Sample

end Stackeval

/-!
# The lexer of the interpolation language

A shallow embedding of `config/lang/lex.go`.

The input is a Go string, that is a list of bytes, and positions are byte
offsets.  `utf8.DecodeRuneInString`, the rune writer of `bytes.Buffer` and
`unicode.IsSpace` belong to the Go library and are given after their
documented behaviour; the tables behind `unicode.IsLetter` and
`unicode.IsNumber` are parameters.  The token constants come from the
generated parser, which is outside the sources at hand: they are distinct and
differ from `lexEOF`.  A loop is a recursion on a bound for the number of
rounds, which the entry points set from the length of the input.
-/

namespace Lang

/-- A Go `rune`, as far as the lexer goes: a code point. -/
abbrev Rune := Nat

/-- The constant `lexEOF`, also the rune that `next` returns at the end. -/
def lexEOF : Rune := 0

/-- The constant `utf8.RuneError`. -/
def RuneError : Rune := 0xFFFD

/-- Whether a byte is a continuation byte of UTF-8. -/
def isCont (b : Nat) : Bool := decide (0x80 ≤ b ∧ b ≤ 0xBF)

/-- The function `utf8.DecodeRuneInString`: the first rune of the bytes and
its width; an invalid or short encoding gives `RuneError` with width 1, and
no bytes give `RuneError` with width 0. -/
def DecodeRuneInString : List Nat → Rune × Int
  | [] => (RuneError, 0)
  | b0 :: rest =>
    if b0 < 0x80 then (b0, 1)
    else if b0 < 0xC2 then (RuneError, 1)
    else if b0 < 0xE0 then
      match rest with
      | b1 :: _ =>
        if isCont b1 then ((b0 % 32) * 64 + b1 % 64, 2) else (RuneError, 1)
      | _ => (RuneError, 1)
    else if b0 < 0xF0 then
      match rest with
      | b1 :: b2 :: _ =>
        if (if b0 = 0xE0 then 0xA0 else 0x80) ≤ b1 ∧
            b1 ≤ (if b0 = 0xED then 0x9F else 0xBF) ∧ isCont b2 = true then
          ((b0 % 16) * 4096 + (b1 % 64) * 64 + b2 % 64, 3)
        else (RuneError, 1)
      | _ => (RuneError, 1)
    else if b0 < 0xF5 then
      match rest with
      | b1 :: b2 :: b3 :: _ =>
        if (if b0 = 0xF0 then 0x90 else 0x80) ≤ b1 ∧
            b1 ≤ (if b0 = 0xF4 then 0x8F else 0xBF) ∧
            isCont b2 = true ∧ isCont b3 = true then
          ((b0 % 8) * 262144 + (b1 % 64) * 4096 + (b2 % 64) * 64 + b3 % 64, 4)
        else (RuneError, 1)
      | _ => (RuneError, 1)
    else (RuneError, 1)

/-- The bytes that `bytes.Buffer.WriteRune` appends: the UTF-8 encoding of
the rune, or that of `RuneError` for a surrogate or a rune out of range. -/
def AppendRune (r : Rune) : List Nat :=
  if r < 0x80 then [r]
  else if r < 0x800 then [0xC0 + r / 64, 0x80 + r % 64]
  else if (0xD800 ≤ r ∧ r ≤ 0xDFFF) ∨ 0x10FFFF < r then [0xEF, 0xBF, 0xBD]
  else if r < 0x10000 then [0xE0 + r / 4096, 0x80 + (r / 64) % 64, 0x80 + r % 64]
  else [0xF0 + r / 262144, 0x80 + (r / 4096) % 64, 0x80 + (r / 64) % 64, 0x80 + r % 64]

/-- The function `unicode.IsSpace`: the white space of Latin-1 and the code
points with the property `White_Space`. -/
def IsSpace (r : Rune) : Bool :=
  decide (r = 9 ∨ r = 10 ∨ r = 11 ∨ r = 12 ∨ r = 13 ∨ r = 32 ∨ r = 0x85 ∨ r = 0xA0 ∨
    r = 0x1680 ∨ (0x2000 ≤ r ∧ r ≤ 0x200A) ∨ r = 0x2028 ∨ r = 0x2029 ∨ r = 0x202F ∨
    r = 0x205F ∨ r = 0x3000)

/-- The tables of the package `unicode` that the lexer consults besides
`IsSpace`. -/
structure UnicodeTables where
  IsLetter : Rune → Bool
  IsNumber : Rune → Bool

/-- Whether a rune is a Unicode scalar value: in range and not a
surrogate. -/
def validRune (r : Rune) : Bool :=
  decide (r < 0xD800 ∨ (0xE000 ≤ r ∧ r ≤ 0x10FFFF))

/-- The UTF-8 encoding of a list of runes. -/
def encodeRunes : List Rune → List Nat
  | [] => []
  | r :: rs => AppendRune r ++ encodeRunes rs

/-- Whether `lexId` keeps a rune: the four signs, the letters and the
numbers. -/
def UnicodeTables.idRune (u : UnicodeTables) (r : Rune) : Bool :=
  decide (r = 95 ∨ r = 45 ∨ r = 46 ∨ r = 42) || u.IsLetter r || u.IsNumber r

/-- Whether a rune means something else to the lexer in an interpolation:
the end of input, white space, the quote, the parentheses, the comma and the
closing brace. -/
def reserved (r : Rune) : Bool :=
  decide (r = 0) || IsSpace r || decide (r = 34 ∨ r = 40 ∨ r = 41 ∨ r = 44 ∨ r = 125)

/-- The constant `parserModeInvalid`. -/
def parserModeInvalid : Nat := 0

/-- The constant `parserModeLiteral`, `1 << iota` on the second line of the
block. -/
def parserModeLiteral : Nat := 2

/-- The constant `parserModeInterpolation`. -/
def parserModeInterpolation : Nat := 4

/-- The values that `Lex` returns: `lexEOF` and the token constants of the
generated parser that the lexer names. -/
inductive Token where
  | lexEOF
  | PROGRAM_BRACKET_LEFT
  | PROGRAM_BRACKET_RIGHT
  | STRING
  | PAREN_LEFT
  | PAREN_RIGHT
  | COMMA
  | IDENTIFIER
  deriving DecidableEq, Repr

/-- An `ast.Pos`. -/
structure Pos where
  Column : Int
  Line : Int
  deriving DecidableEq, Repr

/-- The struct `parserToken`; the value is the string a buffer was turned
into. -/
structure parserToken where
  Value : List Nat
  Pos : Pos
  deriving DecidableEq, Repr

/-- The struct `parserSymType` of the generated parser, with the one field
the lexer sets. -/
structure parserSymType where
  token : Option parserToken
  deriving DecidableEq, Repr

/-- The struct `parserLex`; `mode` is a `uint8`. -/
structure parserLex where
  Err : Option String
  Input : List Nat
  mode : Nat
  interpolationDepth : Int
  pos : Int
  width : Int
  col : Int
  line : Int
  lastLine : Int
  astPos : Option Pos
  deriving DecidableEq, Repr

namespace parserLex

/-- The lexer that the struct literal with only `Input` set denotes. -/
def fresh (input : List Nat) : parserLex :=
  { Err := none, Input := input, mode := parserModeInvalid, interpolationDepth := 0,
    pos := 0, width := 0, col := 0, line := 0, lastLine := 0, astPos := none }

/-- The method `Error`. -/
def Error (x : parserLex) (s : String) : parserLex :=
  { x with Err := some ("parse error: " ++ s) }

/-- The method `next`.  Slicing the input at a negative position panics. -/
def next (x : parserLex) : Except String (Rune × parserLex) :=
  if x.pos ≥ (x.Input.length : Int) then
    .ok (lexEOF, { x with width := 0 })
  else if x.pos < 0 then
    .error "slice bounds out of range"
  else
    match DecodeRuneInString (x.Input.drop x.pos.toNat) with
    | (r, w) =>
      let x := { x with width := w, pos := x.pos + w }
      let x :=
        if x.line = (0 : Int) then { x with line := 1, col := 1 }
        else { x with col := x.col + 1 }
      let x :=
        if r = 10 then { x with lastLine := x.col, line := x.line + 1, col := 1 } else x
      let x :=
        if x.astPos.isNone then
          { x with astPos := some { Column := x.col, Line := x.line } }
        else x
      .ok (r, x)

/-- The method `backup`. -/
def backup (x : parserLex) : parserLex :=
  let x := { x with pos := x.pos - x.width, col := x.col - 1 }
  if x.col = 0 then { x with col := x.lastLine, line := x.line - 1 } else x

/-- The method `peek`. -/
def peek (x : parserLex) : Except String (Rune × parserLex) :=
  match x.next with
  | .error e => .error e
  | .ok (r, x) => .ok (r, x.backup)

/-- The escape handling of `lexString` after a backslash `c`: the rune to
write and the lexer afterwards. -/
def lexStringEscape (x : parserLex) (c : Rune) : Except String (Rune × parserLex) :=
  match x.next with
  | .error e => .error e
  | .ok (n, x) =>
    if n = 92 ∨ n = 34 then .ok (n, x)
    else if n = 110 then .ok (10, x)
    else .ok (c, x.backup)

/-- The loop of `lexString`: whether the string was terminated, the lexer and
the buffer when the loop ends. -/
def lexStringLoop (quoted : Bool) :
    Nat → parserLex → List Nat → Except String (Bool × parserLex × List Nat)
  | 0, _, _ => .error "out of fuel"
  | fuel + 1, x, b =>
    match x.next with
    | .error e => .error e
    | .ok (c, x) =>
      if c = lexEOF then
        .ok (false, if quoted then x.Error "unterminated string" else x, b)
      else if quoted = true ∧ c = 34 then
        .ok (true, x, b)
      else
        match (if quoted = true ∧ c = 92 then x.lexStringEscape c else .ok (c, x)) with
        | .error e => .error e
        | .ok (c, x) =>
          if c = 125 ∧ x.interpolationDepth > 0 then
            .ok (false, x.backup, b)
          else if c = 36 then
            match x.peek with
            | .error e => .error e
            | .ok (p, x) =>
              if p = 123 then .ok (false, x.backup, b)
              else lexStringLoop quoted fuel x (b ++ AppendRune c)
          else
            lexStringLoop quoted fuel x (b ++ AppendRune c)

/-- The method `lexString`.  The buffer never refuses a rune, so the error
return is left out. -/
def lexString (x : parserLex) (yylval : parserSymType) (quoted : Bool) :
    Except String ((Token × Bool) × parserLex × parserSymType) :=
  match lexStringLoop quoted (x.Input.length + 1) x [] with
  | .error e => .error e
  | .ok (terminated, x, b) =>
    .ok ((Token.STRING, terminated), x,
      { yylval with token := some { Value := b, Pos := { Column := 0, Line := 0 } } })

/-- The loop of `lexId`: the lexer and the buffer when the loop ends. -/
def lexIdLoop (u : UnicodeTables) :
    Nat → parserLex → List Nat → Except String (parserLex × List Nat)
  | 0, _, _ => .error "out of fuel"
  | fuel + 1, x, b =>
    match x.next with
    | .error e => .error e
    | .ok (c, x) =>
      if c = lexEOF then
        .ok (x, b)
      else if c ≠ 95 ∧ c ≠ 45 ∧ c ≠ 46 ∧ c ≠ 42 ∧ u.IsLetter c = false ∧
          u.IsNumber c = false then
        .ok (x.backup, b)
      else
        lexIdLoop u fuel x (b ++ AppendRune c)

/-- The method `lexId`. -/
def lexId (u : UnicodeTables) (x : parserLex) (yylval : parserSymType) :
    Except String (Token × parserLex × parserSymType) :=
  match lexIdLoop u (x.Input.length + 1) x [] with
  | .error e => .error e
  | .ok (x, b) =>
    .ok (Token.IDENTIFIER, x,
      { yylval with token := some { Value := b, Pos := { Column := 0, Line := 0 } } })

/-- The Go expression `yylval.token.Value.(string) == ""`, which panics when
there is no token. -/
def tokenIsEmpty (yylval : parserSymType) : Except String Bool :=
  match yylval.token with
  | none => .error "invalid memory address or nil pointer dereference"
  | some t => .ok t.Value.isEmpty

mutual
/-- The method `lex`. -/
def lex (u : UnicodeTables) :
    Nat → parserLex → parserSymType → Except String (Token × parserLex × parserSymType)
  | 0, _, _ => .error "out of fuel"
  | fuel + 1, x, yylval =>
    if x.mode = parserModeLiteral then
      lexModeLiteral u fuel x yylval
    else if x.mode = parserModeInterpolation then
      lexModeInterpolation u fuel x yylval
    else
      .ok (Token.lexEOF,
        x.Error ("Unknown parse mode: %!s(lang.parserMode=" ++ toString x.mode ++ ")"), yylval)
/-- The method `lexModeLiteral`; every round of its loop returns. -/
def lexModeLiteral (u : UnicodeTables) :
    Nat → parserLex → parserSymType → Except String (Token × parserLex × parserSymType)
  | 0, _, _ => .error "out of fuel"
  | fuel + 1, x, yylval =>
    match x.next with
    | .error e => .error e
    | .ok (c, x) =>
      if c = lexEOF then
        .ok (Token.lexEOF, x, yylval)
      else
        match (if c = 36 then x.peek else .ok (lexEOF, x)) with
        | .error e => .error e
        | .ok (p, x) =>
          if c = 36 ∧ p = 123 then
            match x.next with
            | .error e => .error e
            | .ok (_, x) =>
              .ok (Token.PROGRAM_BRACKET_LEFT,
                { x with interpolationDepth := x.interpolationDepth + 1,
                         mode := parserModeInterpolation }, yylval)
          else
            let x := x.backup
            match x.lexString yylval (decide (x.interpolationDepth > 0)) with
            | .error e => .error e
            | .ok ((result, terminated), x, yylval) =>
              if terminated = true ∧ x.interpolationDepth > 0 then
                let x := { x with mode := parserModeInterpolation }
                match tokenIsEmpty yylval with
                | .error e => .error e
                | .ok true => lex u fuel x yylval
                | .ok false => .ok (result, x, yylval)
              else
                .ok (result, x, yylval)
/-- The method `lexModeInterpolation`; a round that meets white space starts
the next round. -/
def lexModeInterpolation (u : UnicodeTables) :
    Nat → parserLex → parserSymType → Except String (Token × parserLex × parserSymType)
  | 0, _, _ => .error "out of fuel"
  | fuel + 1, x, yylval =>
    match x.next with
    | .error e => .error e
    | .ok (c, x) =>
      if c = lexEOF then
        .ok (Token.lexEOF, x, yylval)
      else if IsSpace c then
        lexModeInterpolation u fuel x yylval
      else if c = 34 then
        match x.lexString yylval true with
        | .error e => .error e
        | .ok ((result, terminated), x, yylval) =>
          if terminated = false then
            let x := { x with mode := parserModeLiteral }
            match tokenIsEmpty yylval with
            | .error e => .error e
            | .ok true => lex u fuel x yylval
            | .ok false => .ok (result, x, yylval)
          else
            .ok (result, x, yylval)
      else if c = 125 then
        .ok (Token.PROGRAM_BRACKET_RIGHT,
          { x with interpolationDepth := x.interpolationDepth - 1,
                   mode := parserModeLiteral }, yylval)
      else if c = 40 then
        .ok (Token.PAREN_LEFT, x, yylval)
      else if c = 41 then
        .ok (Token.PAREN_RIGHT, x, yylval)
      else if c = 44 then
        .ok (Token.COMMA, x, yylval)
      else
        x.backup.lexId u yylval
end

/-- The method `Lex`, with its deferred function, which copies the position
of the first rune read into a token that has no column yet. -/
def Lex (u : UnicodeTables) (x : parserLex) (yylval : parserSymType) :
    Except String (Token × parserLex × parserSymType) :=
  let x := if x.mode = parserModeInvalid then { x with mode := parserModeLiteral } else x
  let x := { x with astPos := none }
  match lex u (4 * x.Input.length + 8) x yylval with
  | .error e => .error e
  | .ok (tok, x, yylval) =>
    match yylval.token with
    | none => .ok (tok, x, yylval)
    | some t =>
      if t.Pos.Column = 0 then
        match x.astPos with
        | none => .error "invalid memory address or nil pointer dereference"
        | some p => .ok (tok, x, { yylval with token := some { t with Pos := p } })
      else
        .ok (tok, x, yylval)

/-- The tokens of `n` calls of `Lex` in a row, as the parser makes them, and
the lexer and the symbol value after the last. -/
def lexRun (u : UnicodeTables) :
    Nat → parserLex → parserSymType → Except String (List Token × parserLex × parserSymType)
  | 0, x, yylval => .ok ([], x, yylval)
  | n + 1, x, yylval =>
    match Lex u x yylval with
    | .error e => .error e
    | .ok (tok, x, yylval) =>
      match lexRun u n x yylval with
      | .error e => .error e
      | .ok (toks, x, yylval) => .ok (tok :: toks, x, yylval)

/-- The first two statements of `Lex`: an invalid mode becomes the literal
mode, and the position of the first rune is forgotten. -/
def lexStart (x : parserLex) : parserLex :=
  let x := if x.mode = parserModeInvalid then { x with mode := parserModeLiteral } else x
  { x with astPos := none }

/-- The deferred function of `Lex`, applied to what `lex` returned. -/
def lexDeferred (tok : Token) (x : parserLex) (yylval : parserSymType) :
    Except String (Token × parserLex × parserSymType) :=
  match yylval.token with
  | none => .ok (tok, x, yylval)
  | some t =>
    if t.Pos.Column = 0 then
      match x.astPos with
      | none => .error "invalid memory address or nil pointer dereference"
      | some p => .ok (tok, x, { yylval with token := some { t with Pos := p } })
    else
      .ok (tok, x, yylval)

/-- Whether the lexer stands between the bytes `pre`, which it has consumed,
and the bytes `suf`, in the given mode and depth, with a column and a last
line that are not negative and no error recorded. -/
def sitsAt (x : parserLex) (pre suf : List Nat) (mode : Nat) (depth : Int) : Prop :=
  x.Input = pre ++ suf ∧ x.pos = pre.length ∧ x.mode = mode ∧
    x.interpolationDepth = depth ∧ 0 ≤ x.col ∧ 0 ≤ x.lastLine ∧ x.Err = none

/-- Whether the position of the first rune of the call has been noted, with a
column that is at least 1. -/
def marked (x : parserLex) : Bool :=
  match x.astPos with
  | some p => decide (1 ≤ p.Column)
  | none => false

end parserLex

namespace Sample

/-- The four bytes of the input that opens an interpolation, opens a quoted
string and closes the interpolation: dollar, brace, quote, brace. -/
def unclosedQuote : List Nat := [36, 123, 34, 125]

/-- The lexer after three calls of `Lex` on `unclosedQuote`: literal mode
inside an interpolation, in front of the closing brace. -/
def stuck : parserLex where
  Err := none
  Input := unclosedQuote
  mode := parserModeLiteral
  interpolationDepth := 1
  pos := 3
  width := 1
  col := 3
  line := 1
  lastLine := 0
  astPos := some { Column := 4, Line := 1 }

/-- The symbol value after three calls of `Lex` on `unclosedQuote`: an empty
string token. -/
def stuckVal : parserSymType where
  token := some { Value := [], Pos := { Column := 4, Line := 1 } }

/-- The three bytes of the input that opens an interpolation and goes on with
an exclamation mark. -/
def bang : List Nat := [36, 123, 33]

/-- The tables that know the letters and digits of ASCII only. -/
def asciiTables : UnicodeTables where
  IsLetter := fun r => decide ((65 ≤ r ∧ r ≤ 90) ∨ (97 ≤ r ∧ r ≤ 122))
  IsNumber := fun r => decide (48 ≤ r ∧ r ≤ 57)

/-- The lexer after the first call of `Lex` on `unclosedQuote`: in the
interpolation, in front of the quote. -/
def opened : parserLex :=
  { stuck with mode := parserModeInterpolation, pos := 2, col := 2,
               astPos := some { Column := 1, Line := 1 } }

/-- The lexer after the second call of `Lex` on `unclosedQuote`. -/
def quoted : parserLex :=
  { stuck with astPos := some { Column := 3, Line := 1 } }

/-- The symbol value after the second call of `Lex` on `unclosedQuote`. -/
def quotedVal : parserSymType where
  token := some { Value := [], Pos := { Column := 3, Line := 1 } }

/-- The lexer after two calls of `Lex` on `bang`: in the interpolation, in
front of the exclamation mark. -/
def bangStuck : parserLex where
  Err := none
  Input := bang
  mode := parserModeInterpolation
  interpolationDepth := 1
  pos := 2
  width := 1
  col := 2
  line := 1
  lastLine := 0
  astPos := some { Column := 3, Line := 1 }

/-- The symbol value after two calls of `Lex` on `bang`: an empty
identifier. -/
def bangVal : parserSymType where
  token := some { Value := [], Pos := { Column := 3, Line := 1 } }

/-- The one byte of the input that is a dollar sign. -/
def dollar : List Nat := [36]

/-- The lexer after the first call of `Lex` on `dollar`: behind the dollar
sign, with the width of the end of input and a column below zero. -/
def afterDollar : parserLex where
  Err := none
  Input := dollar
  mode := parserModeLiteral
  interpolationDepth := 0
  pos := 1
  width := 0
  col := -1
  line := 0
  lastLine := 0
  astPos := some { Column := 1, Line := 1 }

/-- The symbol value after the first call of `Lex` on `dollar`: a string
token with no bytes. -/
def dollarVal : parserSymType where
  token := some { Value := [], Pos := { Column := 1, Line := 1 } }

/-- The three bytes of the input that is a dollar sign and the letter e with
an acute accent, which UTF-8 encodes in two bytes. -/
def dollarAccent : List Nat := [36, 195, 169]

/-- The bytes of the input that holds the identifier a.b in an interpolation,
with a blank before it. -/
def spacedId : List Nat := [36, 123, 32, 97, 46, 98, 125]

end Sample

end Lang

/-!
# Saved cloud plan bookmarks

A shallow embedding of `internal/cloud/cloudplan/saved_plan.go`.

The packages `os`, `io` and `encoding/json` belong to the Go library.  A file
system is given as the files it holds and the paths on which an operation
fails.  The content of a file is given up to JSON syntax: as the document that
its bytes spell, or as bytes that are not JSON.  The strings of a document are
Unicode text, and a Go string is its bytes, which need not be valid UTF-8.
`json.Unmarshal` and `json.Marshal` are given for the one struct of the file,
after the documented rules of the library: the struct tags name the keys, a
key matches a tag up to case, an unknown key is skipped, a null leaves the
field as it is, a value of the wrong kind is an error, and the first error is
the one returned; a string is decoded into the UTF-8 bytes of its text, and a
Go string is encoded as the text of its runes, in which U+FFFD stands for each
byte that starts no valid encoding.
-/

namespace Cloudplan

open Stackeval

/-- A JSON document.  A number is `num` when it is written as an integer and
`frac` when it has a fraction or an exponent. -/
inductive Json where
  | null
  | bool (b : Bool)
  | num (n : Int)
  | frac (text : String)
  | str (s : String)
  | arr (items : List Json)
  | obj (fields : List (String × Json))

/-- The content of a file: the JSON document it spells, or bytes that are not
JSON. -/
inductive Data where
  | text (doc : Json)
  | invalid (bytes : List Nat)

/-- The Go `error` values of the file: the three package variables, and the
errors of the library. -/
inductive Error where
  | ErrInvalidRemotePlanFormat
  | ErrInvalidRunID
  | ErrInvalidHostname
  | os (msg : String)
  | json (msg : String)
  deriving DecidableEq, Repr

/-- The struct `SavedPlanBookmark`. -/
structure SavedPlanBookmark where
  RemotePlanFormat : Int
  RunID : List Nat
  Hostname : List Nat
  deriving DecidableEq, Repr

/-- The fields of `SavedPlanBookmark`, as their struct tags name them. -/
inductive Field where
  | RemotePlanFormat
  | RunID
  | Hostname
  deriving DecidableEq, Repr

/-- The case folding of a code point, for the code points that fold to an
ASCII letter: the capital letters, the long s and the Kelvin sign. -/
def foldRune (r : Nat) : Nat :=
  if 65 ≤ r ∧ r ≤ 90 then r + 32
  else if r = 0x17F then 115
  else if r = 0x212A then 107
  else r

/-- Equality of two strings up to case, as the decoder compares a key with a
struct tag. -/
def equalFold (a b : String) : Bool :=
  decide (a.data.map (fun ch => foldRune ch.toNat) = b.data.map (fun ch => foldRune ch.toNat))

/-- The field that a key of a JSON object is decoded into, if any. -/
def fieldFor (key : String) : Option Field :=
  if equalFold key "remote_plan_format" then some Field.RemotePlanFormat
  else if equalFold key "run_id" then some Field.RunID
  else if equalFold key "hostname" then some Field.Hostname
  else none

/-- The Go string that holds a text: its UTF-8 encoding. -/
def utf8Bytes (s : String) : List Nat :=
  Lang.encodeRunes (s.data.map Char.toNat)

/-- The runes of a Go string, as a `range` loop over it and the JSON encoder
read them: a byte that starts no valid encoding counts as U+FFFD.  Every
round takes at least one byte. -/
def utf8TextLoop : Nat → List Nat → List Char
  | 0, _ => []
  | _ + 1, [] => []
  | fuel + 1, b :: rest =>
    match Lang.DecodeRuneInString (b :: rest) with
    | (r, w) => Char.ofNat r :: utf8TextLoop fuel ((b :: rest).drop w.toNat)

/-- The text that the JSON encoder writes for a Go string. -/
def utf8Text (bytes : List Nat) : String :=
  ⟨utf8TextLoop bytes.length bytes⟩

/-- Whether an integer fits the Go type `int`, taken as 64 bits wide. -/
def fitsInt (n : Int) : Bool :=
  decide (-9223372036854775808 ≤ n ∧ n ≤ 9223372036854775807)

/-- The decoding of one JSON value into one field of the struct. -/
def decodeField (b : SavedPlanBookmark) : Field → Json → SavedPlanBookmark × Option Error
  | _, Json.null => (b, none)
  | Field.RemotePlanFormat, Json.num n =>
    if fitsInt n then ({ b with RemotePlanFormat := n }, none)
    else (b, some (Error.json "cannot unmarshal number into Go struct field of type int"))
  | Field.RemotePlanFormat, _ =>
    (b, some (Error.json "cannot unmarshal into Go struct field of type int"))
  | Field.RunID, Json.str s => ({ b with RunID := utf8Bytes s }, none)
  | Field.RunID, _ =>
    (b, some (Error.json "cannot unmarshal into Go struct field of type string"))
  | Field.Hostname, Json.str s => ({ b with Hostname := utf8Bytes s }, none)
  | Field.Hostname, _ =>
    (b, some (Error.json "cannot unmarshal into Go struct field of type string"))

/-- The decoding of the members of a JSON object, in the order of the
document; the first error is kept. -/
def unmarshalFields :
    List (String × Json) → SavedPlanBookmark → Option Error → SavedPlanBookmark × Option Error
  | [], b, e => (b, e)
  | (key, v) :: rest, b, e =>
    match fieldFor key with
    | none => unmarshalFields rest b e
    | some f =>
      match decodeField b f v with
      | (b', e') =>
        unmarshalFields rest b' (match e with | some e0 => some e0 | none => e')

/-- The call `json.Unmarshal(data, &bookmark)`: the struct afterwards and the
error. -/
def Unmarshal (data : Data) (b : SavedPlanBookmark) : SavedPlanBookmark × Option Error :=
  match data with
  | Data.invalid _ => (b, some (Error.json "invalid character"))
  | Data.text Json.null => (b, none)
  | Data.text (Json.obj fields) => unmarshalFields fields b none
  | Data.text _ =>
    (b, some (Error.json "cannot unmarshal into Go value of type cloudplan.SavedPlanBookmark"))

/-- The call `json.Marshal(s)`, which cannot fail for this struct.  A string
is coerced to valid UTF-8. -/
def Marshal (s : SavedPlanBookmark) : Data :=
  Data.text (Json.obj
    [("remote_plan_format", Json.num s.RemotePlanFormat),
     ("run_id", Json.str (utf8Text s.RunID)),
     ("hostname", Json.str (utf8Text s.Hostname))])

/-- A file system: the regular files with their content, and for each path
the error, if any, with which opening, reading or writing it fails. -/
structure FileSystem where
  files : GoMap String Data
  openFails : String → Option Error
  readFails : String → Option Error
  writeFails : String → Option Error

namespace FileSystem

/-- The call `os.Open(filepath)`; the open file is named by its path. -/
def Open (fs : FileSystem) (filepath : String) : Except Error String :=
  match fs.openFails filepath with
  | some err => .error err
  | none =>
    match GoMap.lookup fs.files filepath with
    | none => .error (Error.os "no such file or directory")
    | some _ => .ok filepath

/-- The call `io.ReadAll(file)`. -/
def ReadAll (fs : FileSystem) (file : String) : Except Error Data :=
  match fs.readFails file with
  | some err => .error err
  | none =>
    match GoMap.lookup fs.files file with
    | none => .error (Error.os "file already closed")
    | some data => .ok data

/-- The call `os.WriteFile(filepath, data, 0644)`: the file is created or
replaced.  What a failed write leaves behind is not modelled. -/
def WriteFile (fs : FileSystem) (filepath : String) (data : Data) : Except Error FileSystem :=
  match fs.writeFails filepath with
  | some err => .error err
  | none => .ok { fs with files := GoMap.store fs.files filepath data }

end FileSystem

/-- The function `LoadSavedPlanBookmark`. -/
def LoadSavedPlanBookmark (fs : FileSystem) (filepath : String) :
    SavedPlanBookmark × Option Error :=
  let bookmark : SavedPlanBookmark := { RemotePlanFormat := 0, RunID := [], Hostname := [] }
  match fs.Open filepath with
  | .error err => (bookmark, some err)
  | .ok file =>
    match fs.ReadAll file with
    | .error err => (bookmark, some err)
    | .ok data =>
      match Unmarshal data bookmark with
      | (bookmark, some e) => (bookmark, some e)
      | (bookmark, none) =>
        if bookmark.RemotePlanFormat ≠ 1 then
          (bookmark, some Error.ErrInvalidRemotePlanFormat)
        else if bookmark.Hostname = [] then
          (bookmark, some Error.ErrInvalidHostname)
        else if bookmark.RunID = [] then
          (bookmark, some Error.ErrInvalidRunID)
        else
          (bookmark, none)

/-- The method `Save`: the error and the file system afterwards. -/
def SavedPlanBookmark.Save (s : SavedPlanBookmark) (fs : FileSystem) (filepath : String) :
    Option Error × FileSystem :=
  let data := Marshal s
  match fs.WriteFile filepath data with
  | .error err => (some err, fs)
  | .ok fs' => (none, fs')

namespace Sample

/-- A file system without files on which no operation is refused. -/
def emptyFs : FileSystem where
  files := []
  openFails := fun _ => none
  readFails := fun _ => none
  writeFails := fun _ => none

/-- A bookmark of a run on the public host. -/
def bookmark0 : SavedPlanBookmark where
  RemotePlanFormat := 1
  RunID := utf8Bytes "run-GXfuHMkbyHccAGUg"
  Hostname := utf8Bytes "app.terraform.io"

/-- A bookmark whose run ID is the one byte 255, which is not valid UTF-8. -/
def rawBookmark : SavedPlanBookmark where
  RemotePlanFormat := 1
  RunID := [255]
  Hostname := utf8Bytes "app.terraform.io"

/-- The bookmark that `rawBookmark` comes back as: the run ID is the three
bytes of U+FFFD. -/
def coercedBookmark : SavedPlanBookmark :=
  { rawBookmark with RunID := [239, 191, 189] }

/-- A file system whose file `plan.json` lacks the key `remote_plan_format`
and whose file `old.json` has the format 2. -/
def formatFs : FileSystem :=
  { emptyFs with
    files :=
      [("plan.json", Data.text (Json.obj
          [("run_id", Json.str "run-1"), ("hostname", Json.str "app.terraform.io")])),
       ("old.json", Data.text (Json.obj
          [("remote_plan_format", Json.num 2), ("run_id", Json.str "run-1"),
           ("hostname", Json.str "app.terraform.io")]))] }

/-- A file system whose files have the format 1: `nohost.json` has an empty
hostname and an empty run, `norun.json` lacks the run, and `ok.json` has
both. -/
def fieldsFs : FileSystem :=
  { emptyFs with
    files :=
      [("nohost.json", Data.text (Json.obj
          [("remote_plan_format", Json.num 1), ("run_id", Json.str ""),
           ("hostname", Json.str "")])),
       ("norun.json", Data.text (Json.obj
          [("remote_plan_format", Json.num 1), ("hostname", Json.str "app.terraform.io")])),
       ("ok.json", Data.text (Json.obj
          [("Remote_Plan_Format", Json.num 1), ("run_id", Json.str "run-1"),
           ("hostname", Json.str "app.terraform.io")]))] }

end Sample

end Cloudplan

/-!
# The basic component factory

A shallow embedding of `internal/terraform/context_components.go`.

The types `addrs.Provider`, `providers.Interface`, `providers.Factory` and
their provisioner counterparts are declared outside the sources at hand.  A
provider address is given with its three parts, an interface value as a name,
and a factory as a function without arguments, which the Go type allows to be
nil.
-/

namespace Terraform

open Stackeval

/-- An `addrs.Provider`. -/
structure Provider where
  TypeName : String
  Namespace : String
  Hostname : String
  deriving DecidableEq, Repr

/-- The method `String` of `addrs.Provider`, outside the sources at hand:
the three parts joined by slashes. -/
def Provider.String (pt : Provider) : String :=
  pt.Hostname ++ "/" ++ pt.Namespace ++ "/" ++ pt.TypeName

/-- A `providers.Interface` or `provisioners.Interface` value, by name; nil
is `none`. -/
abbrev Interface := Option String

/-- A `providers.Factory` or `provisioners.Factory`: nil, or a function that
returns an interface value and an error. -/
abbrev Factory := Option (Unit → Interface × Option String)

/-- The struct `basicComponentFactory`. -/
structure basicComponentFactory where
  providers : GoMap Provider Factory
  provisioners : GoMap String Factory

/-- The method `ResourceProvider`: the two results and the factory struct
afterwards. -/
def basicComponentFactory.ResourceProvider (c : basicComponentFactory) (typ : Provider) :
    Except String ((Interface × Option String) × basicComponentFactory) :=
  match GoMap.lookup c.providers typ with
  | none => .ok ((none, some ("unknown provider " ++ typ.String.quote)), c)
  | some none => .error "invalid memory address or nil pointer dereference"
  | some (some f) => .ok (f (), c)

/-- The method `ResourceProvisioner`: the two results and the factory struct
afterwards. -/
def basicComponentFactory.ResourceProvisioner (c : basicComponentFactory) (typ : String) :
    Except String ((Interface × Option String) × basicComponentFactory) :=
  match GoMap.lookup c.provisioners typ with
  | none => .ok ((none, some ("unknown provisioner " ++ typ.quote)), c)
  | some none => .error "invalid memory address or nil pointer dereference"
  | some (some f) => .ok (f (), c)

namespace Sample

/-- The address of the provider `aws`. -/
def aws : Provider where
  TypeName := "aws"
  Namespace := "hashicorp"
  Hostname := "registry.terraform.io"

/-- The address of a provider that is not registered. -/
def azure : Provider :=
  { aws with TypeName := "azurerm" }

/-- A factory struct with the provider `aws`, whose factory succeeds, and the
provisioner `local-exec`, whose factory fails. -/
def factories : basicComponentFactory where
  providers := [(aws, some (fun _ => (some "aws-plugin", none)))]
  provisioners := [("local-exec", some (fun _ => (none, some "plugin crashed")))]

/-- A factory struct whose provider `aws` and provisioner `local-exec` are
registered with factories that return nil and the very error of a missing
key. -/
def echoing : basicComponentFactory where
  providers :=
    [(aws, some (fun _ => (none, some ("unknown provider " ++ aws.String.quote))))]
  provisioners :=
    [("local-exec",
      some (fun _ => (none, some ("unknown provisioner " ++ ("local-exec" : String).quote))))]

/-- A factory struct whose provider `aws` and provisioner `local-exec` are
registered with a nil factory. -/
def unset : basicComponentFactory where
  providers := [(aws, none)]
  provisioners := [("local-exec", none)]

end Sample

end Terraform

namespace Stackeval

/-! ## Facts about Go maps -/

namespace GoMap

variable {κ ν : Type} [DecidableEq κ]

theorem lookup_store (m : GoMap κ ν) (k k' : κ) (v : ν) :
    lookup (store m k v) k' = if k = k' then some v else lookup m k' := by
  induction m with
  | nil => simp [store, lookup]
  | cons e rest ih =>
    obtain ⟨k'', v''⟩ := e
    by_cases h : k'' = k
    · subst h
      by_cases h' : k'' = k' <;> simp [store, lookup, h']
    · by_cases h' : k = k'
      · subst h'
        simp [store, lookup, h, ih]
      · by_cases h'' : k'' = k'
        · subst h''
          simp [store, lookup, h, h']
        · simp [store, lookup, h, h', h'', ih]

theorem lookup_eq_none_of_not_mem (m : GoMap κ ν) (k : κ) (h : k ∉ keys m) :
    lookup m k = none := by
  induction m with
  | nil => rfl
  | cons e rest ih =>
    obtain ⟨k', v'⟩ := e
    simp only [keys, List.map_cons, List.mem_cons, not_or] at h
    have hne : ¬ k' = k := fun hk => h.1 hk.symm
    simp only [lookup, hne, if_false]
    exact ih h.2

theorem mem_keys_store (m : GoMap κ ν) (k k' : κ) (v : ν) :
    k' ∈ keys (store m k v) ↔ k' = k ∨ k' ∈ keys m := by
  induction m with
  | nil => simp [store, keys]
  | cons e rest ih =>
    obtain ⟨k'', v''⟩ := e
    by_cases h : k'' = k
    · subst h
      simp [store, keys]
    · simp only [store, h, if_false, keys, List.map_cons, List.mem_cons]
      simp only [keys] at ih
      rw [ih]
      tauto

theorem mem_store (m : GoMap κ ν) (k : κ) (v : ν) (e : κ × ν) (h : e ∈ store m k v) :
    e = (k, v) ∨ e ∈ m := by
  induction m with
  | nil => simpa [store] using h
  | cons e' rest ih =>
    obtain ⟨k'', v''⟩ := e'
    by_cases hk : k'' = k
    · simp only [store, hk, if_true, List.mem_cons] at h
      rcases h with h | h
      · exact Or.inl h
      · exact Or.inr (List.mem_cons_of_mem _ h)
    · simp only [store, hk, if_false, List.mem_cons] at h
      rcases h with h | h
      · exact Or.inr (h ▸ List.mem_cons_self _ _)
      · rcases ih h with h' | h'
        · exact Or.inl h'
        · exact Or.inr (List.mem_cons_of_mem _ h')

theorem nodup_keys_store (m : GoMap κ ν) (k : κ) (v : ν) (h : (keys m).Nodup) :
    (keys (store m k v)).Nodup := by
  induction m with
  | nil => simp [store, keys]
  | cons e rest ih =>
    obtain ⟨k'', v''⟩ := e
    simp only [keys, List.map_cons, List.nodup_cons] at h
    by_cases hk : k'' = k
    · subst hk
      simpa [store, keys] using h
    · simp only [store, hk, if_false, keys, List.map_cons, List.nodup_cons]
      refine ⟨?_, ih h.2⟩
      intro hmem
      have := (mem_keys_store rest k k'' v).1 hmem
      rcases this with h' | h'
      · exact hk h'
      · exact h.1 h'

end GoMap

/-! ## Facts about the loops of `ResultValue` -/

namespace ComponentInstance

open EvalPhase

theorem lookup_outputValuesLoop (l : List (OutputValue × CtyValue))
    (h : (GoMap.keys l).Nodup) (obj : GoMap String CtyValue) (name : String) :
    GoMap.lookup (outputValuesLoop l obj) name =
      match GoMap.lookup l { Name := name } with
      | some v => some v
      | none => GoMap.lookup obj name := by
  induction l generalizing obj with
  | nil => rfl
  | cons e rest ih =>
    obtain ⟨k, v⟩ := e
    simp only [GoMap.keys, List.map_cons, List.nodup_cons] at h
    simp only [outputValuesLoop]
    rw [ih h.2]
    by_cases hk : k = { Name := name }
    · subst hk
      have hnone := GoMap.lookup_eq_none_of_not_mem rest _ h.1
      simp [GoMap.lookup, hnone, GoMap.lookup_store]
    · have hname : ¬ k.Name = name := by
        intro hn
        apply hk
        cases k
        simp_all
      simp [GoMap.lookup, hk, GoMap.lookup_store, hname]

theorem nodup_outputValuesLoop (l : List (OutputValue × CtyValue))
    (obj : GoMap String CtyValue) (h : (GoMap.keys obj).Nodup) :
    (GoMap.keys (outputValuesLoop l obj)).Nodup := by
  induction l generalizing obj with
  | nil => exact h
  | cons e rest ih =>
    obtain ⟨k, v⟩ := e
    exact ih _ (GoMap.nodup_keys_store obj k.Name v h)

end ComponentInstance

/-! ## The result of a deleted instance (C1) and of a skipped apply (C5) -/

/-- C1: in the apply phase, when the plan being applied has an entry for the
instance whose planned action is Delete, `ResultValue` returns the object
that has, under each output name, the value the entry planned for that output
and no other attribute, and it makes no call at all on the way: the apply
result is not asked for. -/
theorem resultValue_delete_is_planned_outputs (c : ComponentInstance)
    (ourPlan : StackPlanComponent)
    (hentry : c.main.PlanBeingApplied.Components c.Addr = some ourPlan)
    (hdelete : ourPlan.PlannedAction = Action.Delete)
    (hmap : (GoMap.keys ourPlan.PlannedOutputValues).Nodup) :
    ∃ attrs : GoMap String CtyValue,
      c.ResultValue EvalPhase.ApplyPhase = .ok (CtyValue.ObjectVal attrs, []) ∧
      (GoMap.keys attrs).Nodup ∧
      ∀ name, GoMap.lookup attrs name =
        GoMap.lookup ourPlan.PlannedOutputValues { Name := name } := by
  refine ⟨ComponentInstance.outputValuesLoop ourPlan.PlannedOutputValues [], ?_, ?_, ?_⟩
  · simp [ComponentInstance.ResultValue, hentry, hdelete, CtyValue.ofAttrs]
  · exact ComponentInstance.nodup_outputValuesLoop _ _ (by simp [GoMap.keys])
  · intro name
    rw [ComponentInstance.lookup_outputValuesLoop _ hmap]
    cases GoMap.lookup ourPlan.PlannedOutputValues { Name := name } <;> rfl

/-- C1, on the sample instance that is being deleted: the result is the
object of the two planned outputs and no call is made. -/
theorem resultValue_delete_is_planned_outputs_witness :
    ∃ attrs : GoMap String CtyValue,
      Sample.deleting.ResultValue EvalPhase.ApplyPhase = .ok (CtyValue.ObjectVal attrs, []) ∧
      (GoMap.keys attrs).Nodup ∧
      ∀ name, GoMap.lookup attrs name =
        GoMap.lookup Sample.deletedEntry.PlannedOutputValues { Name := name } :=
  resultValue_delete_is_planned_outputs Sample.deleting Sample.deletedEntry rfl rfl
    (by decide)

/-- C5: for every plan, the placeholder for a skipped apply has
`Complete = false`, its final state is the plan's `PrevRunState`, and it
lists no affected resource instance object. -/
theorem placeholder_keeps_prev_run_state (c : ComponentInstance) (plan : Plan) :
    (c.PlaceholderApplyResultForSkippedApply plan).Complete = false ∧
    (c.PlaceholderApplyResultForSkippedApply plan).FinalState = plan.PrevRunState ∧
    (c.PlaceholderApplyResultForSkippedApply plan).AffectedResourceInstanceObjects = [] :=
  ⟨rfl, rfl, rfl⟩

/-! ## Facts about `CheckModuleTreePlan` -/

namespace ComponentInstance

open EvalPhase

theorem once_call_opts (c : ComponentInstance) (r : Option Plan × Diagnostics)
    (calls : List Call) (st : State) (opts : PlanOpts)
    (h : c.checkModuleTreePlanOnce = .ok (r, calls))
    (hm : Call.PlanComponentInstance st opts ∈ calls) :
    opts.ExternalDependencyDeferred = c.externalDependencyDeferred ∧
      opts.Mode = c.main.PlanningMode ∧ st = c.PlanPrevState := by
  unfold checkModuleTreePlanOnce at h
  split at h
  · cases h
  · simp only [Except.ok.injEq, Prod.mk.injEq] at h
    rw [← h.2] at hm
    cases hm
  · simp only [Diagnostics.HasErrors, List.any_nil, Bool.false_eq_true, if_false] at h
    split at h
    · simp only [Except.ok.injEq, Prod.mk.injEq] at h
      rw [← h.2] at hm
      cases hm
    · simp only [Except.ok.injEq, Prod.mk.injEq] at h
      rw [← h.2] at hm
      simp only [List.mem_singleton, Call.PlanComponentInstance.injEq] at hm
      obtain ⟨hst, hopts⟩ := hm
      subst hopts
      exact ⟨rfl, rfl, hst⟩

theorem check_call_opts (c : ComponentInstance) (r : Option Plan × Diagnostics)
    (calls : List Call) (st : State) (opts : PlanOpts)
    (h : c.CheckModuleTreePlan = .ok (r, calls))
    (hm : Call.PlanComponentInstance st opts ∈ calls) :
    opts.ExternalDependencyDeferred = c.externalDependencyDeferred ∧
      opts.Mode = c.main.PlanningMode ∧ st = c.PlanPrevState := by
  unfold CheckModuleTreePlan at h
  split at h
  · cases h
  · split at h
    · cases h
    · rename_i ret calls' hon
      simp only [Except.ok.injEq, Prod.mk.injEq] at h
      rw [← h.2] at hm
      simp only [List.mem_cons] at hm
      rcases hm with hm | hm
      · cases hm
      · exact once_call_opts c ret calls' st opts hon hm

theorem stackStepsLoop_true (l : List StackInstanceStep) : stackStepsLoop l true = true := by
  induction l with
  | nil => rfl
  | cons step rest ih =>
    simp only [stackStepsLoop]
    split <;> simp [ih]

theorem stackStepsLoop_of_wildcard (l : List StackInstanceStep) (d : Bool)
    (h : ∃ step ∈ l, step.Key = InstanceKey.WildcardKey) : stackStepsLoop l d = true := by
  induction l with
  | nil => simp at h
  | cons step rest ih =>
    simp only [stackStepsLoop]
    split
    · rfl
    · rename_i hk
      obtain ⟨s, hs, hw⟩ := h
      simp only [List.mem_cons] at hs
      rcases hs with hs | hs
      · subst hs
        exact absurd hw hk
      · exact ih ⟨s, hs, hw⟩

theorem removedDependentsLoop_true (c : ComponentInstance) (l : List AbsComponent) :
    removedDependentsLoop c l true = true := by
  induction l with
  | nil => rfl
  | cons dep rest ih =>
    simp only [removedDependentsLoop]
    split
    · rfl
    · split
      · rfl
      · split
        · rfl
        · exact ih

theorem requiredComponentsLoop_true (c : ComponentInstance) (l : List AbsComponent) :
    requiredComponentsLoop c l true = true := by
  induction l with
  | nil => rfl
  | cons dep rest ih =>
    simp only [requiredComponentsLoop]
    split
    · rfl
    · split
      · rfl
      · split
        · rfl
        · exact ih

theorem requiredComponentsLoop_of_notReady (c : ComponentInstance) (l : List AbsComponent)
    (d : Bool) (h : ∃ dep ∈ l, requiredNotReady c dep = true) :
    requiredComponentsLoop c l d = true := by
  induction l with
  | nil => simp at h
  | cons dep rest ih =>
    simp only [requiredComponentsLoop]
    split
    · rfl
    · rename_i depStack hstack
      split
      · rfl
      · rename_i depComponent hcomp
        split
        · rfl
        · rename_i hcomplete
          obtain ⟨x, hx, hnr⟩ := h
          simp only [List.mem_cons] at hx
          rcases hx with hx | hx
          · subst hx
            simp only [requiredNotReady, hstack, hcomp] at hnr
            simp [hnr] at hcomplete
          · exact ih ⟨x, hx, hnr⟩

end ComponentInstance

/-! ## Deferral of the plan of an instance (C2, C3, C4) -/

/-- C2: outside destroy mode, when the instance was constructed as deferred,
or some required component has no stack, does not exist or has an incomplete
plan, every call `CheckModuleTreePlan` makes to `PlanComponentInstance`
carries `ExternalDependencyDeferred = true`.  The required components are
visited in the order of the list, which is arbitrary. -/
theorem required_component_defers_plan (c : ComponentInstance)
    (r : Option Plan × Diagnostics) (calls : List Call) (st : State) (opts : PlanOpts)
    (hmode : c.main.PlanningMode ≠ Mode.DestroyMode)
    (hdep : c.deferred = true ∨
      ∃ dep ∈ c.call.RequiredComponents, c.requiredNotReady dep = true)
    (hrun : c.CheckModuleTreePlan = .ok (r, calls))
    (hcall : Call.PlanComponentInstance st opts ∈ calls) :
    opts.ExternalDependencyDeferred = true := by
  rw [(ComponentInstance.check_call_opts c r calls st opts hrun hcall).1]
  have hreq : ComponentInstance.requiredComponentsLoop c c.call.RequiredComponents
      c.deferred = true := by
    rcases hdep with hd | hd
    · rw [hd]
      exact ComponentInstance.requiredComponentsLoop_true c _
    · exact ComponentInstance.requiredComponentsLoop_of_notReady c _ _ hd
  simp only [ComponentInstance.externalDependencyDeferred, hmode, if_false, hreq,
    ComponentInstance.removedDependentsLoop_true, ComponentInstance.stackStepsLoop_true]
  split <;> rfl

/-- C2, on the sample instance that requires the unknown component `db`: the
planning call is made and carries the flag. -/
theorem required_component_defers_plan_witness :
    Sample.waiting.CheckModuleTreePlan =
        .ok ((some Sample.normalPlan, []),
          [Call.CheckModuleTreePlan,
            Call.PlanComponentInstance State.NewState Sample.waitingOpts]) ∧
      Sample.waitingOpts.ExternalDependencyDeferred = true :=
  ⟨rfl,
    required_component_defers_plan Sample.waiting (some Sample.normalPlan, [])
      [Call.CheckModuleTreePlan, Call.PlanComponentInstance State.NewState Sample.waitingOpts]
      State.NewState Sample.waitingOpts (by decide)
      (Or.inr ⟨Sample.dbAddr, List.mem_singleton.2 rfl, rfl⟩) rfl
      (List.mem_cons_of_mem _ (List.mem_singleton.2 rfl))⟩

/-- C3 at a concrete input: in destroy mode the previous dependents are `db`,
which no longer exists, and `cache`, which exists with an incomplete plan.
Visited in that order, the loop stops at `db` and the planning call carries
`ExternalDependencyDeferred = false`; visited in the other order the flag
would be `true`. -/
theorem destroy_missing_dependent_stops_scan :
    Sample.unwinding.main.PlanningMode = Mode.DestroyMode ∧
      Sample.cacheAddr ∈ Sample.unwinding.PlanPrevDependents ∧
      Sample.unwinding.dependentIncomplete Sample.cacheAddr = true ∧
      Sample.unwinding.CheckModuleTreePlan =
        .ok ((some Sample.destroyPlan, []),
          [Call.CheckModuleTreePlan,
            Call.PlanComponentInstance State.NewState Sample.unwindingOpts]) ∧
      Sample.unwindingOpts.ExternalDependencyDeferred = false ∧
      Sample.unwindingReversed.externalDependencyDeferred = true :=
  ⟨rfl, by decide, rfl, rfl, rfl, rfl⟩

/-- C4: in every planning mode, when the key of the instance is the wildcard
key or a step of the path of its stack has the wildcard key, every call
`CheckModuleTreePlan` makes to `PlanComponentInstance` carries
`ExternalDependencyDeferred = true`, whatever the required components and the
previous dependents are. -/
theorem wildcard_key_defers_plan (c : ComponentInstance)
    (r : Option Plan × Diagnostics) (calls : List Call) (st : State) (opts : PlanOpts)
    (hkey : c.key = InstanceKey.WildcardKey ∨
      ∃ step ∈ c.call.addr.Stack, step.Key = InstanceKey.WildcardKey)
    (hrun : c.CheckModuleTreePlan = .ok (r, calls))
    (hcall : Call.PlanComponentInstance st opts ∈ calls) :
    opts.ExternalDependencyDeferred = true := by
  rw [(ComponentInstance.check_call_opts c r calls st opts hrun hcall).1]
  unfold ComponentInstance.externalDependencyDeferred
  rcases hkey with hk | hk
  · simp [hk]
  · simp only [ComponentInstance.stackStepsLoop_of_wildcard _ _ hk]
    split <;> rfl

/-- C4, on the sample instance of an unknown `for_each`, all of whose
required components are complete: the planning call is made and carries the
flag. -/
theorem wildcard_key_defers_plan_witness :
    Sample.wildcard.CheckModuleTreePlan =
        .ok ((some Sample.normalPlan, []),
          [Call.CheckModuleTreePlan,
            Call.PlanComponentInstance State.NewState Sample.waitingOpts]) ∧
      Sample.waitingOpts.ExternalDependencyDeferred = true :=
  ⟨rfl,
    wildcard_key_defers_plan Sample.wildcard (some Sample.normalPlan, [])
      [Call.CheckModuleTreePlan, Call.PlanComponentInstance State.NewState Sample.waitingOpts]
      State.NewState Sample.waitingOpts (Or.inl rfl) rfl
      (List.mem_cons_of_mem _ (List.mem_singleton.2 rfl))⟩

/-! ## Input variable values (C8, C9) -/

/-- C8 as stated fails at a concrete input: for an instance whose module has
no input type, `CheckInputVariableValues` in the apply phase returns
`cty.DynamicVal`, which is neither `cty.NilVal` nor wholly known, and in the
plan phase it returns `cty.DynamicVal` and not the value that
`EvalComponentInputVariables` would produce. -/
theorem checkInputVariableValues_nilType_is_unknown :
    (Sample.invalidModule.CheckInputVariableValues EvalPhase.ApplyPhase).1.isNilVal = false ∧
      (Sample.invalidModule.CheckInputVariableValues
        EvalPhase.ApplyPhase).1.IsWhollyKnown = false ∧
      (Sample.invalidModule.CheckInputVariableValues EvalPhase.PlanPhase).1.IsKnown = false ∧
      (Sample.invalidModule.ext.EvalComponentInputVariables
        Sample.invalidModule.call.Config.InputsType EvalPhase.PlanPhase).1.IsKnown = true :=
  ⟨rfl, rfl, rfl, rfl⟩

/-- C8, amended: when the expected input type is `cty.NilType`,
`CheckInputVariableValues` returns `cty.DynamicVal` without diagnostics in
every phase; otherwise its value in the apply phase is `cty.NilVal` or wholly
known, and in the plan phase it returns what `EvalComponentInputVariables`
produced, value and diagnostics, unchanged. -/
theorem checkInputVariableValues_by_phase (c : ComponentInstance) :
    (c.call.Config.InputsType.isNilType = true ∧
        ∀ phase, c.CheckInputVariableValues phase = (CtyValue.DynamicVal, [])) ∨
      (c.call.Config.InputsType.isNilType = false ∧
        ((c.CheckInputVariableValues EvalPhase.ApplyPhase).1.isNilVal = true ∨
          (c.CheckInputVariableValues EvalPhase.ApplyPhase).1.IsWhollyKnown = true) ∧
        c.CheckInputVariableValues EvalPhase.PlanPhase =
          c.ext.EvalComponentInputVariables c.call.Config.InputsType EvalPhase.PlanPhase) := by
  cases hty : c.call.Config.InputsType.isNilType
  · refine Or.inr ⟨rfl, ?_, ?_⟩
    · simp only [ComponentInstance.CheckInputVariableValues, hty, Bool.false_eq_true, if_false,
        if_true]
      cases hk : (c.ext.EvalComponentInputVariables c.call.Config.InputsType
        EvalPhase.ApplyPhase).1.IsWhollyKnown
      · simp [hk, CtyValue.isNilVal]
      · simp [hk]
    · simp [ComponentInstance.CheckInputVariableValues, hty]
  · refine Or.inl ⟨rfl, ?_⟩
    intro phase
    simp [ComponentInstance.CheckInputVariableValues, hty]

namespace ComponentInstance

theorem inputValuesLoop_spec (valsObj : CtyValue) (l : List (String × CtyType))
    (ret ret' : InputValues) (h : inputValuesLoop valsObj l ret = .ok ret') :
    (∀ name, name ∈ GoMap.keys ret' ↔ name ∈ GoMap.keys ret ∨ name ∈ GoMap.keys l) ∧
      ((GoMap.keys ret).Nodup → (GoMap.keys ret').Nodup) ∧
      ∀ e ∈ ret', e ∈ ret ∨
        (e.2.SourceType = ValueSourceType.ValueFromCaller ∧
          (e.2.Value.IsKnown = false →
            ∃ aty, (e.1, aty) ∈ l ∧ e.2.Value = CtyValue.Unknown aty)) := by
  induction l generalizing ret with
  | nil =>
    simp only [inputValuesLoop, Except.ok.injEq] at h
    subst h
    refine ⟨fun name => by simp [GoMap.keys], id, fun e he => Or.inl he⟩
  | cons a rest ih =>
    obtain ⟨name, aty⟩ := a
    simp only [inputValuesLoop] at h
    split at h
    · cases h
    · rename_i v hv
      obtain ⟨hkeys, hnodup, hent⟩ := ih _ h
      refine ⟨?_, ?_, ?_⟩
      · intro n
        rw [hkeys n, GoMap.mem_keys_store]
        simp only [GoMap.keys, List.map_cons, List.mem_cons]
        tauto
      · intro hnd
        exact hnodup (GoMap.nodup_keys_store _ _ _ hnd)
      · intro e he
        rcases hent e he with h1 | h1
        · rcases GoMap.mem_store _ _ _ _ h1 with h2 | h2
          · right
            subst h2
            refine ⟨rfl, ?_⟩
            intro hunk
            refine ⟨aty, List.mem_cons_self _ _, ?_⟩
            cases hvk : v.IsKnown
            · simp [hvk]
            · simp [hvk] at hunk
          · exact Or.inl h2
        · right
          refine ⟨h1.1, fun hunk => ?_⟩
          obtain ⟨t, ht, hval⟩ := h1.2 hunk
          exact ⟨t, List.mem_cons_of_mem _ ht, hval⟩

end ComponentInstance

/-- C9: `inputValuesForModulesRuntime` returns the nil map exactly when the
input value is `cty.NilVal` or the expected type is `cty.NilType`; and when it
returns a map, the keys of the map are the attribute names of the expected
object type, each once, every entry has `SourceType = ValueFromCaller`, and
every entry whose value is unknown holds the unknown value of the type
declared for that attribute. -/
theorem inputValuesForModulesRuntime_shape (c : ComponentInstance) (phase : EvalPhase) :
    (c.inputValuesForModulesRuntime phase = .ok none ↔
        ((c.InputVariableValues phase).isNilVal = true ∨
          c.call.Config.InputsType.isNilType = true)) ∧
      ∀ ret, c.inputValuesForModulesRuntime phase = .ok (some ret) →
        ∃ wantAttrs, c.call.Config.InputsType.AttributeTypes = some wantAttrs ∧
          (∀ name, name ∈ GoMap.keys ret ↔ name ∈ GoMap.keys wantAttrs) ∧
          (GoMap.keys ret).Nodup ∧
          (∀ e ∈ ret, e.2.SourceType = ValueSourceType.ValueFromCaller) ∧
          ∀ e ∈ ret, e.2.Value.IsKnown = false →
            ∃ aty, (e.1, aty) ∈ wantAttrs ∧ e.2.Value = CtyValue.Unknown aty := by
  unfold ComponentInstance.inputValuesForModulesRuntime
  cases hnil : (c.InputVariableValues phase).isNilVal
  · cases hty : c.call.Config.InputsType.isNilType
    · simp only [hnil, hty, Bool.false_eq_true, if_false, or_self, iff_false]
      refine ⟨?_, ?_⟩
      · intro h
        split at h
        · cases h
        · split at h <;> cases h
      · intro ret h
        split at h
        · cases h
        · rename_i wantAttrs hwant
          split at h
          · cases h
          · rename_i ret0 hloop
            simp only [Except.ok.injEq, Option.some.injEq] at h
            subst h
            obtain ⟨hkeys, hnodup, hent⟩ :=
              ComponentInstance.inputValuesLoop_spec _ _ _ _ hloop
            refine ⟨wantAttrs, hwant, ?_, ?_, ?_, ?_⟩
            · intro name
              rw [hkeys name]
              simp [GoMap.keys]
            · exact hnodup (by simp [GoMap.keys])
            · intro e he
              rcases hent e he with h1 | h1
              · cases h1
              · exact h1.1
            · intro e he hunk
              rcases hent e he with h1 | h1
              · cases h1
              · exact h1.2 hunk
    · simp [hnil, hty]
  · simp [hnil]

/-- C9, on the sample instance in the plan phase: the map has the one wanted
attribute `region`. -/
theorem inputValuesForModulesRuntime_shape_witness :
    Sample.instance0.inputValuesForModulesRuntime EvalPhase.PlanPhase =
        .ok (some Sample.inputValues0) ∧
      ∃ wantAttrs, Sample.instance0.call.Config.InputsType.AttributeTypes = some wantAttrs ∧
        (∀ name, name ∈ GoMap.keys Sample.inputValues0 ↔ name ∈ GoMap.keys wantAttrs) ∧
        (GoMap.keys Sample.inputValues0).Nodup ∧
        (∀ e ∈ Sample.inputValues0, e.2.SourceType = ValueSourceType.ValueFromCaller) ∧
        ∀ e ∈ Sample.inputValues0, e.2.Value.IsKnown = false →
          ∃ aty, (e.1, aty) ∈ wantAttrs ∧ e.2.Value = CtyValue.Unknown aty :=
  ⟨rfl,
    (inputValuesForModulesRuntime_shape Sample.instance0 EvalPhase.PlanPhase).2
      Sample.inputValues0 rfl⟩

/-! ## The action of the planned changes (C10) -/

namespace ComponentInstance

theorem once_calls_no_fromPlan (c : ComponentInstance) (r : Option Plan × Diagnostics)
    (calls : List Call) (plan : Plan) (action : Action)
    (h : c.checkModuleTreePlanOnce = .ok (r, calls)) :
    Call.FromPlan plan action ∉ calls := by
  intro hm
  unfold checkModuleTreePlanOnce at h
  split at h
  · cases h
  · simp only [Except.ok.injEq, Prod.mk.injEq] at h
    rw [← h.2] at hm
    cases hm
  · simp only [Diagnostics.HasErrors, List.any_nil, Bool.false_eq_true, if_false] at h
    split at h
    · simp only [Except.ok.injEq, Prod.mk.injEq] at h
      rw [← h.2] at hm
      cases hm
    · simp only [Except.ok.injEq, Prod.mk.injEq] at h
      rw [← h.2] at hm
      simp at hm

theorem check_calls_no_fromPlan (c : ComponentInstance) (r : Option Plan × Diagnostics)
    (calls : List Call) (plan : Plan) (action : Action)
    (h : c.CheckModuleTreePlan = .ok (r, calls)) :
    Call.FromPlan plan action ∉ calls := by
  intro hm
  unfold CheckModuleTreePlan at h
  split at h
  · cases h
  · split at h
    · cases h
    · rename_i ret calls' hon
      simp only [Except.ok.injEq, Prod.mk.injEq] at h
      rw [← h.2] at hm
      simp only [List.mem_cons] at hm
      rcases hm with hm | hm
      · cases hm
      · exact once_calls_no_fromPlan c ret calls' plan action hon hm

end ComponentInstance

/-- C10: when `PlanChanges` calls `stackplan.FromPlan` with a plan whose
`UIMode` is neither destroy nor refresh-only, that plan is the module-tree
plan of the instance, the action it passes is `Create` exactly when the
previous state is nil or does not contain the instance, and `Update` exactly
when the previous state contains it. -/
theorem planChanges_action_in_normal_mode (c : ComponentInstance)
    (r : List PlannedChange × Diagnostics) (calls : List Call) (plan : Plan) (action : Action)
    (hrun : c.PlanChanges = .ok (r, calls))
    (hcall : Call.FromPlan plan action ∈ calls)
    (hdestroy : plan.UIMode ≠ Mode.DestroyMode)
    (hrefresh : plan.UIMode ≠ Mode.RefreshOnlyMode) :
    (∃ diags calls', c.CheckModuleTreePlan = .ok ((some plan, diags), calls')) ∧
      (action = Action.Create ↔
        (c.main.PlanPrevState.isNil = true ∨
          c.main.PlanPrevState.HasComponentInstance c.Addr = false)) ∧
      (action = Action.Update ↔
        (c.main.PlanPrevState.isNil = false ∧
          c.main.PlanPrevState.HasComponentInstance c.Addr = true)) := by
  unfold ComponentInstance.PlanChanges at hrun
  split at hrun
  · cases hrun
  · rename_i corePlan moreDiags calls' hcheck
    have hno := ComponentInstance.check_calls_no_fromPlan c _ _ plan action hcheck
    cases corePlan with
    | none =>
      simp only [Except.ok.injEq, Prod.mk.injEq] at hrun
      rw [← hrun.2] at hcall
      exact absurd hcall hno
    | some corePlan =>
      simp only [Except.ok.injEq, Prod.mk.injEq] at hrun
      rw [← hrun.2] at hcall
      simp only [List.mem_append, List.mem_singleton, Call.FromPlan.injEq] at hcall
      rcases hcall with hcall | hcall
      · exact absurd hcall hno
      · obtain ⟨hplan, haction⟩ := hcall
        subst hplan
        refine ⟨⟨moreDiags, calls', hcheck⟩, ?_⟩
        rw [haction]
        cases hnil : c.main.PlanPrevState.isNil <;>
          cases hhas : c.main.PlanPrevState.HasComponentInstance c.Addr <;>
          simp [hdestroy, hrefresh]

/-- C10, on the sample instance, which the previous state does not contain:
`FromPlan` is called with the normal-mode plan and the action `Create`. -/
theorem planChanges_action_in_normal_mode_witness :
    Sample.instance0.PlanChanges =
        .ok (([], []),
          [Call.CheckModuleTreePlan,
            Call.PlanComponentInstance State.NewState Sample.opts0,
            Call.FromPlan Sample.normalPlan Action.Create]) ∧
      (Action.Create = Action.Create ↔
        (Sample.instance0.main.PlanPrevState.isNil = true ∨
          Sample.instance0.main.PlanPrevState.HasComponentInstance
            Sample.instance0.Addr = false)) :=
  ⟨rfl,
    (planChanges_action_in_normal_mode Sample.instance0 ([], [])
      [Call.CheckModuleTreePlan,
        Call.PlanComponentInstance State.NewState Sample.opts0,
        Call.FromPlan Sample.normalPlan Action.Create]
      Sample.normalPlan Action.Create rfl (by simp) (by decide) (by decide)).2.1⟩

/-! ## Applying the plan of an instance (C6, C7) -/

namespace ComponentInstance

theorem encodeLoop_diags (c : ComponentInstance) (vref mref : Nat)
    (l : List (String × InputValue)) (heap : Heap) (diags : Diagnostics) :
    (encodeLoop c vref mref l heap diags).2 =
      diags ++ (encodeFailures c l).map (fun f => c.encodeErrorDiag f.1 f.2) := by
  induction l generalizing heap diags with
  | nil => simp [encodeLoop, encodeFailures]
  | cons e rest ih =>
    obtain ⟨name, iv⟩ := e
    simp only [encodeLoop, encodeFailures]
    split <;> simp [ih, *]

theorem hasErrors_encodeFailures (c : ComponentInstance) (fs : List (String × String))
    (h : fs ≠ []) :
    Diagnostics.HasErrors (fs.map (fun f => c.encodeErrorDiag f.1 f.2)) = true := by
  cases fs with
  | nil => exact absurd rfl h
  | cons f rest => simp [Diagnostics.HasErrors, encodeErrorDiag]

theorem encodeLoop_frame (c : ComponentInstance) (vref mref : Nat)
    (l : List (String × InputValue)) (heap : Heap) (diags : Diagnostics) :
    (encodeLoop c vref mref l heap diags).1.Plans = heap.Plans ∧
      (encodeLoop c vref mref l heap diags).1.Values.length = heap.Values.length ∧
      (encodeLoop c vref mref l heap diags).1.Marks.length = heap.Marks.length ∧
      (∀ r, r ≠ vref → (encodeLoop c vref mref l heap diags).1.Values[r]? = heap.Values[r]?) ∧
      ∀ r, r ≠ mref → (encodeLoop c vref mref l heap diags).1.Marks[r]? = heap.Marks[r]? := by
  induction l generalizing heap diags with
  | nil => simp [encodeLoop]
  | cons e rest ih =>
    obtain ⟨name, iv⟩ := e
    simp only [encodeLoop]
    split
    · exact ih heap _
    · rename_i dv hdv
      obtain ⟨h1, h2, h3, h4, h5⟩ :=
        ih ((heap.storeValue vref name dv).storeMarks mref name
          (c.ext.UnmarkDeepWithPaths iv.Value).2) diags
      refine ⟨?_, ?_, ?_, ?_, ?_⟩
      · rw [h1]; rfl
      · rw [h2]; simp [Heap.storeValue, Heap.storeMarks]
      · rw [h3]; simp [Heap.storeValue, Heap.storeMarks]
      · intro r hr
        rw [h4 r hr]
        simp only [Heap.storeValue, Heap.storeMarks]
        exact List.getElem?_set_ne (Ne.symm hr)
      · intro r hr
        rw [h5 r hr]
        simp only [Heap.storeValue, Heap.storeMarks]
        exact List.getElem?_set_ne (Ne.symm hr)

end ComponentInstance

/-- C6: when the evaluator is applying and the plan pointer is valid,
`ApplyModuleTreePlan` returns the placeholder of a skipped apply
(`FinalState` the plan's `PrevRunState`, `Complete = false`) and makes no
call, so `ApplyComponentPlan` is not invoked, in two cases: with no
diagnostics and the memory untouched when `inputValuesForModulesRuntime`
returns nil; and with one error diagnostic for each input value whose
encoding fails, in the order of the loop, when at least one fails. -/
theorem applyModuleTreePlan_cannot_start (c : ComponentInstance) (heap : Heap) (plan : Nat)
    (planVal : Plan) (happlying : c.main.Applying = true)
    (hplan : heap.Plans[plan]? = some planVal) :
    (c.inputValuesForModulesRuntime EvalPhase.ApplyPhase = .ok none →
        c.ApplyModuleTreePlan heap plan =
          .ok ((some { FinalState := planVal.PrevRunState,
                       AffectedResourceInstanceObjects := [],
                       Complete := false }, []), [], heap)) ∧
      ∀ inputValues,
        c.inputValuesForModulesRuntime EvalPhase.ApplyPhase = .ok (some inputValues) →
        c.encodeFailures inputValues ≠ [] →
        ∃ heap' diags,
          c.ApplyModuleTreePlan heap plan =
            .ok ((some { FinalState := planVal.PrevRunState,
                         AffectedResourceInstanceObjects := [],
                         Complete := false }, diags), [], heap') ∧
          diags = (c.encodeFailures inputValues).map (fun f => c.encodeErrorDiag f.1 f.2) ∧
          diags.length = (c.encodeFailures inputValues).length ∧
          ∀ d ∈ diags, d.Severity = Severity.Error := by
  refine ⟨?_, ?_⟩
  · intro hnil
    simp [ComponentInstance.ApplyModuleTreePlan, happlying, hplan, hnil,
      ComponentInstance.PlaceholderApplyResultForSkippedApply]
  · intro inputValues hsome hfail
    have hdiags := fun heap1 =>
      ComponentInstance.encodeLoop_diags c heap.Values.length heap.Marks.length inputValues
        heap1 []
    have herr := ComponentInstance.hasErrors_encodeFailures c _ hfail
    refine ⟨(ComponentInstance.encodeLoop c heap.Values.length heap.Marks.length inputValues
        (heap.makeValues.2.makeMarks.2) []).1, _, ?_, rfl, by simp, ?_⟩
    · simp only [ComponentInstance.ApplyModuleTreePlan, happlying, hplan, hsome,
        Heap.makeValues, Heap.makeMarks, hdiags, List.nil_append, herr,
        ComponentInstance.PlaceholderApplyResultForSkippedApply]
      simp
    · intro d hd
      simp only [List.mem_map] at hd
      obtain ⟨f, _, hf⟩ := hd
      rw [← hf]
      rfl

/-- C6, on two sample instances and the memory that holds one plan: the
instance with unknown inputs gets the placeholder without diagnostics, and
the instance with a number among its inputs gets the placeholder with an
error diagnostic for that input. -/
theorem applyModuleTreePlan_cannot_start_witness :
    Sample.unknownInputs.ApplyModuleTreePlan Sample.heap0 0 =
        .ok ((some { FinalState := Sample.plan0.PrevRunState,
                     AffectedResourceInstanceObjects := [],
                     Complete := false }, []), [], Sample.heap0) ∧
      ∃ heap' diags,
        Sample.unencodable.ApplyModuleTreePlan Sample.heap0 0 =
          .ok ((some { FinalState := Sample.plan0.PrevRunState,
                       AffectedResourceInstanceObjects := [],
                       Complete := false }, diags), [], heap') ∧
        diags = (Sample.unencodable.encodeFailures Sample.unencodableValues).map
          (fun f => Sample.unencodable.encodeErrorDiag f.1 f.2) ∧
        diags.length = (Sample.unencodable.encodeFailures Sample.unencodableValues).length ∧
        ∀ d ∈ diags, d.Severity = Severity.Error :=
  ⟨(applyModuleTreePlan_cannot_start Sample.unknownInputs Sample.heap0 0 Sample.plan0
      rfl rfl).1 rfl,
    (applyModuleTreePlan_cannot_start Sample.unencodable Sample.heap0 0 Sample.plan0
      rfl rfl).2 Sample.unencodableValues rfl (by decide)⟩

/-- C7: provided `ApplyComponentPlan` writes only to the plan struct it is
handed and to the two maps of that struct, a call of `ApplyModuleTreePlan`
that returns leaves the caller's plan as it was: the struct at the caller's
address is unchanged, so its `VariableValues` and `VariableMarks` are the same
maps, and those maps hold the same entries.  The new values go to maps made
during the call, which a copy of the struct points to. -/
theorem applyModuleTreePlan_leaves_caller_plan (c : ComponentInstance) (heap : Heap)
    (plan : Nat) (planVal : Plan)
    (out : Option ComponentInstanceApplyResult × Diagnostics) (calls : List Call)
    (heap' : Heap)
    (hplan : heap.Plans[plan]? = some planVal)
    (hvalues : ∀ r, planVal.VariableValues = some r → r < heap.Values.length)
    (hmarks : ∀ r, planVal.VariableMarks = some r → r < heap.Marks.length)
    (hframe : ∀ (h : Heap) (q : Nat) (mp : Plan), h.Plans[q]? = some mp →
      (∀ a, a ≠ q → a < h.Plans.length →
        (c.ext.ApplyComponentPlan h q).2.2.Plans[a]? = h.Plans[a]?) ∧
      (∀ r, mp.VariableValues ≠ some r → r < h.Values.length →
        (c.ext.ApplyComponentPlan h q).2.2.Values[r]? = h.Values[r]?) ∧
      (∀ r, mp.VariableMarks ≠ some r → r < h.Marks.length →
        (c.ext.ApplyComponentPlan h q).2.2.Marks[r]? = h.Marks[r]?))
    (hrun : c.ApplyModuleTreePlan heap plan = .ok (out, calls, heap')) :
    heap'.Plans[plan]? = some planVal ∧
      (∀ r, planVal.VariableValues = some r → heap'.Values[r]? = heap.Values[r]?) ∧
      (∀ r, planVal.VariableMarks = some r → heap'.Marks[r]? = heap.Marks[r]?) := by
  have hlt : plan < heap.Plans.length := by
    by_contra hge
    rw [List.getElem?_eq_none (Nat.le_of_not_lt hge)] at hplan
    cases hplan
  unfold ComponentInstance.ApplyModuleTreePlan at hrun
  simp only [hplan] at hrun
  split at hrun
  · cases hrun
  · split at hrun
    · cases hrun
    · simp only [Except.ok.injEq, Prod.mk.injEq] at hrun
      obtain ⟨_, _, hheap⟩ := hrun
      subst hheap
      exact ⟨hplan, fun _ _ => rfl, fun _ _ => rfl⟩
    · rename_i inputValues hsome
      simp only [Heap.makeValues, Heap.makeMarks] at hrun
      obtain ⟨hP, hVl, hMl, hV, hM⟩ :=
        ComponentInstance.encodeLoop_frame c heap.Values.length heap.Marks.length inputValues
          { Plans := heap.Plans, Values := heap.Values ++ [[]], Marks := heap.Marks ++ [[]] } []
      rcases hloop : ComponentInstance.encodeLoop c heap.Values.length heap.Marks.length
        inputValues
        { Plans := heap.Plans, Values := heap.Values ++ [[]], Marks := heap.Marks ++ [[]] } []
        with ⟨heap3, diags⟩
      rw [hloop] at hrun hP hVl hMl hV hM
      simp only at hrun hP hVl hMl hV hM
      have hV3 : ∀ r, r < heap.Values.length → heap3.Values[r]? = heap.Values[r]? := by
        intro r hr
        rw [hV r (Nat.ne_of_lt hr), List.getElem?_append_left hr]
      have hM3 : ∀ r, r < heap.Marks.length → heap3.Marks[r]? = heap.Marks[r]? := by
        intro r hr
        rw [hM r (Nat.ne_of_lt hr), List.getElem?_append_left hr]
      split at hrun
      · simp only [Except.ok.injEq, Prod.mk.injEq] at hrun
        obtain ⟨_, _, hheap⟩ := hrun
        subst hheap
        exact ⟨by rw [hP]; exact hplan, fun r hr => hV3 r (hvalues r hr),
          fun r hr => hM3 r (hmarks r hr)⟩
      · simp only [Heap.allocPlan, Except.ok.injEq, Prod.mk.injEq] at hrun
        obtain ⟨_, _, hheap⟩ := hrun
        subst hheap
        have hptr : ({ heap3 with Plans := heap3.Plans ++
            [{ planVal with VariableValues := some heap.Values.length,
                            VariableMarks := some heap.Marks.length }] } : Heap).Plans[
              heap3.Plans.length]? =
            some { planVal with VariableValues := some heap.Values.length,
                                VariableMarks := some heap.Marks.length } := by
          simp
        obtain ⟨hf1, hf2, hf3⟩ := hframe _ _ _ hptr
        refine ⟨?_, ?_, ?_⟩
        · rw [hf1 plan (by rw [hP]; exact Nat.ne_of_lt hlt)
            (by simp only [List.length_append, hP]; omega)]
          simp only [hP]
          rw [List.getElem?_append_left hlt]
          exact hplan
        · intro r hr
          have hr' := hvalues r hr
          rw [hf2 r (by simp only [ne_eq, Option.some.injEq]; omega)
            (by simp only [hVl, List.length_append, List.length_singleton]; omega)]
          exact hV3 r hr'
        · intro r hr
          have hr' := hmarks r hr
          rw [hf3 r (by simp only [ne_eq, Option.some.injEq]; omega)
            (by simp only [hMl, List.length_append, List.length_singleton]; omega)]
          exact hM3 r hr'

/-- C7, on the sample instance whose `ApplyComponentPlan` writes to the map
of the plan it is handed: the entry `applied` lands in the new map at address
1, and the caller's plan at address 0 and its maps are as before. -/
theorem applyModuleTreePlan_leaves_caller_plan_witness :
    Sample.writer.ApplyModuleTreePlan Sample.heap1 0 =
        .ok ((some { FinalState := none, AffectedResourceInstanceObjects := [],
                     Complete := true }, []),
          [Call.ApplyComponentPlan 1], Sample.heap1After) ∧
      Sample.heap1After.Plans[0]? = some Sample.plan1 ∧
      (∀ r, Sample.plan1.VariableValues = some r →
        Sample.heap1After.Values[r]? = Sample.heap1.Values[r]?) ∧
      (∀ r, Sample.plan1.VariableMarks = some r →
        Sample.heap1After.Marks[r]? = Sample.heap1.Marks[r]?) :=
  ⟨rfl,
    applyModuleTreePlan_leaves_caller_plan Sample.writer Sample.heap1 0 Sample.plan1
      (some { FinalState := none, AffectedResourceInstanceObjects := [], Complete := true }, [])
      [Call.ApplyComponentPlan 1] Sample.heap1After rfl
      (by intro r hr; cases hr; decide)
      (by intro r hr; cases hr; decide)
      (by
        intro h q mp hq
        simp only [Sample.writer, hq]
        refine ⟨fun a _ _ => ?_, fun r hr _ => ?_, fun r _ _ => ?_⟩
        · cases mp.VariableValues <;> rfl
        · cases hv : mp.VariableValues with
          | none => rfl
          | some r0 =>
            simp only [Heap.storeValue]
            exact List.getElem?_set_ne (fun he => hr (by rw [hv, he]))
        · cases mp.VariableValues <;> rfl)
      rfl⟩

end Stackeval

namespace Stackeval

/-! ## The action of a refresh-only plan (C11) -/

/-- C11 as stated fails at a concrete input: for the sample instance planned
in refresh-only mode, `PlanChanges` calls `stackplan.FromPlan` with the action
`Read`, which is not `NoOp`. -/
theorem planChanges_refresh_only_passes_read :
    Sample.refreshing.PlanChanges =
        .ok (([], []),
          [Call.CheckModuleTreePlan,
            Call.PlanComponentInstance State.NewState Sample.refreshOpts,
            Call.FromPlan Sample.refreshPlan Action.Read]) ∧
      Sample.refreshPlan.UIMode = Mode.RefreshOnlyMode ∧
      Action.Read ≠ Action.NoOp :=
  ⟨rfl, rfl, by decide⟩

/-- C11, amended: when `PlanChanges` calls `stackplan.FromPlan` with a plan
whose `UIMode` is refresh-only, the action it passes is `Read`, whether or not
the previous state contains the instance. -/
theorem planChanges_action_in_refresh_only_mode (c : ComponentInstance)
    (r : List PlannedChange × Diagnostics) (calls : List Call) (plan : Plan) (action : Action)
    (hrun : c.PlanChanges = .ok (r, calls))
    (hcall : Call.FromPlan plan action ∈ calls)
    (hrefresh : plan.UIMode = Mode.RefreshOnlyMode) :
    action = Action.Read := by
  unfold ComponentInstance.PlanChanges at hrun
  split at hrun
  · cases hrun
  · rename_i corePlan moreDiags calls' hcheck
    have hno := ComponentInstance.check_calls_no_fromPlan c _ _ plan action hcheck
    cases corePlan with
    | none =>
      simp only [Except.ok.injEq, Prod.mk.injEq] at hrun
      rw [← hrun.2] at hcall
      exact absurd hcall hno
    | some corePlan =>
      simp only [Except.ok.injEq, Prod.mk.injEq] at hrun
      rw [← hrun.2] at hcall
      simp only [List.mem_append, List.mem_singleton, Call.FromPlan.injEq] at hcall
      rcases hcall with hcall | hcall
      · exact absurd hcall hno
      · obtain ⟨hplan, haction⟩ := hcall
        subst hplan
        rw [haction]
        simp [hrefresh]

/-- C11 amended, on the sample instance planned in refresh-only mode: the
action of the call is `Read`. -/
theorem planChanges_action_in_refresh_only_mode_witness :
    Call.FromPlan Sample.refreshPlan Action.Read ∈
        [Call.CheckModuleTreePlan,
          Call.PlanComponentInstance State.NewState Sample.refreshOpts,
          Call.FromPlan Sample.refreshPlan Action.Read] ∧
      Action.Read = Action.Read :=
  ⟨by simp,
    planChanges_action_in_refresh_only_mode Sample.refreshing ([], [])
      [Call.CheckModuleTreePlan,
        Call.PlanComponentInstance State.NewState Sample.refreshOpts,
        Call.FromPlan Sample.refreshPlan Action.Read]
      Sample.refreshPlan Action.Read rfl (by simp) rfl⟩

end Stackeval

namespace Stackeval

/-! ## The result value from a state or a previous result (C12, C13, C14) -/

namespace ComponentInstance

theorem lookup_stateOutputsLoop (l : List (String × StateOutputValue))
    (h : (l.map (fun e => e.2.Addr.Name)).Nodup) (attrs : GoMap String CtyValue)
    (name : String) :
    GoMap.lookup (stateOutputsLoop l attrs) name =
      match l.find? (fun e => decide (e.2.Addr.Name = name)) with
      | some e => some (if e.2.Sensitive then e.2.Value.Mark Mark.Sensitive else e.2.Value)
      | none => GoMap.lookup attrs name := by
  induction l generalizing attrs with
  | nil => rfl
  | cons e rest ih =>
    obtain ⟨k, ov⟩ := e
    simp only [List.map_cons, List.nodup_cons, List.mem_map, not_exists, not_and] at h
    have hrest : ov.Addr.Name = name →
        rest.find? (fun e => decide (e.2.Addr.Name = name)) = none := by
      intro hn
      rw [List.find?_eq_none]
      intro x hx
      simp only [decide_eq_true_eq]
      intro hx'
      exact h.1 x hx (hx'.trans hn.symm)
    simp only [stateOutputsLoop]
    by_cases hn : ov.Addr.Name = name
    · cases hs : ov.Sensitive <;>
        simp [hs, ih h.2, hrest hn, List.find?_cons, hn, GoMap.lookup_store]
    · cases hs : ov.Sensitive <;>
        simp [hs, ih h.2, List.find?_cons, hn, GoMap.lookup_store]

theorem lookup_missingOutputsLoop (l : List (String × ConfigOutput))
    (attrs : GoMap String CtyValue) (name : String) :
    GoMap.lookup (missingOutputsLoop l attrs) name =
      match GoMap.lookup attrs name with
      | some v => some v
      | none =>
        if l.any (fun o => decide (o.2.Name = name)) then some CtyValue.DynamicVal
        else none := by
  induction l generalizing attrs with
  | nil => simp only [missingOutputsLoop, List.any_nil]; cases GoMap.lookup attrs name <;> rfl
  | cons o rest ih =>
    obtain ⟨k, output⟩ := o
    simp only [missingOutputsLoop]
    split
    · rename_i v hv
      rw [ih]
      by_cases hn : output.Name = name
      · subst hn
        simp [hv]
      · simp only [List.any_cons, hn, decide_False, Bool.false_or]
    · rename_i hv
      rw [ih, GoMap.lookup_store]
      by_cases hn : output.Name = name
      · subst hn
        simp [hv]
      · simp only [List.any_cons, hn, decide_False, Bool.false_or, if_false]

theorem lookup_declaredOutputsLoop (l : List (String × ConfigOutput))
    (obj : GoMap String CtyValue) (name : String) :
    GoMap.lookup (declaredOutputsLoop l obj) name =
      match GoMap.lookup obj name with
      | some v => some v
      | none =>
        if l.any (fun o => decide (o.1 = name)) then some CtyValue.DynamicVal
        else none := by
  induction l generalizing obj with
  | nil => simp only [declaredOutputsLoop, List.any_nil]; cases GoMap.lookup obj name <;> rfl
  | cons o rest ih =>
    obtain ⟨k, output⟩ := o
    simp only [declaredOutputsLoop]
    split
    · rename_i v hv
      rw [ih]
      by_cases hn : k = name
      · subst hn
        simp [hv]
      · simp only [List.any_cons, hn, decide_False, Bool.false_or]
    · rename_i hv
      rw [ih, GoMap.lookup_store]
      by_cases hn : k = name
      · subst hn
        simp [hv]
      · simp only [List.any_cons, hn, decide_False, Bool.false_or, if_false]

end ComponentInstance

end Stackeval

namespace Stackeval

namespace ComponentInstance

theorem nodup_stateOutputsLoop (l : List (String × StateOutputValue))
    (attrs : GoMap String CtyValue) (h : (GoMap.keys attrs).Nodup) :
    (GoMap.keys (stateOutputsLoop l attrs)).Nodup := by
  induction l generalizing attrs with
  | nil => exact h
  | cons e rest ih =>
    obtain ⟨k, ov⟩ := e
    simp only [stateOutputsLoop]
    split <;> exact ih _ (GoMap.nodup_keys_store _ _ _ h)

theorem nodup_missingOutputsLoop (l : List (String × ConfigOutput))
    (attrs : GoMap String CtyValue) (h : (GoMap.keys attrs).Nodup) :
    (GoMap.keys (missingOutputsLoop l attrs)).Nodup := by
  induction l generalizing attrs with
  | nil => exact h
  | cons e rest ih =>
    obtain ⟨k, output⟩ := e
    simp only [missingOutputsLoop]
    split
    · exact ih _ h
    · exact ih _ (GoMap.nodup_keys_store _ _ _ h)

theorem nodup_declaredOutputsLoop (l : List (String × ConfigOutput))
    (obj : GoMap String CtyValue) (h : (GoMap.keys obj).Nodup) :
    (GoMap.keys (declaredOutputsLoop l obj)).Nodup := by
  induction l generalizing obj with
  | nil => exact h
  | cons e rest ih =>
    obtain ⟨k, output⟩ := e
    simp only [declaredOutputsLoop]
    split
    · exact ih _ h
    · exact ih _ (GoMap.nodup_keys_store _ _ _ h)

theorem hasMark_mark (v : CtyValue) (m : Mark) : (v.Mark m).HasMark m = true := by
  unfold CtyValue.Mark
  split
  · assumption
  · simp [CtyValue.HasMark]

theorem resultValueFromState_some (c : ComponentInstance) (st : State) (config : ModuleConfig)
    (calls : List Call) (htree : c.call.Config.ModuleTree = some config) :
    resultValueFromState c (some st) calls =
      .ok (CtyValue.ObjectVal
        (missingOutputsLoop config.Outputs (stateOutputsLoop st.RootOutputValues [])), calls) := by
  simp [resultValueFromState, htree, CtyValue.ofAttrs]

end ComponentInstance

/-- C12: in the inspect phase, and in the apply phase when the plan being
applied has an entry for the instance whose action is not Delete, if the
state is non-nil and the module tree is available, `ResultValue` returns an
object whose attributes are these and no others: under the name of each root
output value of the state, the state's value, marked sensitive when the
`Sensitive` flag is set; and under the name of each declared output that the
state lacks, `cty.DynamicVal`. -/
theorem resultValue_from_state (c : ComponentInstance) (phase : EvalPhase) (st : State)
    (config : ModuleConfig) (calls : List Call)
    (htree : c.call.Config.ModuleTree = some config)
    (hnames : (st.RootOutputValues.map (fun e => e.2.Addr.Name)).Nodup)
    (hphase : (phase = EvalPhase.InspectPhase ∧ c.InspectingState = some st ∧ calls = []) ∨
      (phase = EvalPhase.ApplyPhase ∧
        (∃ ourPlan, c.main.PlanBeingApplied.Components c.Addr = some ourPlan ∧
          ourPlan.PlannedAction ≠ Action.Delete) ∧
        c.ApplyResultState = (some st, calls))) :
    ∃ attrs : GoMap String CtyValue,
      c.ResultValue phase = .ok (CtyValue.ObjectVal attrs, calls) ∧
      (GoMap.keys attrs).Nodup ∧
      ∀ name, GoMap.lookup attrs name =
        match st.RootOutputValues.find? (fun e => decide (e.2.Addr.Name = name)) with
        | some e =>
          some (if e.2.Sensitive then e.2.Value.Mark Mark.Sensitive else e.2.Value)
        | none =>
          if config.Outputs.any (fun o => decide (o.2.Name = name)) then
            some CtyValue.DynamicVal
          else none := by
  refine ⟨ComponentInstance.missingOutputsLoop config.Outputs
    (ComponentInstance.stateOutputsLoop st.RootOutputValues []), ?_, ?_, ?_⟩
  · rcases hphase with ⟨hp, hst, hcalls⟩ | ⟨hp, ⟨ourPlan, hentry, hact⟩, hst⟩
    · subst hp hcalls
      simp only [ComponentInstance.ResultValue, hst]
      exact ComponentInstance.resultValueFromState_some c st config [] htree
    · subst hp
      simp only [ComponentInstance.ResultValue, hentry, hact, if_false, hst]
      exact ComponentInstance.resultValueFromState_some c st config calls htree
  · exact ComponentInstance.nodup_missingOutputsLoop _ _
      (ComponentInstance.nodup_stateOutputsLoop _ _ (by simp [GoMap.keys]))
  · intro name
    rw [ComponentInstance.lookup_missingOutputsLoop,
      ComponentInstance.lookup_stateOutputsLoop _ hnames]
    cases st.RootOutputValues.find? (fun e => decide (e.2.Addr.Name = name)) <;> rfl

/-- C12, on the sample instance under inspection: the object has the state's
`url`, the state's `token` marked sensitive, and the declared `id` as
`cty.DynamicVal`. -/
theorem resultValue_from_state_witness :
    Sample.inspected.ResultValue EvalPhase.InspectPhase =
        .ok (CtyValue.ObjectVal
          [("url", CtyValue.StringVal "u"),
           ("token", CtyValue.Marked (CtyValue.StringVal "t") Mark.Sensitive),
           ("id", CtyValue.DynamicVal)], []) ∧
      ∃ attrs : GoMap String CtyValue,
        Sample.inspected.ResultValue EvalPhase.InspectPhase =
          .ok (CtyValue.ObjectVal attrs, []) ∧
        (GoMap.keys attrs).Nodup ∧
        ∀ name, GoMap.lookup attrs name =
          match Sample.appliedState.RootOutputValues.find?
              (fun e => decide (e.2.Addr.Name = name)) with
          | some e =>
            some (if e.2.Sensitive then e.2.Value.Mark Mark.Sensitive else e.2.Value)
          | none =>
            if Sample.moduleWithId.Outputs.any (fun o => decide (o.2.Name = name)) then
              some CtyValue.DynamicVal
            else none :=
  ⟨rfl,
    resultValue_from_state Sample.inspected EvalPhase.InspectPhase Sample.appliedState
      Sample.moduleWithId [] rfl (by decide) (Or.inl ⟨rfl, rfl, rfl⟩)⟩

/-- C13: in the plan phase of a destroy plan, when the module tree is
available, `ResultValue` returns an object that has every output of the
previous result with its prior value, `cty.DynamicVal` for every declared
output that the previous result lacks, and no other attribute; it makes no
call, so `ModuleTreePlan` is not asked for. -/
theorem resultValue_destroy_plan (c : ComponentInstance) (moduleTree : ModuleConfig)
    (hmode : c.main.PlanningMode = Mode.DestroyMode)
    (htree : c.call.Config.ModuleTree = some moduleTree)
    (hmap : (GoMap.keys c.PlanPrevResult).Nodup) :
    ∃ attrs : GoMap String CtyValue,
      c.ResultValue EvalPhase.PlanPhase = .ok (CtyValue.ObjectVal attrs, []) ∧
      (GoMap.keys attrs).Nodup ∧
      ∀ name, GoMap.lookup attrs name =
        match GoMap.lookup c.PlanPrevResult { Name := name } with
        | some v => some v
        | none =>
          if moduleTree.Outputs.any (fun o => decide (o.1 = name)) then
            some CtyValue.DynamicVal
          else none := by
  refine ⟨ComponentInstance.declaredOutputsLoop moduleTree.Outputs
    (ComponentInstance.outputValuesLoop c.PlanPrevResult []), ?_, ?_, ?_⟩
  · simp [ComponentInstance.ResultValue, hmode, htree, CtyValue.ofAttrs]
  · exact ComponentInstance.nodup_declaredOutputsLoop _ _
      (ComponentInstance.nodup_outputValuesLoop _ _ (by simp [GoMap.keys]))
  · intro name
    rw [ComponentInstance.lookup_declaredOutputsLoop,
      ComponentInstance.lookup_outputValuesLoop _ hmap]
    cases GoMap.lookup c.PlanPrevResult { Name := name } <;> rfl

/-- C13, on the sample instance in a destroy plan: the object has the prior
`url` and the declared `id` as `cty.DynamicVal`, and no call is made. -/
theorem resultValue_destroy_plan_witness :
    Sample.destroying.ResultValue EvalPhase.PlanPhase =
        .ok (CtyValue.ObjectVal
          [("url", CtyValue.StringVal "old"), ("id", CtyValue.DynamicVal)], []) ∧
      ∃ attrs : GoMap String CtyValue,
        Sample.destroying.ResultValue EvalPhase.PlanPhase =
          .ok (CtyValue.ObjectVal attrs, []) ∧
        (GoMap.keys attrs).Nodup ∧
        ∀ name, GoMap.lookup attrs name =
          match GoMap.lookup Sample.destroying.PlanPrevResult { Name := name } with
          | some v => some v
          | none =>
            if Sample.moduleWithId.Outputs.any (fun o => decide (o.1 = name)) then
              some CtyValue.DynamicVal
            else none :=
  ⟨rfl, resultValue_destroy_plan Sample.destroying Sample.moduleWithId rfl rfl (by decide)⟩

/-- C14: `ResultValue` returns `cty.DynamicVal` in each of these cases: in
the plan phase outside destroy mode when `ModuleTreePlan` returns nil; in the
apply phase when the plan being applied has no entry for the instance; in the
apply phase when the entry's action is not Delete, so that the state of the
apply result is read, and that state is nil; in the inspect phase when the
state is nil; and in every phase other than plan, apply and inspect. -/
theorem resultValue_placeholder (c : ComponentInstance) :
    (c.main.PlanningMode ≠ Mode.DestroyMode →
        ∀ calls, c.ModuleTreePlan = .ok (none, calls) →
          c.ResultValue EvalPhase.PlanPhase = .ok (CtyValue.DynamicVal, calls)) ∧
      (c.main.PlanBeingApplied.Components c.Addr = none →
        c.ResultValue EvalPhase.ApplyPhase = .ok (CtyValue.DynamicVal, [])) ∧
      (∀ ourPlan, c.main.PlanBeingApplied.Components c.Addr = some ourPlan →
        ourPlan.PlannedAction ≠ Action.Delete → c.ApplyResultState.1 = none →
          c.ResultValue EvalPhase.ApplyPhase =
            .ok (CtyValue.DynamicVal, c.ApplyResultState.2)) ∧
      (c.InspectingState = none →
        c.ResultValue EvalPhase.InspectPhase = .ok (CtyValue.DynamicVal, [])) ∧
      ∀ phase, phase ≠ EvalPhase.PlanPhase → phase ≠ EvalPhase.ApplyPhase →
        phase ≠ EvalPhase.InspectPhase →
          c.ResultValue phase = .ok (CtyValue.DynamicVal, []) := by
  refine ⟨?_, ?_, ?_, ?_, ?_⟩
  · intro hmode calls hplan
    simp [ComponentInstance.ResultValue, hmode, hplan]
  · intro hentry
    simp [ComponentInstance.ResultValue, hentry]
  · intro ourPlan hentry hact hstate
    have hpair : c.ApplyResultState = (none, c.ApplyResultState.2) := by
      rw [← hstate]
    simp only [ComponentInstance.ResultValue, hentry, hact, if_false]
    rw [hpair]
    rfl
  · intro hstate
    simp [ComponentInstance.ResultValue, hstate, ComponentInstance.resultValueFromState]
  · intro phase h1 h2 h3
    cases phase <;> simp_all [ComponentInstance.ResultValue]

/-- C14, on sample instances: the instance whose planning fails has the
placeholder in the plan phase, the plain instance has it in the apply phase
(no entry), the instance that is updated without a recorded result has it in
the apply phase (nil state), and the plain instance has it in the inspect
phase (nil state) and the validate phase. -/
theorem resultValue_placeholder_witness :
    Sample.unplannable.ResultValue EvalPhase.PlanPhase =
        .ok (CtyValue.DynamicVal, [Call.CheckModuleTreePlan]) ∧
      Sample.instance0.ResultValue EvalPhase.ApplyPhase = .ok (CtyValue.DynamicVal, []) ∧
      Sample.updating.ResultValue EvalPhase.ApplyPhase =
        .ok (CtyValue.DynamicVal, [Call.ComponentInstanceResult Sample.updating.Addr]) ∧
      Sample.instance0.ResultValue EvalPhase.InspectPhase = .ok (CtyValue.DynamicVal, []) ∧
      Sample.instance0.ResultValue EvalPhase.ValidatePhase = .ok (CtyValue.DynamicVal, []) :=
  ⟨(resultValue_placeholder Sample.unplannable).1 (by decide) [Call.CheckModuleTreePlan] rfl,
    (resultValue_placeholder Sample.instance0).2.1 rfl,
    (resultValue_placeholder Sample.updating).2.2.1
      { PlannedAction := Action.Update, PlannedOutputValues := [] } rfl (by decide) rfl,
    (resultValue_placeholder Sample.instance0).2.2.2.1 rfl,
    (resultValue_placeholder Sample.instance0).2.2.2.2 EvalPhase.ValidatePhase
      (by decide) (by decide) (by decide)⟩

end Stackeval

/-! ## Loading a bookmark (C16, C18) -/

namespace Cloudplan

open Stackeval

theorem load_of_valid_json (fs : FileSystem) (filepath : String) (data : Data)
    (b : SavedPlanBookmark)
    (hopen : fs.openFails filepath = none) (hread : fs.readFails filepath = none)
    (hfile : GoMap.lookup fs.files filepath = some data)
    (hjson : Unmarshal data { RemotePlanFormat := 0, RunID := [], Hostname := [] } = (b, none)) :
    LoadSavedPlanBookmark fs filepath =
      if b.RemotePlanFormat ≠ 1 then (b, some Error.ErrInvalidRemotePlanFormat)
      else if b.Hostname = [] then (b, some Error.ErrInvalidHostname)
      else if b.RunID = [] then (b, some Error.ErrInvalidRunID)
      else (b, none) := by
  simp only [LoadSavedPlanBookmark, FileSystem.Open, FileSystem.ReadAll, hopen, hread, hfile,
    hjson]

/-- C16: for every file that can be opened and read and whose content
`json.Unmarshal` accepts for a bookmark, `LoadSavedPlanBookmark` returns
`ErrInvalidRemotePlanFormat` whenever the decoded `remote_plan_format` is not
1, which includes 0 for a missing key, whatever the run ID and the hostname
are. -/
theorem load_rejects_other_formats (fs : FileSystem) (filepath : String) (data : Data)
    (b : SavedPlanBookmark)
    (hopen : fs.openFails filepath = none) (hread : fs.readFails filepath = none)
    (hfile : GoMap.lookup fs.files filepath = some data)
    (hjson : Unmarshal data { RemotePlanFormat := 0, RunID := [], Hostname := [] } = (b, none))
    (hformat : b.RemotePlanFormat ≠ 1) :
    LoadSavedPlanBookmark fs filepath = (b, some Error.ErrInvalidRemotePlanFormat) := by
  rw [load_of_valid_json fs filepath data b hopen hread hfile hjson]
  simp [hformat]

/-- C16, on the sample files: the file without the key decodes to the format
0 and the file with the format 2 decodes to 2, and both are rejected. -/
theorem load_rejects_other_formats_witness :
    LoadSavedPlanBookmark Sample.formatFs "plan.json" =
        ({ RemotePlanFormat := 0, RunID := utf8Bytes "run-1",
           Hostname := utf8Bytes "app.terraform.io" },
          some Error.ErrInvalidRemotePlanFormat) ∧
      LoadSavedPlanBookmark Sample.formatFs "old.json" =
        ({ RemotePlanFormat := 2, RunID := utf8Bytes "run-1",
           Hostname := utf8Bytes "app.terraform.io" },
          some Error.ErrInvalidRemotePlanFormat) :=
  ⟨load_rejects_other_formats Sample.formatFs "plan.json" _ _ rfl rfl rfl rfl (by decide),
    load_rejects_other_formats Sample.formatFs "old.json" _ _ rfl rfl rfl rfl (by decide)⟩

/-- C18: for every file that can be opened and read and whose content
`json.Unmarshal` accepts for a bookmark with `remote_plan_format = 1`,
`LoadSavedPlanBookmark` returns a nil error exactly when the hostname and the
run ID are both non-empty; an empty hostname gives `ErrInvalidHostname`, also
when the run ID is empty too, and an empty run ID with a non-empty hostname
gives `ErrInvalidRunID`.  The bookmark is returned in every case. -/
theorem load_checks_hostname_then_run (fs : FileSystem) (filepath : String) (data : Data)
    (b : SavedPlanBookmark)
    (hopen : fs.openFails filepath = none) (hread : fs.readFails filepath = none)
    (hfile : GoMap.lookup fs.files filepath = some data)
    (hjson : Unmarshal data { RemotePlanFormat := 0, RunID := [], Hostname := [] } = (b, none))
    (hformat : b.RemotePlanFormat = 1) :
    ((LoadSavedPlanBookmark fs filepath).2 = none ↔ (b.Hostname ≠ [] ∧ b.RunID ≠ [])) ∧
      (b.Hostname = [] →
        LoadSavedPlanBookmark fs filepath = (b, some Error.ErrInvalidHostname)) ∧
      (b.Hostname ≠ [] → b.RunID = [] →
        LoadSavedPlanBookmark fs filepath = (b, some Error.ErrInvalidRunID)) ∧
      (LoadSavedPlanBookmark fs filepath).1 = b := by
  rw [load_of_valid_json fs filepath data b hopen hread hfile hjson]
  by_cases hh : b.Hostname = [] <;> by_cases hr : b.RunID = [] <;> simp [hformat, hh, hr]

/-- C18, on the sample files with the format 1: empty hostname and run,
missing run, and both present under a key in another case. -/
theorem load_checks_hostname_then_run_witness :
    LoadSavedPlanBookmark Sample.fieldsFs "nohost.json" =
        ({ RemotePlanFormat := 1, RunID := [], Hostname := [] },
          some Error.ErrInvalidHostname) ∧
      LoadSavedPlanBookmark Sample.fieldsFs "norun.json" =
        ({ RemotePlanFormat := 1, RunID := [], Hostname := utf8Bytes "app.terraform.io" },
          some Error.ErrInvalidRunID) ∧
      ((LoadSavedPlanBookmark Sample.fieldsFs "ok.json").2 = none ↔
        (utf8Bytes "app.terraform.io" ≠ [] ∧ utf8Bytes "run-1" ≠ [])) :=
  ⟨(load_checks_hostname_then_run Sample.fieldsFs "nohost.json" _
      { RemotePlanFormat := 1, RunID := [], Hostname := [] } rfl rfl rfl rfl rfl).2.1 rfl,
    (load_checks_hostname_then_run Sample.fieldsFs "norun.json" _
      { RemotePlanFormat := 1, RunID := [], Hostname := utf8Bytes "app.terraform.io" }
      rfl rfl rfl rfl rfl).2.2.1 (by decide) rfl,
    (load_checks_hostname_then_run Sample.fieldsFs "ok.json" _
      { RemotePlanFormat := 1, RunID := utf8Bytes "run-1",
        Hostname := utf8Bytes "app.terraform.io" }
      rfl rfl rfl rfl rfl).1⟩

end Cloudplan

/-! ## The basic component factory (C19) -/

namespace Terraform

open Stackeval

theorem lookup_eq_none_iff_not_mem {κ ν : Type} [DecidableEq κ] (m : GoMap κ ν) (k : κ) :
    GoMap.lookup m k = none ↔ k ∉ GoMap.keys m := by
  induction m with
  | nil => simp [GoMap.lookup, GoMap.keys]
  | cons e rest ih =>
    obtain ⟨k', v⟩ := e
    by_cases h : k' = k
    · simp [GoMap.lookup, GoMap.keys, h]
    · have ih' : GoMap.lookup rest k = none ↔ k ∉ List.map Prod.fst rest := ih
      simp [GoMap.lookup, GoMap.keys, h, ih', Ne.symm h]

/-- C19, refuted as worded: in the sample `echoing` the provider `aws` and
the provisioner `local-exec` are keys of their maps, and the calls return a
nil value and the very error of a missing key, which is what the registered
factories return; in the sample `unset` they are keys with a nil factory, and
the calls panic instead of returning. -/
theorem registered_factory_can_answer_unknown :
    Sample.aws ∈ GoMap.keys Sample.echoing.providers ∧
      Sample.echoing.ResourceProvider Sample.aws =
        .ok ((none, some ("unknown provider " ++ Sample.aws.String.quote)),
          Sample.echoing) ∧
      "local-exec" ∈ GoMap.keys Sample.echoing.provisioners ∧
      Sample.echoing.ResourceProvisioner "local-exec" =
        .ok ((none, some ("unknown provisioner " ++ ("local-exec" : String).quote)),
          Sample.echoing) ∧
      Sample.aws ∈ GoMap.keys Sample.unset.providers ∧
      Sample.unset.ResourceProvider Sample.aws =
        .error "invalid memory address or nil pointer dereference" ∧
      "local-exec" ∈ GoMap.keys Sample.unset.provisioners ∧
      Sample.unset.ResourceProvisioner "local-exec" =
        .error "invalid memory address or nil pointer dereference" :=
  ⟨by decide, rfl, by decide, rfl, by decide, rfl, by decide, rfl⟩

/-- C19, amended: `ResourceProvider(typ)` returns a nil provider and the
error `unknown provider` with the quoted name when `typ` is not a key of the
providers map, and what the registered factory returns, value and error,
when `typ` is a key with a factory; when `typ` is a key with a nil factory
the call panics.  So the call returns the nil provider and that error exactly
when `typ` is not a key or its factory returns just that.
`ResourceProvisioner` does the same over the provisioners map with the error
`unknown provisioner`.  A call that returns leaves both maps as they were. -/
theorem factory_lookup_or_unknown (c : basicComponentFactory) :
    (∀ typ, typ ∉ GoMap.keys c.providers →
        c.ResourceProvider typ =
          .ok ((none, some ("unknown provider " ++ typ.String.quote)), c)) ∧
      (∀ typ f, GoMap.lookup c.providers typ = some (some f) →
        c.ResourceProvider typ = .ok (f (), c)) ∧
      (∀ typ, typ ∉ GoMap.keys c.provisioners →
        c.ResourceProvisioner typ =
          .ok ((none, some ("unknown provisioner " ++ typ.quote)), c)) ∧
      (∀ typ f, GoMap.lookup c.provisioners typ = some (some f) →
        c.ResourceProvisioner typ = .ok (f (), c)) ∧
      (∀ typ r c', c.ResourceProvider typ = .ok (r, c') → c' = c) ∧
      (∀ typ r c', c.ResourceProvisioner typ = .ok (r, c') → c' = c) ∧
      (∀ typ, GoMap.lookup c.providers typ = some none →
        c.ResourceProvider typ = .error "invalid memory address or nil pointer dereference") ∧
      (∀ typ, GoMap.lookup c.provisioners typ = some none →
        c.ResourceProvisioner typ =
          .error "invalid memory address or nil pointer dereference") ∧
      (∀ typ, c.ResourceProvider typ =
          .ok ((none, some ("unknown provider " ++ typ.String.quote)), c) ↔
        (typ ∉ GoMap.keys c.providers ∨
          ∃ f, GoMap.lookup c.providers typ = some (some f) ∧
            f () = (none, some ("unknown provider " ++ typ.String.quote)))) ∧
      ∀ typ, c.ResourceProvisioner typ =
          .ok ((none, some ("unknown provisioner " ++ typ.quote)), c) ↔
        (typ ∉ GoMap.keys c.provisioners ∨
          ∃ f, GoMap.lookup c.provisioners typ = some (some f) ∧
            f () = (none, some ("unknown provisioner " ++ typ.quote))) := by
  refine ⟨?_, ?_, ?_, ?_, ?_, ?_, ?_, ?_, ?_, ?_⟩
  · intro typ h
    simp [basicComponentFactory.ResourceProvider, GoMap.lookup_eq_none_of_not_mem _ _ h]
  · intro typ f h
    simp [basicComponentFactory.ResourceProvider, h]
  · intro typ h
    simp [basicComponentFactory.ResourceProvisioner, GoMap.lookup_eq_none_of_not_mem _ _ h]
  · intro typ f h
    simp [basicComponentFactory.ResourceProvisioner, h]
  · intro typ r c' h
    unfold basicComponentFactory.ResourceProvider at h
    split at h <;> simp_all
  · intro typ r c' h
    unfold basicComponentFactory.ResourceProvisioner at h
    split at h <;> simp_all
  · intro typ h
    simp [basicComponentFactory.ResourceProvider, h]
  · intro typ h
    simp [basicComponentFactory.ResourceProvisioner, h]
  · intro typ
    rw [← lookup_eq_none_iff_not_mem]
    unfold basicComponentFactory.ResourceProvider
    cases hl : GoMap.lookup c.providers typ with
    | none => simp
    | some o =>
      cases o with
      | none => simp
      | some f => simp
  · intro typ
    rw [← lookup_eq_none_iff_not_mem]
    unfold basicComponentFactory.ResourceProvisioner
    cases hl : GoMap.lookup c.provisioners typ with
    | none => simp
    | some o =>
      cases o with
      | none => simp
      | some f => simp

/-- C19, on the sample factories: the unregistered provider and provisioner
get the error, the registered provider gets its plugin, the registered
provisioner gets the error of its own factory, and a provider registered
with a nil factory makes the call panic. -/
theorem factory_lookup_or_unknown_witness :
    Sample.factories.ResourceProvider Sample.azure =
        .ok ((none, some ("unknown provider " ++ Sample.azure.String.quote)),
          Sample.factories) ∧
      Sample.factories.ResourceProvider Sample.aws =
        .ok ((some "aws-plugin", none), Sample.factories) ∧
      Sample.factories.ResourceProvisioner "remote-exec" =
        .ok ((none, some ("unknown provisioner " ++ ("remote-exec" : String).quote)),
          Sample.factories) ∧
      Sample.factories.ResourceProvisioner "local-exec" =
        .ok ((none, some "plugin crashed"), Sample.factories) ∧
      Sample.unset.ResourceProvider Sample.aws =
        .error "invalid memory address or nil pointer dereference" :=
  ⟨(factory_lookup_or_unknown Sample.factories).1 Sample.azure (by decide),
    (factory_lookup_or_unknown Sample.factories).2.1 Sample.aws _ rfl,
    (factory_lookup_or_unknown Sample.factories).2.2.1 "remote-exec" (by decide),
    (factory_lookup_or_unknown Sample.factories).2.2.2.1 "local-exec" _ rfl,
    (factory_lookup_or_unknown Sample.unset).2.2.2.2.2.2.1 Sample.aws rfl⟩

end Terraform

/-! ## Repeated calls of the lexer (C20) -/

namespace Lang

open parserLex

theorem lex_step_open (u : UnicodeTables) :
    parserLex.Lex u (fresh Sample.unclosedQuote) { token := none } =
      .ok (Token.PROGRAM_BRACKET_LEFT, Sample.opened, { token := none }) := by
  simp [parserLex.Lex, lex, lexModeLiteral, next, backup, peek, DecodeRuneInString, fresh,
    Sample.opened, Sample.stuck, Sample.unclosedQuote, parserModeInvalid, parserModeLiteral,
    parserModeInterpolation, lexEOF]

theorem lex_step_quote (u : UnicodeTables) :
    parserLex.Lex u Sample.opened { token := none } =
      .ok (Token.STRING, Sample.quoted, Sample.quotedVal) := by
  simp [parserLex.Lex, lex, lexModeInterpolation, lexModeLiteral, lexString, lexStringLoop,
    next, backup, peek, DecodeRuneInString, tokenIsEmpty, Sample.opened, Sample.stuck,
    Sample.quoted, Sample.quotedVal, Sample.unclosedQuote, parserModeInvalid,
    parserModeLiteral, parserModeInterpolation, lexEOF, IsSpace]

theorem lex_step_brace (u : UnicodeTables) :
    parserLex.Lex u Sample.quoted Sample.quotedVal =
      .ok (Token.STRING, Sample.stuck, Sample.stuckVal) := by
  simp [parserLex.Lex, lex, lexModeLiteral, lexString, lexStringLoop, next, backup, peek,
    DecodeRuneInString, Sample.stuck, Sample.quoted, Sample.quotedVal, Sample.stuckVal,
    Sample.unclosedQuote, parserModeInvalid, parserModeLiteral, parserModeInterpolation,
    lexEOF]

theorem lex_step_stuck (u : UnicodeTables) :
    parserLex.Lex u Sample.stuck Sample.stuckVal =
      .ok (Token.STRING, Sample.stuck, Sample.stuckVal) := by
  simp [parserLex.Lex, lex, lexModeLiteral, lexString, lexStringLoop, next, backup, peek,
    DecodeRuneInString, Sample.stuck, Sample.stuckVal, Sample.unclosedQuote,
    parserModeInvalid, parserModeLiteral, parserModeInterpolation, lexEOF]

theorem lexRun_stuck (u : UnicodeTables) (n : Nat) :
    lexRun u n Sample.stuck Sample.stuckVal =
      .ok (List.replicate n Token.STRING, Sample.stuck, Sample.stuckVal) := by
  induction n with
  | zero => rfl
  | succ n ih => simp only [lexRun, lex_step_stuck, ih, List.replicate_succ]

/-- C20 at a concrete input: on the four bytes dollar, brace, quote, brace,
for whatever tables of letters and numbers, the first call of `Lex` on a
fresh lexer returns `PROGRAM_BRACKET_LEFT` and every later call returns
`STRING` with an empty value and leaves the position in front of the closing
brace; so no number of calls returns `lexEOF`, and from the third call on a
call returns a token other than `lexEOF` without consuming a rune. -/
theorem lex_repeats_empty_string (u : UnicodeTables) (n : Nat) :
    lexRun u (n + 3) (fresh Sample.unclosedQuote) { token := none } =
        .ok (Token.PROGRAM_BRACKET_LEFT :: Token.STRING :: Token.STRING ::
          List.replicate n Token.STRING, Sample.stuck, Sample.stuckVal) ∧
      Token.lexEOF ∉ Token.PROGRAM_BRACKET_LEFT :: Token.STRING :: Token.STRING ::
        List.replicate n Token.STRING ∧
      Sample.stuck.pos < Sample.stuck.Input.length := by
  refine ⟨?_, ?_, by decide⟩
  · simp only [lexRun, lex_step_open, lex_step_quote, lex_step_brace, lexRun_stuck]
  · simp [List.mem_replicate]

theorem lex_step_bang_open :
    parserLex.Lex Sample.asciiTables (fresh Sample.bang) { token := none } =
      .ok (Token.PROGRAM_BRACKET_LEFT,
        { Sample.bangStuck with astPos := some { Column := 1, Line := 1 } },
        { token := none }) := by
  simp [parserLex.Lex, lex, lexModeLiteral, next, backup, peek, DecodeRuneInString, fresh,
    Sample.bangStuck, Sample.bang, parserModeInvalid, parserModeLiteral,
    parserModeInterpolation, lexEOF]

theorem lex_step_bang_first :
    parserLex.Lex Sample.asciiTables
        { Sample.bangStuck with astPos := some { Column := 1, Line := 1 } } { token := none } =
      .ok (Token.IDENTIFIER, Sample.bangStuck, Sample.bangVal) := by
  simp [parserLex.Lex, lex, lexModeInterpolation, lexId, lexIdLoop, next, backup,
    DecodeRuneInString, Sample.bangStuck, Sample.bangVal, Sample.bang, Sample.asciiTables,
    parserModeInvalid, parserModeLiteral, parserModeInterpolation, lexEOF, IsSpace]

theorem lex_step_bang_stuck :
    parserLex.Lex Sample.asciiTables Sample.bangStuck Sample.bangVal =
      .ok (Token.IDENTIFIER, Sample.bangStuck, Sample.bangVal) := by
  simp [parserLex.Lex, lex, lexModeInterpolation, lexId, lexIdLoop, next, backup,
    DecodeRuneInString, Sample.bangStuck, Sample.bangVal, Sample.bang, Sample.asciiTables,
    parserModeInvalid, parserModeLiteral, parserModeInterpolation, lexEOF, IsSpace]

theorem lex_repeats_empty_identifier (n : Nat) :
    lexRun Sample.asciiTables (n + 2) (fresh Sample.bang) { token := none } =
      .ok (Token.PROGRAM_BRACKET_LEFT :: Token.IDENTIFIER ::
        List.replicate n Token.IDENTIFIER, Sample.bangStuck, Sample.bangVal) := by
  have hstuck : ∀ m, lexRun Sample.asciiTables m Sample.bangStuck Sample.bangVal =
      .ok (List.replicate m Token.IDENTIFIER, Sample.bangStuck, Sample.bangVal) := by
    intro m
    induction m with
    | zero => rfl
    | succ m ih => simp only [lexRun, lex_step_bang_stuck, ih, List.replicate_succ]
  simp only [lexRun, lex_step_bang_open, lex_step_bang_first, hstuck]

end Lang

namespace Stackeval

/-! ## The action of a destroy plan and the changes of a failed plan (C23) -/

/-- C23: when `PlanChanges` calls `stackplan.FromPlan` with a plan whose
`UIMode` is destroy, the action it passes is `Delete`, whatever the previous
state says about the instance; and when `CheckModuleTreePlan` returns a nil
plan, `PlanChanges` returns no planned changes, makes no further call, and so
does not call `stackplan.FromPlan`. -/
theorem planChanges_destroy_or_nothing (c : ComponentInstance) :
    (∀ r calls plan action, c.PlanChanges = .ok (r, calls) →
        Call.FromPlan plan action ∈ calls → plan.UIMode = Mode.DestroyMode →
          action = Action.Delete) ∧
      ∀ diags calls, c.CheckModuleTreePlan = .ok ((none, diags), calls) →
        ∃ allDiags, c.PlanChanges = .ok (([], allDiags), calls) ∧
          ∀ plan action, Call.FromPlan plan action ∉ calls := by
  refine ⟨?_, ?_⟩
  · intro r calls plan action hrun hcall hdestroy
    unfold ComponentInstance.PlanChanges at hrun
    split at hrun
    · cases hrun
    · rename_i corePlan moreDiags calls' hcheck
      have hno := ComponentInstance.check_calls_no_fromPlan c _ _ plan action hcheck
      cases corePlan with
      | none =>
        simp only [Except.ok.injEq, Prod.mk.injEq] at hrun
        rw [← hrun.2] at hcall
        exact absurd hcall hno
      | some corePlan =>
        simp only [Except.ok.injEq, Prod.mk.injEq] at hrun
        rw [← hrun.2] at hcall
        simp only [List.mem_append, List.mem_singleton, Call.FromPlan.injEq] at hcall
        rcases hcall with hcall | hcall
        · exact absurd hcall hno
        · obtain ⟨hplan, haction⟩ := hcall
          subst hplan
          rw [haction]
          simp [hdestroy]
  · intro diags calls hcheck
    refine ⟨(([] : Diagnostics) ++ (c.CheckInputVariableValues EvalPhase.PlanPhase).2 ++
        (c.ext.EvalProviderValues EvalPhase.PlanPhase).2.2) ++ diags, ?_, fun plan action =>
      ComponentInstance.check_calls_no_fromPlan c _ _ plan action hcheck⟩
    simp only [ComponentInstance.PlanChanges, hcheck]

/-- C23, on sample instances: the instance in a destroy plan has `FromPlan`
called with `Delete`, and the instance whose planning fails gets no planned
changes. -/
theorem planChanges_destroy_or_nothing_witness :
    Sample.unwinding.PlanChanges =
        .ok (([], []),
          [Call.CheckModuleTreePlan,
            Call.PlanComponentInstance State.NewState Sample.unwindingOpts,
            Call.FromPlan Sample.destroyPlan Action.Delete]) ∧
      Action.Delete = Action.Delete ∧
      ∃ allDiags, Sample.unplannable.PlanChanges =
          .ok (([], allDiags), [Call.CheckModuleTreePlan]) ∧
        ∀ plan action, Call.FromPlan plan action ∉ [Call.CheckModuleTreePlan] :=
  ⟨rfl,
    (planChanges_destroy_or_nothing Sample.unwinding).1 ([], [])
      [Call.CheckModuleTreePlan,
        Call.PlanComponentInstance State.NewState Sample.unwindingOpts,
        Call.FromPlan Sample.destroyPlan Action.Delete]
      Sample.destroyPlan Action.Delete rfl (by simp) rfl,
    (planChanges_destroy_or_nothing Sample.unplannable).2 _ [Call.CheckModuleTreePlan] rfl⟩

/-! ## Removed dependents outside destroy mode (C24) -/

/-- C24 at a concrete input: in normal mode the previous dependents are `db`,
whose stack has no removed block for it, and `cache`, whose removed block has
an incomplete plan.  Visited in that order, the loop stops at `db` and the
planning call carries `ExternalDependencyDeferred = false`; visited in the
other order the flag would be `true`. -/
theorem removed_scan_stops_at_missing_block :
    Sample.afterRemoval.main.PlanningMode ≠ Mode.DestroyMode ∧
      Sample.cacheAddr ∈ Sample.afterRemoval.PlanPrevDependents ∧
      Sample.afterRemoval.removedIncomplete Sample.cacheAddr = true ∧
      Sample.afterRemoval.CheckModuleTreePlan =
        .ok ((some Sample.normalPlan, []),
          [Call.CheckModuleTreePlan,
            Call.PlanComponentInstance State.NewState Sample.opts0]) ∧
      Sample.opts0.ExternalDependencyDeferred = false ∧
      Sample.afterRemovalReversed.externalDependencyDeferred = true :=
  ⟨by decide, by decide, rfl, rfl, rfl, rfl⟩

end Stackeval

/-! ## An identifier in an interpolation (C22) and a leading dollar (C21) -/

namespace Lang

open parserLex

theorem decode_one (b0 : Nat) (rest : List Nat) (h : b0 < 0x80) :
    DecodeRuneInString (b0 :: rest) = (b0, 1) := by
  simp [DecodeRuneInString, h]

theorem decode_two (b0 b1 : Nat) (rest : List Nat) (h0 : 0xC2 ≤ b0) (h0' : b0 < 0xE0)
    (h1 : 0x80 ≤ b1 ∧ b1 ≤ 0xBF) :
    DecodeRuneInString (b0 :: b1 :: rest) = ((b0 % 32) * 64 + b1 % 64, 2) := by
  have e1 : ¬ b0 < 0x80 := by omega
  have e2 : ¬ b0 < 0xC2 := by omega
  have hc : isCont b1 = true := by simp only [isCont, decide_eq_true_eq]; exact h1
  simp only [DecodeRuneInString, e1, e2, h0', hc, if_true, if_false]

theorem decode_three (b0 b1 b2 : Nat) (rest : List Nat) (h0 : 0xE0 ≤ b0) (h0' : b0 < 0xF0)
    (hlo : (if b0 = 0xE0 then 0xA0 else 0x80) ≤ b1)
    (hhi : b1 ≤ (if b0 = 0xED then 0x9F else 0xBF))
    (h2 : 0x80 ≤ b2 ∧ b2 ≤ 0xBF) :
    DecodeRuneInString (b0 :: b1 :: b2 :: rest) =
      ((b0 % 16) * 4096 + (b1 % 64) * 64 + b2 % 64, 3) := by
  have e1 : ¬ b0 < 0x80 := by omega
  have e2 : ¬ b0 < 0xC2 := by omega
  have e3 : ¬ b0 < 0xE0 := by omega
  have hc : isCont b2 = true := by simp only [isCont, decide_eq_true_eq]; exact h2
  simp only [DecodeRuneInString, e1, e2, e3, h0', hc, hlo, hhi, and_self, if_true, if_false]

theorem decode_four (b0 b1 b2 b3 : Nat) (rest : List Nat) (h0 : 0xF0 ≤ b0) (h0' : b0 < 0xF5)
    (hlo : (if b0 = 0xF0 then 0x90 else 0x80) ≤ b1)
    (hhi : b1 ≤ (if b0 = 0xF4 then 0x8F else 0xBF))
    (h2 : 0x80 ≤ b2 ∧ b2 ≤ 0xBF) (h3 : 0x80 ≤ b3 ∧ b3 ≤ 0xBF) :
    DecodeRuneInString (b0 :: b1 :: b2 :: b3 :: rest) =
      ((b0 % 8) * 262144 + (b1 % 64) * 4096 + (b2 % 64) * 64 + b3 % 64, 4) := by
  have e1 : ¬ b0 < 0x80 := by omega
  have e2 : ¬ b0 < 0xC2 := by omega
  have e3 : ¬ b0 < 0xE0 := by omega
  have e4 : ¬ b0 < 0xF0 := by omega
  have hc2 : isCont b2 = true := by simp only [isCont, decide_eq_true_eq]; exact h2
  have hc3 : isCont b3 = true := by simp only [isCont, decide_eq_true_eq]; exact h3
  simp only [DecodeRuneInString, e1, e2, e3, e4, h0', hc2, hc3, hlo, hhi, and_self, if_true,
    if_false]

theorem decode_appendRune (r : Nat) (rest : List Nat) (h : validRune r = true) :
    DecodeRuneInString (AppendRune r ++ rest) = (r, ((AppendRune r).length : Int)) := by
  simp only [validRune, decide_eq_true_eq] at h
  have h : r < 0xD800 ∨ (0xE000 ≤ r ∧ r ≤ 0x10FFFF) := h
  unfold AppendRune
  by_cases h1 : r < 0x80
  · rw [if_pos h1]
    exact decode_one r rest h1
  · rw [if_neg h1]
    by_cases h2 : r < 0x800
    · rw [if_pos h2]
      show DecodeRuneInString ((0xC0 + r / 64) :: (0x80 + r % 64) :: rest) = _
      rw [decode_two _ _ rest (by omega) (by omega) (by omega)]
      refine Prod.ext ?_ rfl
      show (0xC0 + r / 64) % 32 * 64 + (0x80 + r % 64) % 64 = r
      omega
    · rw [if_neg h2]
      have hs : ¬ ((0xD800 ≤ r ∧ r ≤ 0xDFFF) ∨ 0x10FFFF < r) := by omega
      rw [if_neg hs]
      by_cases h3 : r < 0x10000
      · rw [if_pos h3]
        show DecodeRuneInString
          ((0xE0 + r / 4096) :: (0x80 + r / 64 % 64) :: (0x80 + r % 64) :: rest) = _
        rw [decode_three _ _ _ rest (by omega) (by omega) (by split <;> omega)
          (by split <;> omega) (by omega)]
        refine Prod.ext ?_ rfl
        show (0xE0 + r / 4096) % 16 * 4096 + (0x80 + r / 64 % 64) % 64 * 64 +
          (0x80 + r % 64) % 64 = r
        omega
      · rw [if_neg h3]
        show DecodeRuneInString
          ((0xF0 + r / 262144) :: (0x80 + r / 4096 % 64) :: (0x80 + r / 64 % 64) ::
            (0x80 + r % 64) :: rest) = _
        rw [decode_four _ _ _ _ rest (by omega) (by omega) (by split <;> omega)
          (by split <;> omega) (by omega) (by omega)]
        refine Prod.ext ?_ rfl
        show (0xF0 + r / 262144) % 8 * 262144 + (0x80 + r / 4096 % 64) % 64 * 4096 +
          (0x80 + r / 64 % 64) % 64 * 64 + (0x80 + r % 64) % 64 = r
        omega

theorem appendRune_length_pos (r : Nat) : 1 ≤ (AppendRune r).length := by
  unfold AppendRune
  split
  · simp
  · split
    · simp
    · split
      · simp
      · split <;> simp

theorem length_le_encodeRunes (rs : List Rune) : rs.length ≤ (encodeRunes rs).length := by
  induction rs with
  | nil => simp [encodeRunes]
  | cons r rs ih =>
    have := appendRune_length_pos r
    simp only [encodeRunes, List.length_cons, List.length_append]
    omega

theorem encodeRunes_append (a b : List Rune) :
    encodeRunes (a ++ b) = encodeRunes a ++ encodeRunes b := by
  induction a with
  | nil => rfl
  | cons r rs ih => simp [encodeRunes, ih]

theorem next_at (x : parserLex) (pre : List Nat) (r : Nat) (suf : List Nat) (m : Nat)
    (d : Int) (hs : sitsAt x pre (AppendRune r ++ suf) m d) (hv : validRune r = true)
    (ha : x.astPos = none ∨ marked x = true) :
    ∃ x', x.next = .ok (r, x') ∧ sitsAt x' (pre ++ AppendRune r) suf m d ∧ 1 ≤ x'.col ∧
      x'.width = ((AppendRune r).length : Int) ∧ marked x' = true := by
  obtain ⟨hin, hpos, hm, hd, hcol, hll, herr⟩ := hs
  have hpl := appendRune_length_pos r
  have hlen : x.Input.length = pre.length + (AppendRune r).length + suf.length := by
    rw [hin]; simp only [List.length_append]; omega
  have h1 : ¬ (x.pos ≥ (x.Input.length : Int)) := by
    rw [hpos, hlen]; push_cast; omega
  have h2 : ¬ x.pos < 0 := by rw [hpos]; omega
  have hdrop : x.Input.drop x.pos.toNat = AppendRune r ++ suf := by
    rw [hpos, hin, Int.toNat_ofNat, List.drop_left]
  unfold next
  rw [if_neg h1, if_neg h2, hdrop, decode_appendRune r suf hv]
  refine ⟨_, rfl, ?_⟩
  have hposn : x.pos + ((AppendRune r).length : Int) = ((pre ++ AppendRune r).length : Int) := by
    rw [hpos, List.length_append]; push_cast; rfl
  have hin' : x.Input = pre ++ AppendRune r ++ suf := by rw [hin, List.append_assoc]
  by_cases hl : x.line = 0 <;> by_cases hr : r = 10 <;> cases hap : x.astPos <;>
    simp [hl, hr, hap, sitsAt, marked, hin', hposn, hm, hd, hll, hcol, herr] <;>
    first
      | omega
      | (simp [marked, hap] at ha; omega)

theorem next_at_end (x : parserLex) (pre : List Nat) (m : Nat) (d : Int)
    (hs : sitsAt x pre [] m d) :
    x.next = .ok (lexEOF, { x with width := 0 }) := by
  obtain ⟨hin, hpos, -⟩ := hs
  have h1 : x.pos ≥ (x.Input.length : Int) := by
    rw [hpos, hin]; simp
  unfold next
  rw [if_pos h1]

theorem backup_at (x : parserLex) (pre a suf : List Nat) (m : Nat) (d : Int)
    (hs : sitsAt x (pre ++ a) suf m d) (hw : x.width = (a.length : Int)) (hcol : 1 ≤ x.col) :
    sitsAt x.backup pre (a ++ suf) m d ∧ x.backup.astPos = x.astPos := by
  obtain ⟨hin, hpos, hm, hd, -, hll, herr⟩ := hs
  have hposn : x.pos - x.width = (pre.length : Int) := by
    rw [hpos, hw, List.length_append]; push_cast; omega
  have hin' : x.Input = pre ++ (a ++ suf) := by rw [hin, List.append_assoc]
  unfold backup
  by_cases hc : x.col - 1 = 0
  · simp [hc, sitsAt, hin', hposn, hm, hd, hll, herr]
  · simp [hc, sitsAt, hin', hposn, hm, hd, hll, herr]
    omega

theorem lex_succ (u : UnicodeTables) (n : Nat) (x : parserLex) (y : parserSymType) :
    lex u (n + 1) x y =
      if x.mode = parserModeLiteral then lexModeLiteral u n x y
      else if x.mode = parserModeInterpolation then lexModeInterpolation u n x y
      else .ok (Token.lexEOF,
        x.Error ("Unknown parse mode: %!s(lang.parserMode=" ++ toString x.mode ++ ")"), y) := by
  rw [lex]

theorem Lex_eq (u : UnicodeTables) (x : parserLex) (y : parserSymType) :
    parserLex.Lex u x y =
      match lex u (4 * x.Input.length + 8) (lexStart x) y with
      | .error e => .error e
      | .ok (tok, x', y') => lexDeferred tok x' y' := by
  unfold parserLex.Lex lexStart lexDeferred
  by_cases hm : x.mode = parserModeInvalid <;> simp only [hm, if_true, if_false]

theorem isSpace_facts (r : Nat) (h : IsSpace r = true) :
    validRune r = true ∧ r ≠ 0 ∧ reserved r = true := by
  have h' := h
  simp only [IsSpace, decide_eq_true_eq] at h'
  have h' : r = 9 ∨ r = 10 ∨ r = 11 ∨ r = 12 ∨ r = 13 ∨ r = 32 ∨ r = 0x85 ∨ r = 0xA0 ∨
    r = 0x1680 ∨ (0x2000 ≤ r ∧ r ≤ 0x200A) ∨ r = 0x2028 ∨ r = 0x2029 ∨ r = 0x202F ∨
    r = 0x205F ∨ r = 0x3000 := h'
  refine ⟨?_, ?_, ?_⟩
  · simp only [validRune, decide_eq_true_eq]
    show r < 0xD800 ∨ (0xE000 ≤ r ∧ r ≤ 0x10FFFF)
    omega
  · omega
  · simp [reserved, h]

theorem idRune_eq_false (u : UnicodeTables) (r : Nat) :
    (r ≠ 95 ∧ r ≠ 45 ∧ r ≠ 46 ∧ r ≠ 42 ∧ u.IsLetter r = false ∧ u.IsNumber r = false) ↔
      u.idRune r = false := by
  simp only [UnicodeTables.idRune, Bool.or_eq_false_iff, decide_eq_false_iff_not, not_or]
  tauto

theorem idRune_facts (u : UnicodeTables)
    (hu : ∀ r, reserved r = true → u.IsLetter r = false ∧ u.IsNumber r = false)
    (r : Nat) (h : u.idRune r = true) : reserved r = false := by
  cases hr : reserved r with
  | false => rfl
  | true =>
    obtain ⟨h1, h2⟩ := hu r hr
    have hr' := hr
    simp only [reserved, IsSpace, Bool.or_eq_true, decide_eq_true_eq] at hr'
    have hr' : (r = 0 ∨ (r = 9 ∨ r = 10 ∨ r = 11 ∨ r = 12 ∨ r = 13 ∨ r = 32 ∨ r = 0x85 ∨
      r = 0xA0 ∨ r = 0x1680 ∨ (0x2000 ≤ r ∧ r ≤ 0x200A) ∨ r = 0x2028 ∨ r = 0x2029 ∨
      r = 0x202F ∨ r = 0x205F ∨ r = 0x3000)) ∨ (r = 34 ∨ r = 40 ∨ r = 41 ∨ r = 44 ∨ r = 125) :=
      hr'
    simp only [UnicodeTables.idRune, h1, h2, Bool.or_false, decide_eq_true_eq] at h
    have h : r = 95 ∨ r = 45 ∨ r = 46 ∨ r = 42 := h
    omega

theorem reserved_false (r : Nat) (h : reserved r = false) :
    r ≠ 0 ∧ IsSpace r = false ∧ r ≠ 34 ∧ r ≠ 125 ∧ r ≠ 40 ∧ r ≠ 41 ∧ r ≠ 44 := by
  simp only [reserved, Bool.or_eq_false_iff, decide_eq_false_iff_not, not_or] at h
  obtain ⟨⟨h0, hs⟩, h34, h40, h41, h44, h125⟩ := h
  exact ⟨h0, hs, h34, h125, h40, h41, h44⟩

theorem not_idRune_of_reserved (u : UnicodeTables)
    (hu : ∀ r, reserved r = true → u.IsLetter r = false ∧ u.IsNumber r = false)
    (r : Nat) (h : reserved r = true) : u.idRune r = false := by
  cases hi : u.idRune r with
  | false => rfl
  | true => rw [idRune_facts u hu r hi] at h; exact absurd h (by decide)

theorem marked_backup (x : parserLex) (h : x.backup.astPos = x.astPos) :
    marked x.backup = marked x := by
  unfold marked; rw [h]

theorem lexModeInterpolation_skip (u : UnicodeTables) (y : parserSymType) (suf : List Nat)
    (d : Int) :
    ∀ (ws : List Rune) (n : Nat) (x : parserLex) (pre : List Nat),
      (∀ r ∈ ws, IsSpace r = true) →
      sitsAt x pre (encodeRunes ws ++ suf) parserModeInterpolation d →
      (x.astPos = none ∨ marked x = true) →
      ∃ x', lexModeInterpolation u (n + ws.length) x y = lexModeInterpolation u n x' y ∧
        sitsAt x' (pre ++ encodeRunes ws) suf parserModeInterpolation d ∧
        (x'.astPos = none ∨ marked x' = true) := by
  intro ws
  induction ws with
  | nil =>
    intro n x pre _ hs ha
    exact ⟨x, rfl, by simpa [encodeRunes] using hs, ha⟩
  | cons r rs ih =>
    intro n x pre hws hs ha
    have hr := isSpace_facts r (hws r (List.mem_cons_self _ _))
    have hsp : IsSpace r = true := hws r (List.mem_cons_self _ _)
    have hs' : sitsAt x pre (AppendRune r ++ (encodeRunes rs ++ suf)) parserModeInterpolation d := by
      simpa [encodeRunes, List.append_assoc] using hs
    obtain ⟨x1, hn, hs1, -, -, hm1⟩ := next_at x pre r _ _ d hs' hr.1 ha
    obtain ⟨x2, he, hs2, ha2⟩ := ih n x1 (pre ++ AppendRune r)
      (fun q hq => hws q (List.mem_cons_of_mem _ hq)) hs1 (Or.inr hm1)
    refine ⟨x2, ?_, by simpa [encodeRunes, List.append_assoc] using hs2, ha2⟩
    rw [← he]
    show lexModeInterpolation u ((n + rs.length) + 1) x y = _
    rw [lexModeInterpolation, hn]
    have h0 : ¬ r = lexEOF := hr.2.1
    simp only [h0, if_false, hsp, if_true]

theorem lexIdLoop_run (u : UnicodeTables) (t : Nat) (suf : List Nat) (m : Nat) (d : Int)
    (ht : validRune t = true) (ht0 : t ≠ 0) (hti : u.idRune t = false) :
    ∀ (id : List Rune) (k : Nat) (x : parserLex) (pre b : List Nat),
      (∀ r ∈ id, validRune r = true ∧ r ≠ 0 ∧ u.idRune r = true) →
      sitsAt x pre (encodeRunes id ++ (AppendRune t ++ suf)) m d →
      marked x = true →
      ∃ x', lexIdLoop u (k + id.length + 1) x b = .ok (x', b ++ encodeRunes id) ∧
        sitsAt x' (pre ++ encodeRunes id) (AppendRune t ++ suf) m d ∧ marked x' = true := by
  intro id
  induction id with
  | nil =>
    intro k x pre b _ hs hm
    have hs' : sitsAt x pre (AppendRune t ++ suf) m d := by simpa [encodeRunes] using hs
    obtain ⟨x1, hn, hs1, hc1, hw1, hm1⟩ := next_at x pre t suf m d hs' ht (Or.inr hm)
    obtain ⟨hb, hba⟩ := backup_at x1 pre (AppendRune t) suf m d hs1 hw1 hc1
    refine ⟨x1.backup, ?_, by simpa [encodeRunes] using hb, ?_⟩
    · show lexIdLoop u (k + 1) x b = _
      rw [lexIdLoop, hn]
      have h0 : ¬ t = lexEOF := ht0
      have hni := (idRune_eq_false u t).mpr hti
      dsimp only
      rw [if_neg h0, if_pos hni]
      simp [encodeRunes]
    · rw [marked_backup _ hba]; exact hm1
  | cons r rs ih =>
    intro k x pre b hid hs hm
    obtain ⟨hv, hr0, hri⟩ := hid r (List.mem_cons_self _ _)
    have hs' : sitsAt x pre (AppendRune r ++ (encodeRunes rs ++ (AppendRune t ++ suf))) m d := by
      simpa [encodeRunes, List.append_assoc] using hs
    obtain ⟨x1, hn, hs1, -, -, hm1⟩ := next_at x pre r _ m d hs' hv (Or.inr hm)
    obtain ⟨x2, he, hs2, hm2⟩ := ih k x1 (pre ++ AppendRune r) (b ++ AppendRune r)
      (fun q hq => hid q (List.mem_cons_of_mem _ hq)) hs1 hm1
    refine ⟨x2, ?_, by simpa [encodeRunes, List.append_assoc] using hs2, hm2⟩
    show lexIdLoop u ((k + rs.length + 1) + 1) x b = _
    rw [lexIdLoop, hn]
    have h0 : ¬ r = lexEOF := hr0
    have hni : ¬ (r ≠ 95 ∧ r ≠ 45 ∧ r ≠ 46 ∧ r ≠ 42 ∧ u.IsLetter r = false ∧
        u.IsNumber r = false) := by
      intro hc
      rw [(idRune_eq_false u r).mp hc] at hri
      exact absurd hri (by decide)
    dsimp only
    rw [if_neg h0, if_neg hni, he]
    simp [encodeRunes, List.append_assoc]

theorem peek_at (x : parserLex) (pre : List Nat) (r : Nat) (suf : List Nat) (m : Nat)
    (d : Int) (hs : sitsAt x pre (AppendRune r ++ suf) m d) (hv : validRune r = true)
    (ha : x.astPos = none ∨ marked x = true) :
    ∃ x', x.peek = .ok (r, x') ∧ sitsAt x' pre (AppendRune r ++ suf) m d ∧
      marked x' = true := by
  obtain ⟨x1, hn, hs1, hc1, hw1, hm1⟩ := next_at x pre r suf m d hs hv ha
  obtain ⟨hb, hba⟩ := backup_at x1 pre (AppendRune r) suf m d hs1 hw1 hc1
  refine ⟨x1.backup, ?_, hb, ?_⟩
  · unfold peek; rw [hn]
  · rw [marked_backup _ hba]; exact hm1

theorem marked_some (x : parserLex) (h : marked x = true) :
    ∃ p, x.astPos = some p ∧ 1 ≤ p.Column := by
  unfold marked at h
  cases hp : x.astPos with
  | none => rw [hp] at h; exact absurd h (by decide)
  | some p =>
    rw [hp] at h
    exact ⟨p, rfl, by simpa using h⟩

theorem lexStart_sitsAt (x : parserLex) (pre suf : List Nat) (m : Nat) (d : Int)
    (hs : sitsAt x pre suf m d) (hm : m ≠ parserModeInvalid) :
    sitsAt (lexStart x) pre suf m d ∧ (lexStart x).astPos = none ∧
      (lexStart x).Input = x.Input := by
  obtain ⟨hin, hpos, hmode, hd, hcol, hll, herr⟩ := hs
  have hne : ¬ x.mode = parserModeInvalid := by rw [hmode]; exact hm
  have e : lexStart x = { x with astPos := none } := by simp [lexStart, hne]
  rw [e]
  exact ⟨⟨hin, hpos, hmode, hd, hcol, hll, herr⟩, rfl, rfl⟩

theorem lexStart_fresh (input : List Nat) :
    sitsAt (lexStart (fresh input)) [] input parserModeLiteral 0 ∧
      (lexStart (fresh input)).astPos = none ∧ (lexStart (fresh input)).Input = input := by
  simp [lexStart, fresh, sitsAt, parserModeInvalid]

theorem lex_opens (u : UnicodeTables) (rest : List Nat) (x : parserLex) (y : parserSymType)
    (n : Nat) (hs : sitsAt x [] ([36, 123] ++ rest) parserModeLiteral 0)
    (ha : x.astPos = none) :
    ∃ x', lex u (n + 2) x y = .ok (Token.PROGRAM_BRACKET_LEFT, x', y) ∧
      sitsAt x' [36, 123] rest parserModeInterpolation 1 := by
  have e36 : AppendRune 36 = [36] := rfl
  have e123 : AppendRune 123 = [123] := rfl
  have hs' : sitsAt x [] (AppendRune 36 ++ (AppendRune 123 ++ rest)) parserModeLiteral 0 := by
    rw [e36, e123]; exact hs
  obtain ⟨x1, hn1, hs1, -, -, hm1⟩ := next_at x [] 36 _ _ _ hs' (by decide) (Or.inl ha)
  obtain ⟨x2, hp2, hs2, hm2⟩ := peek_at x1 ([] ++ AppendRune 36) 123 rest _ _ hs1 (by decide)
    (Or.inr hm1)
  obtain ⟨x3, hn3, hs3, hc3, -, -⟩ := next_at x2 ([] ++ AppendRune 36) 123 rest _ _ hs2
    (by decide) (Or.inr hm2)
  obtain ⟨hin, hpos, hmode, hd, hcol, hll, herr⟩ := hs3
  refine ⟨{ x3 with interpolationDepth := x3.interpolationDepth + 1,
                    mode := parserModeInterpolation }, ?_, ?_⟩
  · show lex u ((n + 1) + 1) x y = _
    rw [lex_succ, if_pos hs.2.2.1, lexModeLiteral, hn1]
    dsimp only
    have h0 : ¬ ((36 : Rune) = lexEOF) := by decide
    rw [if_neg h0, if_pos rfl, hp2]
    dsimp only
    rw [if_pos ⟨rfl, rfl⟩, hn3]
  · refine ⟨?_, ?_, rfl, ?_, hcol, hll, herr⟩
    · rw [hin, e36, e123]; rfl
    · rw [hpos, e36, e123]; rfl
    · show x3.interpolationDepth + 1 = 1
      rw [hd]; rfl

theorem lexDeferred_none (tok : Token) (x : parserLex) (y : parserSymType)
    (hy : y.token = none) : lexDeferred tok x y = .ok (tok, x, y) := by
  unfold lexDeferred; rw [hy]

theorem lexDeferred_set (tok : Token) (x : parserLex) (y : parserSymType) (tk : parserToken)
    (hy : y.token = some tk) (hcol : tk.Pos.Column ≠ 0) :
    lexDeferred tok x y = .ok (tok, x, y) := by
  unfold lexDeferred; rw [hy]; dsimp only; rw [if_neg hcol]

theorem Lex_opens (u : UnicodeTables) (rest : List Nat) :
    ∃ x', parserLex.Lex u (fresh ([36, 123] ++ rest)) { token := none } =
        .ok (Token.PROGRAM_BRACKET_LEFT, x', { token := none }) ∧
      sitsAt x' [36, 123] rest parserModeInterpolation 1 := by
  obtain ⟨hs, ha, hi⟩ := lexStart_fresh ([36, 123] ++ rest)
  obtain ⟨x', hl, hs'⟩ := lex_opens u rest _ { token := none }
    (4 * (fresh ([36, 123] ++ rest)).Input.length + 6) hs ha
  refine ⟨x', ?_, hs'⟩
  rw [Lex_eq, hl]
  exact lexDeferred_none _ _ _ rfl

theorem Lex_identifier (u : UnicodeTables)
    (hu : ∀ r, reserved r = true → u.IsLetter r = false ∧ u.IsNumber r = false)
    (x : parserLex) (y : parserSymType) (pre : List Nat) (ws : List Rune) (r : Nat)
    (rs : List Rune) (t : Nat) (suf : List Nat) (d : Int)
    (hs : sitsAt x pre (encodeRunes ws ++ (encodeRunes (r :: rs) ++ (AppendRune t ++ suf)))
      parserModeInterpolation d)
    (hws : ∀ q ∈ ws, IsSpace q = true)
    (hid : ∀ q ∈ r :: rs, validRune q = true ∧ u.idRune q = true)
    (ht : validRune t = true) (ht0 : t ≠ 0) (htr : reserved t = true) :
    ∃ x' p, parserLex.Lex u x y = .ok (Token.IDENTIFIER, x',
        { token := some { Value := encodeRunes (r :: rs), Pos := p } }) ∧
      1 ≤ p.Column ∧
      sitsAt x' (pre ++ encodeRunes ws ++ encodeRunes (r :: rs)) (AppendRune t ++ suf)
        parserModeInterpolation d := by
  obtain ⟨hs0, ha0, hi0⟩ := lexStart_sitsAt x _ _ _ _ hs (by decide)
  have hlen : ws.length ≤ x.Input.length := by
    have := length_le_encodeRunes ws
    rw [hs.1]; simp only [List.length_append]; omega
  obtain ⟨n, hn⟩ : ∃ n, 4 * x.Input.length + 8 = ((n + 1) + ws.length) + 1 :=
    ⟨4 * x.Input.length + 6 - ws.length, by omega⟩
  obtain ⟨x1, he1, hs1, ha1⟩ := lexModeInterpolation_skip u y
    (encodeRunes (r :: rs) ++ (AppendRune t ++ suf)) d ws (n + 1) (lexStart x) pre hws hs0
    (Or.inl ha0)
  have hid' : ∀ q ∈ r :: rs, validRune q = true ∧ q ≠ 0 ∧ u.idRune q = true := by
    intro q hq
    obtain ⟨hv, hi⟩ := hid q hq
    exact ⟨hv, (reserved_false q (idRune_facts u hu q hi)).1, hi⟩
  obtain ⟨hrv, hri⟩ := hid r (List.mem_cons_self _ _)
  obtain ⟨hr0, hrs, h34, h125, h40, h41, h44⟩ := reserved_false r (idRune_facts u hu r hri)
  have hs1' : sitsAt x1 (pre ++ encodeRunes ws)
      (AppendRune r ++ (encodeRunes rs ++ (AppendRune t ++ suf))) parserModeInterpolation d := by
    simpa [encodeRunes, List.append_assoc] using hs1
  obtain ⟨x2, hn2, hs2, hc2, hw2, hm2⟩ := next_at x1 _ r _ _ _ hs1' hrv ha1
  obtain ⟨hb, hba⟩ := backup_at x2 _ (AppendRune r) _ _ _ hs2 hw2 hc2
  have hmb : marked x2.backup = true := by rw [marked_backup _ hba]; exact hm2
  have hb' : sitsAt x2.backup (pre ++ encodeRunes ws)
      (encodeRunes (r :: rs) ++ (AppendRune t ++ suf)) parserModeInterpolation d := by
    simpa [encodeRunes, List.append_assoc] using hb
  have hlen2 : (r :: rs).length ≤ x2.backup.Input.length := by
    have := length_le_encodeRunes (r :: rs)
    rw [hb'.1]; simp only [List.length_append]; omega
  obtain ⟨k, hk⟩ : ∃ k, x2.backup.Input.length + 1 = k + (r :: rs).length + 1 :=
    ⟨x2.backup.Input.length - (r :: rs).length, by omega⟩
  obtain ⟨x3, hl3, hs3, hm3⟩ := lexIdLoop_run u t suf _ d ht ht0
    (not_idRune_of_reserved u hu t htr) (r :: rs) k x2.backup _ [] hid' hb' hmb
  obtain ⟨p, hp, hpc⟩ := marked_some x3 hm3
  refine ⟨x3, p, ?_, hpc, by simpa [List.append_assoc] using hs3⟩
  rw [Lex_eq, hn, lex_succ, if_neg (by rw [hs0.2.2.1]; decide), if_pos hs0.2.2.1, he1,
    lexModeInterpolation, hn2]
  dsimp only
  have h0 : ¬ r = lexEOF := hr0
  rw [if_neg h0, hrs]
  simp only [Bool.false_eq_true, if_false]
  rw [if_neg h34, if_neg h125, if_neg h40, if_neg h41, if_neg h44]
  unfold lexId
  rw [hk, hl3]
  dsimp only
  unfold lexDeferred
  dsimp only
  rw [if_pos rfl, hp]
  simp

theorem Lex_closes (u : UnicodeTables) (x : parserLex) (y : parserSymType) (tk : parserToken)
    (pre : List Nat) (ws : List Rune) (suf : List Nat) (d : Int)
    (hy : y.token = some tk) (hcol : tk.Pos.Column ≠ 0)
    (hs : sitsAt x pre (encodeRunes ws ++ ([125] ++ suf)) parserModeInterpolation d)
    (hws : ∀ q ∈ ws, IsSpace q = true) :
    ∃ x', parserLex.Lex u x y = .ok (Token.PROGRAM_BRACKET_RIGHT, x', y) ∧
      sitsAt x' (pre ++ encodeRunes ws ++ [125]) suf parserModeLiteral (d - 1) := by
  obtain ⟨hs0, ha0, hi0⟩ := lexStart_sitsAt x _ _ _ _ hs (by decide)
  have hlen : ws.length ≤ x.Input.length := by
    have := length_le_encodeRunes ws
    rw [hs.1]; simp only [List.length_append]; omega
  obtain ⟨n, hn⟩ : ∃ n, 4 * x.Input.length + 8 = ((n + 1) + ws.length) + 1 :=
    ⟨4 * x.Input.length + 6 - ws.length, by omega⟩
  obtain ⟨x1, he1, hs1, ha1⟩ := lexModeInterpolation_skip u y ([125] ++ suf) d ws (n + 1)
    (lexStart x) pre hws hs0 (Or.inl ha0)
  have e125 : AppendRune 125 = [125] := rfl
  have hs1' : sitsAt x1 (pre ++ encodeRunes ws) (AppendRune 125 ++ suf)
      parserModeInterpolation d := by
    rw [e125]; exact hs1
  obtain ⟨x2, hn2, hs2, -, -, -⟩ := next_at x1 _ 125 _ _ _ hs1' (by decide) ha1
  obtain ⟨hin, hpos, hmode, hd, hc, hll, herr⟩ := hs2
  refine ⟨{ x2 with interpolationDepth := x2.interpolationDepth - 1,
                    mode := parserModeLiteral }, ?_, ?_⟩
  · rw [Lex_eq, hn, lex_succ, if_neg (by rw [hs0.2.2.1]; decide), if_pos hs0.2.2.1, he1,
      lexModeInterpolation, hn2]
    dsimp only
    have h0 : ¬ ((125 : Rune) = lexEOF) := by decide
    have hsp : IsSpace 125 = false := by decide
    rw [if_neg h0, hsp]
    simp only [Bool.false_eq_true, if_false, if_true]
    exact lexDeferred_set _ _ _ tk hy hcol
  · refine ⟨?_, ?_, rfl, ?_, hc, hll, herr⟩
    · rw [hin, e125]
    · rw [hpos, e125]
    · show x2.interpolationDepth - 1 = d - 1
      rw [hd]

theorem Lex_at_end (u : UnicodeTables) (x : parserLex) (y : parserSymType) (tk : parserToken)
    (pre : List Nat) (d : Int) (hy : y.token = some tk) (hcol : tk.Pos.Column ≠ 0)
    (hs : sitsAt x pre [] parserModeLiteral d) :
    ∃ x', parserLex.Lex u x y = .ok (Token.lexEOF, x', y) ∧ x'.Err = none := by
  obtain ⟨hs0, ha0, hi0⟩ := lexStart_sitsAt x _ _ _ _ hs (by decide)
  refine ⟨{ lexStart x with width := 0 }, ?_, hs0.2.2.2.2.2.2⟩
  have hf : 4 * x.Input.length + 8 = (4 * x.Input.length + 6) + 1 + 1 := by omega
  rw [Lex_eq, hf, lex_succ, if_pos hs0.2.2.1, lexModeLiteral, next_at_end _ pre _ d hs0]
  dsimp only
  rw [if_pos rfl]
  exact lexDeferred_set _ _ _ tk hy hcol

theorem lexRun_succ (u : UnicodeTables) (n : Nat) (x : parserLex) (y : parserSymType) :
    lexRun u (n + 1) x y =
      match parserLex.Lex u x y with
      | .error e => .error e
      | .ok (tok, x, yylval) =>
        match lexRun u n x yylval with
        | .error e => .error e
        | .ok (toks, x, yylval) => .ok (tok :: toks, x, yylval) := by
  rw [lexRun]

/-- C22: for tables in which no letter and no number is a rune that means
something else in an interpolation, and a non-empty identifier `id` of
letters, numbers and the four signs, the calls of `Lex` on a fresh lexer for
dollar, brace, white space, `id`, white space, brace return
`PROGRAM_BRACKET_LEFT` and then `IDENTIFIER` with the value `id`, and the
four calls return those two, `PROGRAM_BRACKET_RIGHT` and `lexEOF`, with no
error recorded; the white space may be empty. -/
theorem interpolated_identifier_tokens (u : UnicodeTables) (ws1 id ws2 : List Rune)
    (hu : ∀ r, reserved r = true → u.IsLetter r = false ∧ u.IsNumber r = false)
    (hne : id ≠ [])
    (hid : ∀ r ∈ id, validRune r = true ∧ u.idRune r = true)
    (hws1 : ∀ r ∈ ws1, IsSpace r = true) (hws2 : ∀ r ∈ ws2, IsSpace r = true) :
    (∃ x p, lexRun u 2
        (fresh ([36, 123] ++ encodeRunes ws1 ++ encodeRunes id ++ encodeRunes ws2 ++ [125]))
        { token := none } =
      .ok ([Token.PROGRAM_BRACKET_LEFT, Token.IDENTIFIER], x,
        { token := some { Value := encodeRunes id, Pos := p } })) ∧
    (∃ x p, lexRun u 4
        (fresh ([36, 123] ++ encodeRunes ws1 ++ encodeRunes id ++ encodeRunes ws2 ++ [125]))
        { token := none } =
      .ok ([Token.PROGRAM_BRACKET_LEFT, Token.IDENTIFIER, Token.PROGRAM_BRACKET_RIGHT,
        Token.lexEOF], x, { token := some { Value := encodeRunes id, Pos := p } }) ∧
      x.Err = none) := by
  obtain ⟨r, rs, rfl⟩ : ∃ r rs, id = r :: rs := by
    cases id with
    | nil => exact absurd rfl hne
    | cons r rs => exact ⟨r, rs, rfl⟩
  obtain ⟨t, suf, ht, ht0, htr, hsuf⟩ : ∃ t suf, validRune t = true ∧ t ≠ 0 ∧
      reserved t = true ∧ encodeRunes ws2 ++ [125] = AppendRune t ++ suf := by
    cases ws2 with
    | nil => exact ⟨125, [], by decide, by decide, by decide, rfl⟩
    | cons w ws =>
      obtain ⟨hv, h0, hr⟩ := isSpace_facts w (hws2 w (List.mem_cons_self _ _))
      exact ⟨w, encodeRunes ws ++ [125], hv, h0, hr, by simp [encodeRunes]⟩
  have hinput : [36, 123] ++ encodeRunes ws1 ++ encodeRunes (r :: rs) ++ encodeRunes ws2 ++ [125] =
      [36, 123] ++ (encodeRunes ws1 ++ (encodeRunes (r :: rs) ++ (AppendRune t ++ suf))) := by
    rw [← hsuf]; simp only [List.append_assoc]
  rw [hinput]
  obtain ⟨x1, h1, hs1⟩ := Lex_opens u
    (encodeRunes ws1 ++ (encodeRunes (r :: rs) ++ (AppendRune t ++ suf)))
  obtain ⟨x2, p, h2, hp, hs2⟩ := Lex_identifier u hu x1 { token := none } [36, 123] ws1 r rs t
    suf 1 hs1 hws1 hid ht ht0 htr
  have hs2' : sitsAt x2 ([36, 123] ++ encodeRunes ws1 ++ encodeRunes (r :: rs))
      (encodeRunes ws2 ++ ([125] ++ [])) parserModeInterpolation 1 := by
    rw [← hsuf] at hs2; simpa using hs2
  have hpc : ({ Value := encodeRunes (r :: rs), Pos := p } : parserToken).Pos.Column ≠ 0 := by
    show p.Column ≠ 0
    omega
  obtain ⟨x3, h3, hs3⟩ := Lex_closes u x2 _ _ _ ws2 [] 1 rfl hpc hs2' hws2
  obtain ⟨x4, h4, he4⟩ := Lex_at_end u x3 _ _ _ _ rfl hpc hs3
  refine ⟨⟨x2, p, ?_⟩, ⟨x4, p, ?_, he4⟩⟩
  · rw [lexRun_succ, h1]
    dsimp only
    rw [lexRun_succ, h2]
    rfl
  · rw [lexRun_succ, h1]
    dsimp only
    rw [lexRun_succ, h2]
    dsimp only
    rw [lexRun_succ, h3]
    dsimp only
    rw [lexRun_succ, h4]
    rfl

/-- C21: on the input that is one dollar sign the first call of `Lex`
returns `STRING` with a token that has no bytes, not the dollar sign, and the
second call returns `lexEOF`; on a dollar sign before a rune of two bytes the
first call panics, the position having gone below zero. -/
theorem leading_dollar_is_lost (u : UnicodeTables) :
    parserLex.Lex u (fresh Sample.dollar) { token := none } =
        .ok (Token.STRING, Sample.afterDollar, Sample.dollarVal) ∧
      Sample.dollarVal.token.map (fun t => t.Value) ≠ some Sample.dollar ∧
      parserLex.Lex u Sample.afterDollar Sample.dollarVal =
        .ok (Token.lexEOF, { Sample.afterDollar with astPos := none }, Sample.dollarVal) ∧
      parserLex.Lex u (fresh Sample.dollarAccent) { token := none } =
        .error "slice bounds out of range" := by
  refine ⟨?_, by decide, ?_, ?_⟩
  · simp [parserLex.Lex, lex, lexModeLiteral, lexString, lexStringLoop, next, backup, peek,
      DecodeRuneInString, Sample.dollar, Sample.afterDollar, Sample.dollarVal, fresh,
      parserModeInvalid, parserModeLiteral, parserModeInterpolation, lexEOF]
  · simp [parserLex.Lex, lex, lexModeLiteral, lexString, lexStringLoop, next, backup, peek,
      DecodeRuneInString, Sample.dollar, Sample.afterDollar, Sample.dollarVal, fresh,
      parserModeInvalid, parserModeLiteral, parserModeInterpolation, lexEOF]
  · simp [parserLex.Lex, lex, lexModeLiteral, lexString, lexStringLoop, next, backup, peek,
      DecodeRuneInString, Sample.dollarAccent, fresh, isCont, RuneError,
      parserModeInvalid, parserModeLiteral, parserModeInterpolation, lexEOF]

theorem asciiTables_reserved (r : Nat) (h : reserved r = true) :
    Sample.asciiTables.IsLetter r = false ∧ Sample.asciiTables.IsNumber r = false := by
  simp only [reserved, IsSpace, Bool.or_eq_true, decide_eq_true_eq] at h
  have h : (r = 0 ∨ (r = 9 ∨ r = 10 ∨ r = 11 ∨ r = 12 ∨ r = 13 ∨ r = 32 ∨ r = 0x85 ∨
    r = 0xA0 ∨ r = 0x1680 ∨ (0x2000 ≤ r ∧ r ≤ 0x200A) ∨ r = 0x2028 ∨ r = 0x2029 ∨
    r = 0x202F ∨ r = 0x205F ∨ r = 0x3000)) ∨ (r = 34 ∨ r = 40 ∨ r = 41 ∨ r = 44 ∨ r = 125) :=
    h
  simp only [Sample.asciiTables, decide_eq_false_iff_not]
  constructor
  · show ¬ ((65 ≤ r ∧ r ≤ 90) ∨ (97 ≤ r ∧ r ≤ 122))
    omega
  · show ¬ (48 ≤ r ∧ r ≤ 57)
    omega

theorem interpolated_identifier_tokens_witness :
    (∃ x p, lexRun Sample.asciiTables 2 (fresh Sample.spacedId) { token := none } =
      .ok ([Token.PROGRAM_BRACKET_LEFT, Token.IDENTIFIER], x,
        { token := some { Value := [97, 46, 98], Pos := p } })) ∧
    (∃ x p, lexRun Sample.asciiTables 4 (fresh Sample.spacedId) { token := none } =
      .ok ([Token.PROGRAM_BRACKET_LEFT, Token.IDENTIFIER, Token.PROGRAM_BRACKET_RIGHT,
        Token.lexEOF], x, { token := some { Value := [97, 46, 98], Pos := p } }) ∧
      x.Err = none) :=
  interpolated_identifier_tokens Sample.asciiTables [32] [97, 46, 98] [] asciiTables_reserved
    (by decide) (by decide) (by decide) (by decide)

end Lang

/-! ## Saving a bookmark and loading it again (C17) -/

namespace Cloudplan

open Stackeval

theorem char_toNat_ofNat (r : Nat) (h : Lang.validRune r = true) : (Char.ofNat r).toNat = r := by
  simp only [Lang.validRune, decide_eq_true_eq] at h
  have h : r < 0xD800 ∨ (0xE000 ≤ r ∧ r ≤ 0x10FFFF) := h
  have hv : r.isValidChar := by
    unfold Nat.isValidChar
    omega
  simp [Char.ofNat, hv, Char.toNat, Char.ofNatAux]
  rfl

theorem utf8TextLoop_encodeRunes (rs : List Lang.Rune)
    (hv : ∀ r ∈ rs, Lang.validRune r = true) :
    ∀ n, (Lang.encodeRunes rs).length ≤ n →
      utf8TextLoop n (Lang.encodeRunes rs) = rs.map Char.ofNat := by
  induction rs with
  | nil =>
    intro n _
    cases n <;> rfl
  | cons r rs ih =>
    intro n hn
    have hr := hv r (List.mem_cons_self _ _)
    have hpos := Lang.appendRune_length_pos r
    have hlen : (Lang.encodeRunes (r :: rs)).length =
        (Lang.AppendRune r).length + (Lang.encodeRunes rs).length := by
      simp [Lang.encodeRunes]
    obtain ⟨b, tl, hb⟩ : ∃ b tl, Lang.encodeRunes (r :: rs) = b :: tl := by
      cases he : Lang.encodeRunes (r :: rs) with
      | nil => rw [he] at hlen; simp at hlen; omega
      | cons b tl => exact ⟨b, tl, rfl⟩
    obtain ⟨m, rfl⟩ : ∃ m, n = m + 1 := ⟨n - 1, by omega⟩
    rw [hb, utf8TextLoop, ← hb]
    have hd : Lang.DecodeRuneInString (Lang.encodeRunes (r :: rs)) =
        (r, ((Lang.AppendRune r).length : Int)) := Lang.decode_appendRune r _ hr
    rw [hd]
    dsimp only
    have hdrop : List.drop ((Lang.AppendRune r).length : Int).toNat
        (Lang.encodeRunes (r :: rs)) = Lang.encodeRunes rs := by
      rw [Int.toNat_ofNat]
      show List.drop _ (Lang.AppendRune r ++ Lang.encodeRunes rs) = _
      rw [List.drop_left]
    rw [hdrop, ih (fun q hq => hv q (List.mem_cons_of_mem _ hq)) m (by omega)]
    rfl

theorem utf8Bytes_utf8Text (rs : List Lang.Rune) (hv : ∀ r ∈ rs, Lang.validRune r = true) :
    utf8Bytes (utf8Text (Lang.encodeRunes rs)) = Lang.encodeRunes rs := by
  unfold utf8Bytes utf8Text
  rw [utf8TextLoop_encodeRunes rs hv _ (le_refl _)]
  show Lang.encodeRunes ((rs.map Char.ofNat).map Char.toNat) = _
  congr 1
  rw [List.map_map]
  conv_rhs => rw [← List.map_id rs]
  apply List.map_congr_left
  intro r hr
  exact char_toNat_ofNat r (hv r hr)

theorem utf8Bytes_utf8Text_ne_nil (bytes : List Nat) (h : bytes ≠ []) :
    utf8Bytes (utf8Text bytes) ≠ [] := by
  cases bytes with
  | nil => exact absurd rfl h
  | cons b rest =>
    have hpos := Lang.appendRune_length_pos
      (Char.ofNat (Lang.DecodeRuneInString (b :: rest)).1).toNat
    have he : utf8Bytes (utf8Text (b :: rest)) =
        Lang.AppendRune (Char.ofNat (Lang.DecodeRuneInString (b :: rest)).1).toNat ++
          Lang.encodeRunes ((utf8TextLoop rest.length
            ((b :: rest).drop (Lang.DecodeRuneInString (b :: rest)).2.toNat)).map
              Char.toNat) := rfl
    intro hn
    rw [he] at hn
    have hl := congrArg List.length hn
    rw [List.length_append, List.length_nil] at hl
    omega

theorem unmarshal_marshal (s : SavedPlanBookmark) (b : SavedPlanBookmark)
    (hfits : fitsInt s.RemotePlanFormat = true) :
    Unmarshal (Marshal s) b =
      ({ s with RunID := utf8Bytes (utf8Text s.RunID),
                Hostname := utf8Bytes (utf8Text s.Hostname) }, none) := by
  have h1 : fieldFor "remote_plan_format" = some Field.RemotePlanFormat := by decide
  have h2 : fieldFor "run_id" = some Field.RunID := by decide
  have h3 : fieldFor "hostname" = some Field.Hostname := by decide
  simp [Unmarshal, Marshal, unmarshalFields, h1, h2, h3, decodeField, hfits]

theorem save_then_load_coerced (s : SavedPlanBookmark) (fs : FileSystem) (filepath : String)
    (hformat : s.RemotePlanFormat = 1) (hrun : s.RunID ≠ []) (hhost : s.Hostname ≠ [])
    (hwrite : fs.writeFails filepath = none) (hopen : fs.openFails filepath = none)
    (hread : fs.readFails filepath = none) :
    (s.Save fs filepath).1 = none ∧
      LoadSavedPlanBookmark (s.Save fs filepath).2 filepath =
        ({ s with RunID := utf8Bytes (utf8Text s.RunID),
                  Hostname := utf8Bytes (utf8Text s.Hostname) }, none) := by
  have hsave : s.Save fs filepath =
      (none, { fs with files := GoMap.store fs.files filepath (Marshal s) }) := by
    simp [SavedPlanBookmark.Save, FileSystem.WriteFile, hwrite]
  refine ⟨by rw [hsave], ?_⟩
  rw [hsave]
  have hload := load_of_valid_json
    { fs with files := GoMap.store fs.files filepath (Marshal s) } filepath (Marshal s) _
    hopen hread (by simp [GoMap.lookup_store])
    (unmarshal_marshal s _ (by rw [hformat]; decide))
  show LoadSavedPlanBookmark
    { fs with files := GoMap.store fs.files filepath (Marshal s) } filepath = _
  rw [hload]
  simp [hformat, utf8Bytes_utf8Text_ne_nil _ hrun, utf8Bytes_utf8Text_ne_nil _ hhost]

/-- C17, refuted as worded: the sample bookmark has `RemotePlanFormat = 1`, a
hostname and the run ID of the one byte 255; `Save` and then
`LoadSavedPlanBookmark` return nil errors, and the bookmark that comes back
has the three bytes of U+FFFD as its run ID, so it differs from the
original. -/
theorem save_then_load_coerces_invalid_bytes :
    Sample.rawBookmark.RemotePlanFormat = 1 ∧ Sample.rawBookmark.RunID ≠ [] ∧
      Sample.rawBookmark.Hostname ≠ [] ∧
      (Sample.rawBookmark.Save Sample.emptyFs "plan.tfplan").1 = none ∧
      LoadSavedPlanBookmark (Sample.rawBookmark.Save Sample.emptyFs "plan.tfplan").2
        "plan.tfplan" = (Sample.coercedBookmark, none) ∧
      Sample.coercedBookmark ≠ Sample.rawBookmark := by
  have h := save_then_load_coerced Sample.rawBookmark Sample.emptyFs "plan.tfplan" rfl
    (by decide) (by decide) rfl rfl rfl
  refine ⟨rfl, by decide, by decide, h.1, ?_, by decide⟩
  rw [h.2]
  have e : ({ Sample.rawBookmark with
      RunID := utf8Bytes (utf8Text Sample.rawBookmark.RunID),
      Hostname := utf8Bytes (utf8Text Sample.rawBookmark.Hostname) } : SavedPlanBookmark) =
      Sample.coercedBookmark := by decide
  rw [e]

/-- C17, amended: for every bookmark with `RemotePlanFormat = 1`, a non-empty
`RunID` and a non-empty `Hostname`, when writing, opening and reading the
path do not fail, `Save` returns a nil error and `LoadSavedPlanBookmark` of
the same path afterwards returns a nil error and the bookmark in which both
strings are coerced to valid UTF-8; when both strings are valid UTF-8, that
is the encoding of Unicode scalar values, this is the original bookmark. -/
theorem save_then_load (s : SavedPlanBookmark) (fs : FileSystem) (filepath : String)
    (hformat : s.RemotePlanFormat = 1) (hrun : s.RunID ≠ []) (hhost : s.Hostname ≠ [])
    (hwrite : fs.writeFails filepath = none) (hopen : fs.openFails filepath = none)
    (hread : fs.readFails filepath = none) :
    (s.Save fs filepath).1 = none ∧
      LoadSavedPlanBookmark (s.Save fs filepath).2 filepath =
        ({ s with RunID := utf8Bytes (utf8Text s.RunID),
                  Hostname := utf8Bytes (utf8Text s.Hostname) }, none) ∧
      ∀ run host : List Lang.Rune,
        (∀ r ∈ run, Lang.validRune r = true) → s.RunID = Lang.encodeRunes run →
        (∀ r ∈ host, Lang.validRune r = true) → s.Hostname = Lang.encodeRunes host →
        LoadSavedPlanBookmark (s.Save fs filepath).2 filepath = (s, none) := by
  obtain ⟨h1, h2⟩ := save_then_load_coerced s fs filepath hformat hrun hhost hwrite hopen hread
  refine ⟨h1, h2, ?_⟩
  intro run host hrv hre hhv hhe
  rw [h2, hre, hhe, utf8Bytes_utf8Text run hrv, utf8Bytes_utf8Text host hhv, ← hre, ← hhe]

/-- C17, on the sample bookmark and the empty file system: the bytes of the
run ID and of the hostname are ASCII, and the bookmark comes back as it
was. -/
theorem save_then_load_witness :
    (Sample.bookmark0.Save Sample.emptyFs "plan.tfplan").1 = none ∧
      LoadSavedPlanBookmark (Sample.bookmark0.Save Sample.emptyFs "plan.tfplan").2
        "plan.tfplan" = (Sample.bookmark0, none) :=
  ⟨(save_then_load Sample.bookmark0 Sample.emptyFs "plan.tfplan" rfl (by decide) (by decide)
      rfl rfl rfl).1,
    (save_then_load Sample.bookmark0 Sample.emptyFs "plan.tfplan" rfl (by decide) (by decide)
      rfl rfl rfl).2.2
      (("run-GXfuHMkbyHccAGUg" : String).data.map Char.toNat)
      (("app.terraform.io" : String).data.map Char.toNat)
      (by decide) rfl (by decide) rfl⟩

end Cloudplan
